import Mathlib

/-!
Verification of the kintone query-language engine: a shallow embedding of
the text parser (`KintoneQueryParser` in `src/query-parser.ts`), the
canonical serializer (`ASTToQueryBuilder` in the AST-builder module), the
escape helpers (`escapeValue`), and the operator/value-shape validator
(`QueryExpressionSchema` in `src/types.ts`), together with theorems about
round-tripping, precedence, pagination bounds, trailing input, and
error-handling policy.

Conventions of the embedding:
* Input text is a `List Char`; JS string indices become list positions.
* JS numbers are idealized as `ℚ` (every numeric literal in the grammar
  denotes a finite decimal, which `ℚ` represents exactly).
* JS character classes (`\s`, the field-name class, …) are modelled
  char-by-char; `toLowerCase` is modelled as ASCII case folding.
* The recursive-descent parser threads an explicit state
  (input, position, diagnostics) and recursion is bounded by fuel; the
  top-level entry points supply `input.length + 1` fuel, which is proved
  sufficient for every success statement below.
-/

namespace KQuery

/-- JS `\s` whitespace class (the members relevant to this grammar),
expressed on code points. -/
def isWsChar (c : Char) : Bool :=
  let n := c.toNat
  n == 32 || n == 9 || n == 10 || n == 13 || n == 11 || n == 12 ||
  n == 0xa0 || n == 0x1680 || (0x2000 ≤ n && n ≤ 0x200a) ||
  n == 0x2028 || n == 0x2029 || n == 0x202f || n == 0x205f ||
  n == 0x3000 || n == 0xfeff

/-- ASCII case folding, the model of JS `toLowerCase` used by the parser's
clause-keyword lookahead. -/
def asciiLower (c : Char) : Char :=
  if 65 ≤ c.toNat ∧ c.toNat ≤ 90 then Char.ofNat (c.toNat + 32) else c

def isDigitChar (c : Char) : Bool := 48 ≤ c.toNat && c.toNat ≤ 57

/-- The field-name character class of `parseFieldName`: ASCII
alphanumerics, underscore, dot, and the hiragana / katakana / CJK ranges
of the source regex. -/
def isFieldChar (c : Char) : Bool :=
  let n := c.toNat
  (97 ≤ n && n ≤ 122) || (65 ≤ n && n ≤ 90) || (48 ≤ n && n ≤ 57) ||
  n == 95 || n == 46 ||
  (0x3040 ≤ n && n ≤ 0x309F) || (0x30A0 ≤ n && n ≤ 0x30FF) ||
  (0x4E00 ≤ n && n ≤ 0x9FAF) || (0x3400 ≤ n && n ≤ 0x4DBF)

def isUpperAZ (c : Char) : Bool := 65 ≤ c.toNat && c.toNat ≤ 90

/-- Function-name character class `[A-Z_]`. -/
def isFuncChar (c : Char) : Bool := isUpperAZ c || c.toNat == 95

/-- The keyword-boundary class of `consumeKeyword`: whitespace or one of
`()=!<>,`. -/
def isBoundaryChar (c : Char) : Bool :=
  isWsChar c || c.toNat == 40 || c.toNat == 41 || c.toNat == 61 ||
  c.toNat == 33 || c.toNat == 60 || c.toNat == 62 || c.toNat == 44

/-- JS `String.prototype.trim`. -/
def jsTrim (l : List Char) : List Char :=
  ((l.dropWhile isWsChar).reverse.dropWhile isWsChar).reverse

/-- `c.toNat - 48`, the numeric value of a digit character. -/
def digitVal (c : Char) : Nat := c.toNat - 48

-- ============================================================
-- escapeValue / unescaping  (src/escape.ts and parseString)
-- ============================================================

/-- Per-character token of `escapeValue`: a backslash becomes `\\`, a double
quote becomes `\"`, anything else stands for itself. -/
def escTok (c : Char) : List Char :=
  if c = '\\' then ['\\', '\\']
  else if c = '"' then ['\\', '"']
  else [c]

/-- `escapeValue` from src: double every backslash, then backslash-prefix
every double quote (the two sequential global replaces commute into this
single per-character map because the backslash pass runs first). -/
def escapeValue : List Char → List Char
  | [] => []
  | c :: rest => escTok c ++ escapeValue rest

/-- JS `String.prototype.replace` with a global two-character fixed pattern:
left-to-right, non-overlapping. -/
def replace2 (a b r : Char) : List Char → List Char
  | [] => []
  | [c] => [c]
  | c1 :: c2 :: rest =>
    if c1 = a ∧ c2 = b then r :: replace2 a b r rest
    else c1 :: replace2 a b r (c2 :: rest)

/-- The unescape step at the end of `parseString`:
`value.replace(/\\"/g, '"').replace(/\\\\/g, '\\')`. -/
def unescapeValue (l : List Char) : List Char :=
  replace2 '\\' '\\' '\\' (replace2 '\\' '"' '"' l)

/-- Intermediate form: after the `\"` pass, backslashes of the source are
still doubled but quotes are bare again. -/
def escSlash : List Char → List Char
  | [] => []
  | c :: rest => (if c = '\\' then ['\\', '\\'] else [c]) ++ escSlash rest

-- ============================================================
-- Decimal numerals (JS `String(n)` for integers, and digit parsing)
-- ============================================================

/-- Decimal digits, fuel-bounded so that the definition is structural
(`natDecimal` supplies ample fuel). -/
def natDecimalAux : Nat → Nat → List Char
  | 0, _ => []
  | fuel + 1, n =>
    if n < 10 then [Char.ofNat (48 + n)]
    else natDecimalAux fuel (n / 10) ++ [Char.ofNat (48 + n % 10)]

/-- Decimal digits of a natural number, most significant first. -/
def natDecimal (n : Nat) : List Char := natDecimalAux (n + 1) n

/-- `String(i)` for an integer-valued JS number. -/
def intDecimal (i : Int) : List Char :=
  if i < 0 then '-' :: natDecimal i.natAbs else natDecimal i.natAbs

/-- Value of a digit list, most significant first (accumulator form). -/
def natFromDigits (l : List Char) : Nat :=
  l.foldl (fun a c => 10 * a + digitVal c) 0

-- ============================================================
-- JS number rendering (`String(n)` on the ℚ idealization)
-- ============================================================

/-- Decimal digits of the fractional part `fr/d`, by long division; the fuel
bound is far beyond what any value produced by the grammar needs. -/
def fracDigits : Nat → Nat → Nat → List Char
  | 0, _, _ => []
  | fuel + 1, fr, d =>
    if fr = 0 then []
    else Char.ofNat (48 + fr * 10 / d) :: fracDigits fuel (fr * 10 % d) d

/-- `String(q)` for a JS number: minimal decimal notation. -/
def qToChars (q : ℚ) : List Char :=
  (if q.num < 0 then ['-'] else []) ++ natDecimal (q.num.natAbs / q.den) ++
  (if q.den = 1 then [] else '.' :: fracDigits 1100 (q.num.natAbs % q.den) q.den)

-- ============================================================
-- The AST model (src/types.ts)
-- ============================================================

/-- The 12 fixed kintone operators (`KintoneOperatorSchema`). -/
inductive Op where
  | eq | ne | gt | lt | ge | le | opIn | opNotIn | like | notLike | opIsEmpty | opIsNotEmpty
deriving DecidableEq, Repr

/-- The literal text of an operator. -/
def opChars : Op → List Char
  | .eq => "=".data
  | .ne => "!=".data
  | .gt => ">".data
  | .lt => "<".data
  | .ge => ">=".data
  | .le => "<=".data
  | .opIn => "in".data
  | .opNotIn => "not in".data
  | .like => "like".data
  | .notLike => "not like".data
  | .opIsEmpty => "is empty".data
  | .opIsNotEmpty => "is not empty".data

/-- An `unknown` predicate value: string, number, array, `FunctionCall`
object, or null/undefined (the latter two conflated as `vnull`). -/
inductive JSValue where
  | vstr (s : List Char)
  | vnum (q : ℚ)
  | varr (elems : List JSValue)
  | vfunc (name : List Char) (args : Option (List JSValue))
  | vnull

/-- `Expression` from src/types.ts: `QueryExpression | LogicalExpression |
NotExpression | FunctionCall`. -/
inductive Expr where
  | pred (field : List Char) (op : Op) (value : JSValue)
  | eand (l r : Expr)
  | eor (l r : Expr)
  | enot (e : Expr)
  | efunc (name : List Char) (args : Option (List JSValue))

inductive Dir where
  | asc | desc
deriving DecidableEq, Repr

def dirChars : Dir → List Char
  | .asc => "asc".data
  | .desc => "desc".data

structure OrderByClause where
  field : List Char
  direction : Dir
deriving DecidableEq, Repr

/-- `CompleteQueryAST`: all four clauses optional. -/
structure CompleteQueryAST where
  whereE : Option Expr := none
  orderBy : Option (List OrderByClause) := none
  limit : Option ℚ := none
  offset : Option ℚ := none

-- ============================================================
-- The validator (QueryExpressionSchema decode checks)
-- ============================================================

/-- The operator/value-shape rule enforced by the transform in
`QueryExpressionSchema`: `in`/`not in` require an array or a FunctionCall
object; `is empty`/`is not empty` require null/undefined; `like`/`not like`
require a string; every other operator accepts anything. -/
def shapeOk : Op → JSValue → Bool
  | .opIn, v | .opNotIn, v =>
    match v with
    | .varr _ => true
    | .vfunc _ _ => true
    | _ => false
  | .opIsEmpty, v | .opIsNotEmpty, v =>
    match v with
    | .vnull => true
    | _ => false
  | .like, v | .notLike, v =>
    match v with
    | .vstr _ => true
    | _ => false
  | _, _ => true

/-- A diagnostic sent to the logging sink by `validateQueryExpression`
when schema validation fails. -/
structure Diag where
  message : List Char
  dfield : List Char
  dop : Op
deriving DecidableEq, Repr

-- ============================================================
-- The serializer (ASTToQueryBuilder)
-- ============================================================

/-- `String(arg)` on a non-string argument (only the number branch is
reachable from grammar-produced values; the object branches render the
JS `toString` defaults). -/
def jsFallbackChars : JSValue → List Char
  | .vnum q => qToChars q
  | .vnull => "null".data
  | .vstr s => s
  | .varr _ => "".data
  | .vfunc _ _ => "[object Object]".data

/-- `^[A-Z_]+$`: nonempty and every character uppercase or underscore. -/
def isUpperToken (s : List Char) : Bool :=
  !s.isEmpty && s.all isFuncChar

/-- A function-call argument as emitted by the serializer: grammar-constant
strings bare, other strings double-quoted verbatim, non-strings via
`String(arg)`. -/
def argChars : JSValue → List Char
  | .vstr s => if isUpperToken s then s else '"' :: (s ++ ['"'])
  | v => jsFallbackChars v

def argListChars : List JSValue → List Char
  | [] => []
  | [v] => argChars v
  | v :: rest => argChars v ++ ", ".data ++ argListChars rest

/-- Serialization of a `FunctionCall` value: `NAME()` without args,
`NAME(a1, a2, …)` with them. -/
def funcCallChars (name : List Char) : Option (List JSValue) → List Char
  | some (a :: rest) => name ++ '(' :: (argListChars (a :: rest) ++ [')'])
  | _ => name ++ "()".data

mutual

/-- `ASTToQueryBuilder.formatValue`. -/
def formatValue : JSValue → List Char
  | .vnull => "null".data
  | .vstr s => '"' :: (escapeValue s ++ ['"'])
  | .varr items => '(' :: (formatValueList items ++ [')'])
  | .vfunc name args => funcCallChars name args
  | .vnum q => qToChars q

/-- Array items, comma-space joined. -/
def formatValueList : List JSValue → List Char
  | [] => []
  | [v] => formatValue v
  | v :: rest => formatValue v ++ ", ".data ++ formatValueList rest

end

/-- `expr.field.startsWith('r.') ? expr.field.substring(2) : expr.field`. -/
def stripRDot (f : List Char) : List Char :=
  if f.take 2 = ['r', '.'] then f.drop 2 else f

/-- `ASTToQueryBuilder.expressionToString`. -/
def expressionToString : Expr → List Char
  | .pred f op v =>
    if op = .opIsEmpty ∨ op = .opIsNotEmpty then
      stripRDot f ++ ' ' :: opChars op
    else
      stripRDot f ++ ' ' :: (opChars op ++ ' ' :: formatValue v)
  | .eand l r =>
    '(' :: (expressionToString l ++ " and ".data ++ expressionToString r ++ [')'])
  | .eor l r =>
    '(' :: (expressionToString l ++ " or ".data ++ expressionToString r ++ [')'])
  | .enot e => "not ".data ++ expressionToString e
  | .efunc name args => funcCallChars name args

/-- One `order by` clause list: `f1 d1, f2 d2, …`. -/
def orderByChars : List OrderByClause → List Char
  | [] => []
  | [c] => c.field ++ ' ' :: dirChars c.direction
  | c :: rest => (c.field ++ ' ' :: dirChars c.direction) ++ ", ".data ++ orderByChars rest

/-- `queryParts.join(' ')`. -/
def joinSpace : List (List Char) → List Char
  | [] => []
  | [p] => p
  | p :: rest => p ++ ' ' :: joinSpace rest

/-- `ASTToQueryBuilder.generate`: predicate, `order by`, `limit`, `offset`,
space-joined, absent parts omitted. -/
def generate (ast : CompleteQueryAST) : List Char :=
  let p1 : List (List Char) :=
    match ast.whereE with
    | some e => if expressionToString e = [] then [] else [expressionToString e]
    | none => []
  let p2 : List (List Char) :=
    match ast.orderBy with
    | some l => if l.length > 0 then ["order by ".data ++ orderByChars l] else []
    | none => []
  let p3 : List (List Char) :=
    match ast.limit with
    | some n => ["limit ".data ++ qToChars n]
    | none => []
  let p4 : List (List Char) :=
    match ast.offset with
    | some n => ["offset ".data ++ qToChars n]
    | none => []
  joinSpace (p1 ++ p2 ++ p3 ++ p4)

-- ============================================================
-- Parser state and primitives (KintoneQueryParser)
-- ============================================================

/-- Parser state: the (trimmed) input, the cursor offset, and the
diagnostics emitted so far by the warn-and-accept validation path. -/
structure PState where
  input : List Char
  pos : Nat
  diags : List Diag

/-- The parser's failure kinds, one per `throw` site, each carrying the
offset (and, for trailing input, the offending fragment). -/
inductive PErr where
  | outOfFuel
  | trailingChars (pos : Nat) (frag : List Char)
  | expectedKw (kw : List Char) (pos : Nat)
  | expectedFieldName (pos : Nat)
  | expectedOperator (pos : Nat)
  | expectedValue (pos : Nat)
  | expectedLit (tok : List Char) (pos : Nat)
  | expectedCommaOrParen (pos : Nat)
  | invalidNumber (pos : Nat)
  | expectedNumberForLimit (pos : Nat)
  | expectedNumberForOffset (pos : Nat)
  | limitOutOfRange (q : ℚ)
  | offsetOutOfRange (q : ℚ)
deriving DecidableEq, Repr

/-- The input from the cursor on. -/
def remaining (st : PState) : List Char := st.input.drop st.pos

/-- `peek()`: the character at the cursor (`none` models JS `''`). -/
def peek? (st : PState) : Option Char := (remaining st).head?

/-- `consume(s)`: advance past `s` iff it is present at the cursor. -/
def consumeLit (tok : List Char) (st : PState) : Bool × PState :=
  if (remaining st).take tok.length = tok then
    (true, { st with pos := st.pos + tok.length })
  else (false, st)

/-- `expect(s)`. -/
def expectLit (tok : List Char) (st : PState) : Except PErr PState :=
  match consumeLit tok st with
  | (true, st') => .ok st'
  | (false, _) => .error (.expectedLit tok st.pos)

/-- Number of leading whitespace characters. -/
def wsCount (l : List Char) : Nat := (l.takeWhile isWsChar).length

/-- `skipWhitespace()`. -/
def skipWs (st : PState) : PState := { st with pos := st.pos + wsCount (remaining st) }

/-- `consumeKeyword(word)`: skip whitespace, consume the literal, and keep
it only when the next character is absent or a keyword boundary; on
failure the cursor stays after the skipped whitespace. -/
def consumeKeyword (kw : List Char) (st : PState) : Bool × PState :=
  let st1 := skipWs st
  match consumeLit kw st1 with
  | (true, st2) =>
    match peek? st2 with
    | none => (true, st2)
    | some c => if isBoundaryChar c then (true, st2) else (false, st1)
  | (false, _) => (false, st1)

/-- `expectKeyword(word)`. -/
def expectKeyword (kw : List Char) (st : PState) : Except PErr PState :=
  match consumeKeyword kw st with
  | (true, st') => .ok st'
  | (false, st') => .error (.expectedKw kw st'.pos)

/-- `hasWhereClause()`: the input (lower-cased) must not continue with
`order`, `limit` or `offset` at the cursor, and must be nonempty. The
cursor is restored, so this is a pure test. -/
def hasWhereClause (st : PState) : Bool :=
  let p := (skipWs st).pos
  let low := (st.input.map asciiLower).drop p
  if low.take 5 = "order".data ∨ low.take 5 = "limit".data ∨ low.take 6 = "offset".data then
    false
  else st.pos < st.input.length

/-- `parseFieldName()`: the maximal run of field-name characters, which
must be nonempty. -/
def parseFieldName (st : PState) : Except PErr (List Char × PState) :=
  let st1 := skipWs st
  let f := (remaining st1).takeWhile isFieldChar
  if f = [] then .error (.expectedFieldName st1.pos)
  else .ok (f, { st1 with pos := st1.pos + f.length })

/-- The scan loop of `parseString`: characters consumed before the closing
quote, a backslash skipping the next character (possibly stepping past the
end, as in the source). -/
def strScan : List Char → Nat
  | [] => 0
  | [c] => if c = '"' then 0 else if c = '\\' then 2 else 1
  | c :: c2 :: rest2 =>
    if c = '"' then 0
    else if c = '\\' then 2 + strScan rest2
    else 1 + strScan (c2 :: rest2)

/-- `parseString()`. -/
def parseString (st : PState) : Except PErr (List Char × PState) :=
  match expectLit ['"'] st with
  | .error e => .error e
  | .ok st1 =>
    let n := strScan (remaining st1)
    let raw := (remaining st1).take n
    let st2 := { st1 with pos := st1.pos + n }
    match expectLit ['"'] st2 with
    | .error e => .error e
    | .ok st3 => .ok (unescapeValue raw, st3)

def isNumTokChar (c : Char) : Bool := isDigitChar c || c == '.'

/-- JS `parseFloat` on a token drawn from `-`/digits/dots: longest valid
numeric prefix, `none` for NaN. The value `±(i + f·10^(-k))` is built as
the single exact fraction `±(i·10^k + f) / 10^k`. -/
def jsParseFloat (tok : List Char) : Option ℚ :=
  let neg := tok.head? = some '-'
  let r := if neg then tok.drop 1 else tok
  let ds := r.takeWhile isDigitChar
  let r2 := r.drop ds.length
  let fs := match r2 with
    | '.' :: r3 => r3.takeWhile isDigitChar
    | _ => []
  if ds.isEmpty ∧ fs.isEmpty then none
  else
    let k := fs.length
    let num : Int := (natFromDigits ds : Int) * 10 ^ k + (natFromDigits fs : Int)
    some (Rat.divInt (if neg then -num else num) ((10 : Int) ^ k))

/-- `parseNumber()`: optional `-`, a run of digits/dots, `parseFloat`. -/
def parseNumber (st : PState) : Except PErr (ℚ × PState) :=
  let neg := peek? st = some '-'
  let st1 := if neg then { st with pos := st.pos + 1 } else st
  let ds := (remaining st1).takeWhile isNumTokChar
  let tok := (if neg then ['-'] else []) ++ ds
  let st2 := { st1 with pos := st1.pos + ds.length }
  match jsParseFloat tok with
  | none => .error (.invalidNumber st.pos)
  | some q => .ok (q, st2)

/-- `isNumber()`. -/
def isNumberB (st : PState) : Bool :=
  match peek? st with
  | some c => c == '-' || isDigitChar c
  | none => false

/-- `isFunction()`: uppercase start, then a `[A-Z_]` run, whitespace, and
an opening parenthesis; the cursor is restored, so this is a pure test. -/
def isFunctionB (st : PState) : Bool :=
  match remaining st with
  | c :: _ =>
    isUpperAZ c &&
      ((((remaining st).dropWhile isFuncChar).dropWhile isWsChar).head? == some '(')
  | [] => false

/-- `validateQueryExpression`: schema-check the freshly built predicate;
on a shape violation log a diagnostic and pass the predicate through
unchanged (backward compatibility). -/
def validateQueryExpression (field : List Char) (op : Op) (v : JSValue)
    (st : PState) : Expr × PState :=
  if shapeOk op v then (.pred field op v, st)
  else
    (.pred field op v,
      { st with diags := st.diags ++ [⟨"Query expression validation failed".data, field, op⟩] })

/-- `parseOperator()`: two-word operators first (via `consumeKeyword`),
then the symbol and word operators in source order. -/
def parseOperator (st : PState) : Except PErr (Op × PState) :=
  let s0 := skipWs st
  let r1 := consumeKeyword "is not empty".data s0
  if r1.1 then .ok (.opIsNotEmpty, r1.2) else
  let r2 := consumeKeyword "is empty".data r1.2
  if r2.1 then .ok (.opIsEmpty, r2.2) else
  let r3 := consumeKeyword "not like".data r2.2
  if r3.1 then .ok (.notLike, r3.2) else
  let r4 := consumeKeyword "not in".data r3.2
  if r4.1 then .ok (.opNotIn, r4.2) else
  let r5 := consumeLit ">=".data r4.2
  if r5.1 then .ok (.ge, r5.2) else
  let r6 := consumeLit "<=".data r5.2
  if r6.1 then .ok (.le, r6.2) else
  let r7 := consumeLit "!=".data r6.2
  if r7.1 then .ok (.ne, r7.2) else
  let r8 := consumeLit "=".data r7.2
  if r8.1 then .ok (.eq, r8.2) else
  let r9 := consumeLit ">".data r8.2
  if r9.1 then .ok (.gt, r9.2) else
  let r10 := consumeLit "<".data r9.2
  if r10.1 then .ok (.lt, r10.2) else
  let r11 := consumeKeyword "like".data r10.2
  if r11.1 then .ok (.like, r11.2) else
  let r12 := consumeKeyword "in".data r11.2
  if r12.1 then .ok (.opIn, r12.2) else
  .error (.expectedOperator r12.2.pos)

-- ============================================================
-- The recursive-descent grammar, bounded by fuel
-- ============================================================

/-- The argument loop of `parseFunction()`, parameterized by the
single-value parser `psv` for the current nesting depth; the fuel bounds
the number of iterations. -/
def parseFuncLoopW (psv : PState → Except PErr (JSValue × PState)) :
    Nat → List JSValue → PState → Except PErr (List JSValue × PState)
  | 0, _, _ => .error .outOfFuel
  | f + 1, acc, st =>
    if peek? st = some ')' then .ok (acc.reverse, st)
    else
      match psv st with
      | .error e => .error e
      | .ok (v, st1) =>
        if peek? st1 = some ',' then
          parseFuncLoopW psv f (v :: acc) (skipWs (consumeLit [','] st1).2)
        else if peek? st1 = some ')' then parseFuncLoopW psv f (v :: acc) st1
        else .error (.expectedCommaOrParen st1.pos)

/-- `parseFunction()`: name, `(`, arguments, `)`; empty argument lists
become an absent `args`. -/
def parseFunctionW (psv : PState → Except PErr (JSValue × PState))
    (fuel : Nat) (st : PState) : Except PErr (JSValue × PState) :=
  let name := (remaining st).takeWhile isFuncChar
  let st1 := { st with pos := st.pos + name.length }
  match expectLit ['('] st1 with
  | .error e => .error e
  | .ok st2 =>
    match parseFuncLoopW psv fuel [] st2 with
    | .error e => .error e
    | .ok (args, st3) =>
      match expectLit [')'] st3 with
      | .error e => .error e
      | .ok st4 =>
        .ok (.vfunc name (if args.isEmpty then none else some args), st4)

/-- `parseSingleValue()`: string, function call, or number (no arrays);
the fuel bounds the nesting depth of function calls. -/
def parseSingleValue : Nat → PState → Except PErr (JSValue × PState)
  | 0 => fun _ => .error .outOfFuel
  | f + 1 => fun st =>
    let st1 := skipWs st
    if peek? st1 = some '"' then
      match parseString st1 with
      | .error e => .error e
      | .ok (s, st2) => .ok (.vstr s, st2)
    else if isFunctionB st1 then parseFunctionW (parseSingleValue f) f st1
    else if isNumberB st1 then
      match parseNumber st1 with
      | .error e => .error e
      | .ok (q, st2) => .ok (.vnum q, st2)
    else .error (.expectedValue st1.pos)

/-- The element loop of `parseArray()`. -/
def parseArrayLoopW (psv : PState → Except PErr (JSValue × PState)) :
    Nat → List JSValue → PState → Except PErr (List JSValue × PState)
  | 0, _, _ => .error .outOfFuel
  | f + 1, acc, st =>
    if peek? st = some ')' then .ok (acc.reverse, st)
    else
      match psv st with
      | .error e => .error e
      | .ok (v, st1) =>
        if peek? st1 = some ',' then
          parseArrayLoopW psv f (v :: acc) (skipWs (consumeLit [','] st1).2)
        else if peek? st1 = some ')' then parseArrayLoopW psv f (v :: acc) st1
        else .error (.expectedCommaOrParen st1.pos)

/-- `parseArray()`. -/
def parseArrayValW (psv : PState → Except PErr (JSValue × PState))
    (fuel : Nat) (st : PState) : Except PErr (JSValue × PState) :=
  match expectLit ['('] st with
  | .error e => .error e
  | .ok st1 =>
    match parseArrayLoopW psv fuel [] st1 with
    | .error e => .error e
    | .ok (vs, st2) =>
      match expectLit [')'] st2 with
      | .error e => .error e
      | .ok st3 => .ok (.varr vs, st3)

/-- `parseValue()`: array, string, function call, or number. -/
def parseValue : Nat → PState → Except PErr (JSValue × PState)
  | 0 => fun _ => .error .outOfFuel
  | f + 1 => fun st =>
    let st1 := skipWs st
    if peek? st1 = some '(' then parseArrayValW (parseSingleValue f) f st1
    else if peek? st1 = some '"' then
      match parseString st1 with
      | .error e => .error e
      | .ok (s, st2) => .ok (.vstr s, st2)
    else if isFunctionB st1 then parseFunctionW (parseSingleValue f) f st1
    else if isNumberB st1 then
      match parseNumber st1 with
      | .error e => .error e
      | .ok (q, st2) => .ok (.vnum q, st2)
    else .error (.expectedValue st1.pos)

/-- `parseFieldCondition()`: field, operator, value (absent for the
`is empty` operators), then schema validation; `pv` is the value parser. -/
def parseFieldConditionW (pv : PState → Except PErr (JSValue × PState))
    (st : PState) : Except PErr (Expr × PState) :=
  match parseFieldName st with
  | .error e => .error e
  | .ok (field, st1) =>
    match parseOperator st1 with
    | .error e => .error e
    | .ok (op, st2) =>
      if op = .opIsEmpty ∨ op = .opIsNotEmpty then
        .ok (validateQueryExpression field op .vnull st2)
      else
        match pv st2 with
        | .error e => .error e
        | .ok (v, st3) => .ok (validateQueryExpression field op v st3)

/-- `parseFieldCondition()` at a given fuel. -/
def parseFieldCondition (fuel : Nat) (st : PState) : Except PErr (Expr × PState) :=
  parseFieldConditionW (parseValue fuel) st

/-- The `while (consumeKeyword('and'))` loop, building left-associated
binary nodes; `pp` parses one primary. -/
def parseAndLoopW (pp : PState → Except PErr (Expr × PState)) :
    Nat → Expr → PState → Except PErr (Expr × PState)
  | 0, _, _ => .error .outOfFuel
  | f + 1, left, st =>
    match consumeKeyword "and".data st with
    | (true, st1) =>
      match pp st1 with
      | .error e => .error e
      | .ok (r, st2) => parseAndLoopW pp f (.eand left r) st2
    | (false, st1) => .ok (left, st1)

/-- `parseAnd()`. -/
def parseAndW (pp : PState → Except PErr (Expr × PState)) (fuel : Nat)
    (st : PState) : Except PErr (Expr × PState) :=
  match pp st with
  | .error e => .error e
  | .ok (l, st1) => parseAndLoopW pp fuel l st1

/-- The `while (consumeKeyword('or'))` loop. -/
def parseOrLoopW (pp : PState → Except PErr (Expr × PState)) :
    Nat → Expr → PState → Except PErr (Expr × PState)
  | 0, _, _ => .error .outOfFuel
  | f + 1, left, st =>
    match consumeKeyword "or".data st with
    | (true, st1) =>
      match parseAndW pp f st1 with
      | .error e => .error e
      | .ok (r, st2) => parseOrLoopW pp f (.eor left r) st2
    | (false, st1) => .ok (left, st1)

/-- `parseOr()` — the lowest-precedence production. -/
def parseOrW (pp : PState → Except PErr (Expr × PState)) (fuel : Nat)
    (st : PState) : Except PErr (Expr × PState) :=
  match parseAndW pp fuel st with
  | .error e => .error e
  | .ok (l, st1) => parseOrLoopW pp fuel l st1

/-- `parsePrimary()`: a parenthesized `Or` or a field condition; the fuel
bounds the parenthesis-nesting depth. -/
def parsePrimary : Nat → PState → Except PErr (Expr × PState)
  | 0 => fun _ => .error .outOfFuel
  | f + 1 => fun st =>
    let st1 := skipWs st
    if peek? st1 = some '(' then
      let st2 := (consumeLit ['('] st1).2
      match parseOrW (parsePrimary f) f st2 with
      | .error e => .error e
      | .ok (e, st3) =>
        match expectLit [')'] st3 with
        | .error e => .error e
        | .ok st4 => .ok (e, st4)
    else parseFieldConditionW (parseValue f) st1

/-- `parseAnd()` at a given fuel. -/
def parseAnd (fuel : Nat) (st : PState) : Except PErr (Expr × PState) :=
  parseAndW (parsePrimary fuel) fuel st

/-- `parseOr()` at a given fuel. -/
def parseOr (fuel : Nat) (st : PState) : Except PErr (Expr × PState) :=
  parseOrW (parsePrimary fuel) fuel st

-- ============================================================
-- Clause parsing and entry points
-- ============================================================

/-- The optional `desc`/`asc` keyword of a sort clause (default `asc`). -/
def parseSortDir (st : PState) : Dir × PState :=
  let r1 := consumeKeyword "desc".data st
  if r1.1 then (.desc, r1.2) else
  let r2 := consumeKeyword "asc".data r1.2
  if r2.1 then (.asc, r2.2) else (.asc, r2.2)

/-- The comma loop of `parseOrderBy()`. -/
def parseOrderByLoop : Nat → List OrderByClause → PState →
    Except PErr (List OrderByClause × PState)
  | 0, _, _ => .error .outOfFuel
  | f + 1, acc, st =>
    match consumeLit [','] st with
    | (true, st1) =>
      let st2 := skipWs st1
      match parseFieldName st2 with
      | .error e => .error e
      | .ok (fld, st3) =>
        let st4 := skipWs st3
        let (d, st5) := parseSortDir st4
        let st6 := skipWs st5
        parseOrderByLoop f (acc ++ [⟨fld, d⟩]) st6
    | (false, st1) => .ok (acc, st1)

/-- `parseOrderBy()`. -/
def parseOrderBy (fuel : Nat) (st : PState) :
    Except PErr (List OrderByClause × PState) :=
  match parseFieldName st with
  | .error e => .error e
  | .ok (fld, st1) =>
    let st2 := skipWs st1
    let (d, st3) := parseSortDir st2
    let st4 := skipWs st3
    parseOrderByLoop fuel [⟨fld, d⟩] st4

/-- `parseLimit()`: a number, required to be an integer in `1..500`. -/
def parseLimit (st : PState) : Except PErr (ℚ × PState) :=
  let st1 := skipWs st
  if isNumberB st1 then
    match parseNumber st1 with
    | .error e => .error e
    | .ok (q, st2) =>
      if q < 1 ∨ 500 < q ∨ q.den ≠ 1 then .error (.limitOutOfRange q)
      else .ok (q, st2)
  else .error (.expectedNumberForLimit st1.pos)

/-- `parseOffset()`: a number, required to be an integer in `0..10000`. -/
def parseOffset (st : PState) : Except PErr (ℚ × PState) :=
  let st1 := skipWs st
  if isNumberB st1 then
    match parseNumber st1 with
    | .error e => .error e
    | .ok (q, st2) =>
      if q < 0 ∨ 10000 < q ∨ q.den ≠ 1 then .error (.offsetOutOfRange q)
      else .ok (q, st2)
  else .error (.expectedNumberForOffset st1.pos)

/-- The clause pipeline of `parseComplete`, on already-trimmed input,
before the trailing-input check. -/
def parseCompletePipeline (input : List Char) : Except PErr (CompleteQueryAST × PState) :=
  let fuel := input.length + 1
  let st0 : PState := ⟨input, 0, []⟩
  let whereStep : Except PErr (Option Expr × PState) :=
    if hasWhereClause st0 then
      match parseOr fuel st0 with
      | .error e => .error e
      | .ok (e, st1) => .ok (some e, st1)
    else .ok (none, st0)
  match whereStep with
  | .error e => .error e
  | .ok (w, st1) =>
    let orderStep : Except PErr (Option (List OrderByClause) × PState) :=
      match consumeKeyword "order".data st1 with
      | (true, st2) =>
        match expectKeyword "by".data st2 with
        | .error e => .error e
        | .ok st3 =>
          match parseOrderBy fuel st3 with
          | .error e => .error e
          | .ok (l, st4) => .ok (some l, st4)
      | (false, st2) => .ok (none, st2)
    match orderStep with
    | .error e => .error e
    | .ok (ob, st2) =>
      let limitStep : Except PErr (Option ℚ × PState) :=
        match consumeKeyword "limit".data st2 with
        | (true, st3) =>
          match parseLimit st3 with
          | .error e => .error e
          | .ok (n, st4) => .ok (some n, st4)
        | (false, st3) => .ok (none, st3)
      match limitStep with
      | .error e => .error e
      | .ok (lim, st3) =>
        match consumeKeyword "offset".data st3 with
        | (true, st4) =>
          match parseOffset st4 with
          | .error e => .error e
          | .ok (n, st5) => .ok (⟨w, ob, lim, some n⟩, st5)
        | (false, st4) => .ok (⟨w, ob, lim, none⟩, st4)

/-- The final check shared by both entry points: after the grammar, only
whitespace may remain. -/
def trailingCheck {α : Type} (a : α) (st : PState) : Except PErr (Option α) :=
  let st1 := skipWs st
  if st1.pos < st1.input.length then
    .error (.trailingChars st1.pos (remaining st1))
  else .ok (some a)

/-- `KintoneQueryParser.parseComplete`. -/
def parseCompleteFn (s : String) : Except PErr (Option CompleteQueryAST) :=
  let input := jsTrim s.data
  if input.isEmpty then .ok none
  else
    match parseCompletePipeline input with
    | .error e => .error e
    | .ok (ast, st) => trailingCheck ast st

/-- `KintoneQueryParser.parse` (the legacy predicate-only entry point). -/
def parseFn (s : String) : Except PErr (Option Expr) :=
  let input := jsTrim s.data
  if input.isEmpty then .ok none
  else
    match parseOr (input.length + 1) ⟨input, 0, []⟩ with
    | .error e => .error e
    | .ok (e, st) => trailingCheck e st

-- ============================================================
-- Well-formedness for the round-trip theorem
-- ============================================================

/-- No double quote and no backslash (function-argument strings are
emitted verbatim, so only these survive a round trip). -/
def noSpecialChars (s : List Char) : Bool :=
  s.all (fun c => !(c == '"' || c == '\\'))

/-- A function name the parser can recognize: uppercase first letter,
all characters in `[A-Z_]`. -/
def wfFuncName (n : List Char) : Bool :=
  match n with
  | c :: _ => isUpperAZ c && n.all isFuncChar
  | [] => false

/-- A function argument that survives the round trip: a string that is
neither a bare grammar constant nor contains quote/backslash, or an
integer number. -/
def wfArg : JSValue → Bool
  | .vstr s => !isUpperToken s && noSpecialChars s
  | .vnum q => q.den == 1
  | _ => false

def wfArgList : List JSValue → Bool
  | [] => true
  | a :: t => wfArg a && wfArgList t

def wfArgs : Option (List JSValue) → Bool
  | none => true
  | some l => !l.isEmpty && wfArgList l

/-- An array element that survives the round trip: string (escaped by the
serializer), integer number, or well-formed function call. -/
def wfElem : JSValue → Bool
  | .vstr _ => true
  | .vnum q => q.den == 1
  | .vfunc n args => wfFuncName n && wfArgs args
  | _ => false

def wfElemList : List JSValue → Bool
  | [] => true
  | a :: t => wfElem a && wfElemList t

/-- A predicate value that survives the round trip. -/
def wfValue : JSValue → Bool
  | .vstr _ => true
  | .vnum q => q.den == 1
  | .varr items => wfElemList items
  | .vfunc n args => wfFuncName n && wfArgs args
  | .vnull => false

/-- A field path the parser can read back: nonempty, in the field-name
character class, and without the `r.` prefix the serializer strips. -/
def wfField (f : List Char) : Bool :=
  !f.isEmpty && f.all isFieldChar && !(f.take 2 == ['r', '.'])

/-- Is the value the absent (null/undefined) marker? -/
def isNullV : JSValue → Bool
  | .vnull => true
  | _ => false

/-- The operator/value pairing that survives the round trip: the `is empty`
operators carry no value, the others a well-formed one. -/
def wfPredVal (op : Op) (v : JSValue) : Bool :=
  if op = .opIsEmpty ∨ op = .opIsNotEmpty then isNullV v
  else wfValue v

/-- A predicate tree that survives the round trip: field predicates and
combinators only (no Negation, no bare FunctionCall node), with
well-formed fields and values, and no value on the `is empty` operators. -/
def wfExpr : Expr → Bool
  | .pred f op v => wfField f && wfPredVal op v
  | .eand l r => wfExpr l && wfExpr r
  | .eor l r => wfExpr l && wfExpr r
  | .enot _ => false
  | .efunc _ _ => false

/-- Case-folded token-prefix test (the shape of `hasWhereClause`'s guard). -/
def lowerStarts (l tok : List Char) : Bool :=
  (l.map asciiLower).take tok.length == tok

/-- The where clause, when present, must also not begin — case-insensitively —
with a clause keyword, or `parseComplete` will refuse to read a predicate. -/
def wfWhere : Option Expr → Bool
  | none => true
  | some e =>
    wfExpr e &&
      (match e with
       | .pred f _ _ =>
         !lowerStarts f "order".data && !lowerStarts f "limit".data &&
         !lowerStarts f "offset".data
       | _ => true)

def wfSortField (f : List Char) : Bool := !f.isEmpty && f.all isFieldChar

def wfSortList : List OrderByClause → Bool
  | [] => true
  | c :: t => wfSortField c.field && wfSortList t

def wfOrderBy : Option (List OrderByClause) → Bool
  | none => true
  | some l => !l.isEmpty && wfSortList l

def wfLimit : Option ℚ → Bool
  | none => true
  | some q => q.den == 1 && decide (1 ≤ q.num) && decide (q.num ≤ 500)

def wfOffset : Option ℚ → Bool
  | none => true
  | some q => q.den == 1 && decide (0 ≤ q.num) && decide (q.num ≤ 10000)

/-- A well-formed Query: each clause well-formed and at least one present. -/
def wfQuery (q : CompleteQueryAST) : Bool :=
  wfWhere q.whereE && wfOrderBy q.orderBy && wfLimit q.limit && wfOffset q.offset &&
  (match q with
   | ⟨none, none, none, none⟩ => false
   | _ => true)

-- ============================================================
-- Spec-side renderings for the function-argument claim
-- ============================================================

/-- The argument rendering the specification asserts, verbatim: a string
of uppercase letters/underscores bare, every other string quoted with its
quote and backslash characters escaped, non-strings in decimal. -/
def specArgEscaped : JSValue → List Char
  | .vstr s => if isUpperToken s then s else '"' :: (escapeValue s ++ ['"'])
  | .vnum q => qToChars q
  | v => jsFallbackChars v

/-- The amended rendering: as the specification says, except that the
quoted strings are emitted verbatim, without escaping. -/
def specArgPlain : JSValue → List Char
  | .vstr s => if isUpperToken s then s else '"' :: (s ++ ['"'])
  | .vnum q => qToChars q
  | v => jsFallbackChars v

def specArgJoin (f : JSValue → List Char) : List JSValue → List Char
  | [] => []
  | [v] => f v
  | v :: rest => f v ++ ", ".data ++ specArgJoin f rest

/-- A scalar argument in the sense of the function-argument claim: a
string or a number. -/
def isScalarArg : JSValue → Bool
  | .vstr _ => true
  | .vnum _ => true
  | _ => false

-- ============================================================
-- Derived predicate on keyword consumption (used by the proofs)
-- ============================================================

/-- Would `consumeKeyword kw` succeed with the cursor over `l`? -/
def kwOkAt (kw l : List Char) : Bool :=
  let l2 := l.dropWhile isWsChar
  l2.take kw.length == kw &&
    (match l2.drop kw.length with
     | [] => true
     | c :: _ => isBoundaryChar c)

/-- `l` is empty or starts with a character outside the class `p` — the
stopping condition of a maximal-munch scan. -/
def headNotB (p : Char → Bool) (l : List Char) : Bool :=
  match l with
  | [] => true
  | c :: _ => !p c

/-- The parser state advanced by `n` consumed characters. -/
def stepped (st : PState) (n : Nat) : PState :=
  ⟨st.input, st.pos + n, st.diags⟩

/-- The text between the parentheses of a serialized combinator (for any
other node, its full serialization): what `parseOr` reads at one
parenthesis level. -/
def serInner : Expr → List Char
  | .eand l r => expressionToString l ++ " and ".data ++ expressionToString r
  | .eor l r => expressionToString l ++ " or ".data ++ expressionToString r
  | .pred f op v => expressionToString (.pred f op v)
  | .enot e => expressionToString (.enot e)
  | .efunc n a => expressionToString (.efunc n a)

/-- What may follow a serialized predicate: nothing numeric (the number
scanner must stop) and a keyword boundary (the word operators must end). -/
def predStop (rest : List Char) : Prop :=
  headNotB isNumTokChar rest = true ∧
  headNotB (fun c => !isBoundaryChar c) rest = true

/-- What may follow a serialized or-level expression: text on which both
the `and` and the `or` keyword lookaheads fail, with no leading space. -/
def orExit (t : List Char) : Prop :=
  headNotB isWsChar t = true ∧
  kwOkAt "and".data t = false ∧ kwOkAt "or".data t = false

/-- What must follow an operator's literal text for `parseOperator` to
return that operator: the one-character prefixes `>` and `<` must not
extend to `>=`/`<=`, and a word operator needs a keyword boundary (or the
end of input). -/
def opRestOk : Op → List Char → Prop
  | .gt, rest => ¬ rest.head? = some '='
  | .lt, rest => ¬ rest.head? = some '='
  | .opIn, rest => headNotB (fun c => !isBoundaryChar c) rest = true
  | .opNotIn, rest => headNotB (fun c => !isBoundaryChar c) rest = true
  | .like, rest => headNotB (fun c => !isBoundaryChar c) rest = true
  | .notLike, rest => headNotB (fun c => !isBoundaryChar c) rest = true
  | .opIsEmpty, rest => headNotB (fun c => !isBoundaryChar c) rest = true
  | .opIsNotEmpty, rest => headNotB (fun c => !isBoundaryChar c) rest = true
  | _, _ => True

/-- The text the comma loop of `parseOrderBy` still has to read after the
first clause: `, f2 d2, f3 d3, …`. -/
def sepChars : List OrderByClause → List Char
  | [] => []
  | c :: t => ", ".data ++ (c.field ++ ' ' :: dirChars c.direction) ++ sepChars t

/-- The where stage of `parseComplete`, as a function of the start state. -/
def whereStage (fuel : Nat) (st0 : PState) : Except PErr (Option Expr × PState) :=
  if hasWhereClause st0 then
    match parseOr fuel st0 with
    | .error e => .error e
    | .ok (e, st1) => .ok (some e, st1)
  else .ok (none, st0)

/-- The order-by stage of `parseComplete`. -/
def orderStage (fuel : Nat) (st1 : PState) :
    Except PErr (Option (List OrderByClause) × PState) :=
  match consumeKeyword "order".data st1 with
  | (true, st2) =>
    match expectKeyword "by".data st2 with
    | .error e => .error e
    | .ok st3 =>
      match parseOrderBy fuel st3 with
      | .error e => .error e
      | .ok (l, st4) => .ok (some l, st4)
  | (false, st2) => .ok (none, st2)

/-- The limit stage of `parseComplete`. -/
def limitStage (st2 : PState) : Except PErr (Option ℚ × PState) :=
  match consumeKeyword "limit".data st2 with
  | (true, st3) =>
    match parseLimit st3 with
    | .error e => .error e
    | .ok (n, st4) => .ok (some n, st4)
  | (false, st3) => .ok (none, st3)

/-- The offset stage of `parseComplete`. -/
def offsetStage (st3 : PState) : Except PErr (Option ℚ × PState) :=
  match consumeKeyword "offset".data st3 with
  | (true, st4) =>
    match parseOffset st4 with
    | .error e => .error e
    | .ok (n, st5) => .ok (some n, st5)
  | (false, st4) => .ok (none, st4)

/-- The text of the offset clause as laid out by `generate`, with its
joining blank when an earlier clause was emitted (`pp`). -/
def offText (pp : Bool) : Option ℚ → List Char
  | none => []
  | some q => (if pp then [' '] else []) ++ ("offset ".data ++ qToChars q)

/-- The text of the limit and offset clauses. -/
def limOffText (pp : Bool) (lim off : Option ℚ) : List Char :=
  match lim with
  | none => offText pp off
  | some q =>
    (if pp then [' '] else []) ++ ("limit ".data ++ qToChars q) ++ offText true off

/-- The text of everything `generate` emits after the predicate. -/
def tailText (pp : Bool) (ob : Option (List OrderByClause)) (lim off : Option ℚ) :
    List Char :=
  match ob with
  | none => limOffText pp lim off
  | some l =>
    (if pp then [' '] else []) ++ ("order by ".data ++ orderByChars l) ++
      limOffText true lim off

-- ============================================================
-- Theorems: escape round trip and numeral facts
-- ============================================================

theorem escapeValue_eq_nil {t : List Char} : escapeValue t = [] ↔ t = [] := by
  cases t with
  | nil => simp [escapeValue]
  | cons c r =>
    simp only [escapeValue, escTok]
    constructor
    · intro h
      exfalso
      by_cases h1 : c = '\\' <;> by_cases h2 : c = '"' <;> simp [h1, h2] at h
    · intro h; exact absurd h (by simp)

theorem escapeValue_head_ne_quote {t : List Char} {h : Char} {tt : List Char}
    (he : escapeValue t = h :: tt) : h ≠ '"' := by
  cases t with
  | nil => simp [escapeValue] at he
  | cons c r =>
    simp only [escapeValue, escTok] at he
    by_cases h1 : c = '\\'
    · rw [if_pos h1] at he
      intro hq
      rw [hq] at he
      exact absurd (List.head_eq_of_cons_eq he) (by decide)
    · rw [if_neg h1] at he
      by_cases h2 : c = '"'
      · rw [if_pos h2] at he
        intro hq
        rw [hq] at he
        exact absurd (List.head_eq_of_cons_eq he) (by decide)
      · rw [if_neg h2] at he
        intro hq
        exact h2 (by rw [List.head_eq_of_cons_eq he, hq])

theorem replace2_quote_escape (s : List Char) :
    replace2 '\\' '"' '"' (escapeValue s) = escSlash s := by
  induction s with
  | nil => simp [escapeValue, escSlash, replace2]
  | cons c t ih =>
    by_cases h1 : c = '\\'
    · subst h1
      have h0 : escapeValue ('\\' :: t) = '\\' :: '\\' :: escapeValue t := by
        simp [escapeValue, escTok]
      rw [h0, replace2]
      have hcond : ¬(('\\' : Char) = '\\' ∧ ('\\' : Char) = '"') := by decide
      rw [if_neg hcond]
      have inner : replace2 '\\' '"' '"' ('\\' :: escapeValue t) =
          '\\' :: replace2 '\\' '"' '"' (escapeValue t) := by
        cases he : escapeValue t with
        | nil => simp [replace2]
        | cons h tt =>
          rw [replace2]
          have : ¬(('\\' : Char) = '\\' ∧ h = '"') := by
            intro hc; exact escapeValue_head_ne_quote he hc.2
          rw [if_neg this]
      rw [inner, ih]
      simp [escSlash]
    · by_cases h2 : c = '"'
      · subst h2
        have h0 : escapeValue ('"' :: t) = '\\' :: '"' :: escapeValue t := by
          simp [escapeValue, escTok]
        rw [h0, replace2, if_pos ⟨rfl, rfl⟩, ih]
        simp [escSlash]
      · have h0 : escapeValue (c :: t) = c :: escapeValue t := by
          simp [escapeValue, escTok, h1, h2]
        rw [h0]
        have hgoal : escSlash (c :: t) = c :: escSlash t := by
          simp [escSlash, h1]
        rw [hgoal]
        cases he : escapeValue t with
        | nil =>
          have ht : t = [] := escapeValue_eq_nil.mp he
          subst ht
          simp [escSlash, replace2]
        | cons h tt =>
          rw [replace2]
          have : ¬(c = '\\' ∧ h = '"') := fun hc => h1 hc.1
          rw [if_neg this, ← he, ih]

theorem replace2_slash_escape (s : List Char) :
    replace2 '\\' '\\' '\\' (escSlash s) = s := by
  induction s with
  | nil => simp [escSlash, replace2]
  | cons c t ih =>
    by_cases h1 : c = '\\'
    · subst h1
      have h0 : escSlash ('\\' :: t) = '\\' :: '\\' :: escSlash t := by
        simp [escSlash]
      rw [h0, replace2, if_pos ⟨rfl, rfl⟩, ih]
    · have h0 : escSlash (c :: t) = c :: escSlash t := by
        simp [escSlash, h1]
      rw [h0]
      cases he : escSlash t with
      | nil =>
        have hnil : t = [] := by
          cases t with
          | nil => rfl
          | cons d r =>
            exfalso
            by_cases hd : d = '\\' <;> simp [escSlash, hd] at he
        subst hnil
        simp [replace2]
      | cons h tt =>
        rw [replace2]
        have : ¬(c = '\\' ∧ h = '\\') := fun hc => h1 hc.1
        rw [if_neg this, ← he, ih]

/-- Escape-then-unescape is the identity on character lists. -/
theorem unescape_escape (s : List Char) : unescapeValue (escapeValue s) = s := by
  rw [unescapeValue, replace2_quote_escape, replace2_slash_escape]

theorem digit_char_toNat {d : Nat} (h : d < 10) :
    (Char.ofNat (48 + d)).toNat = 48 + d := by
  interval_cases d <;> decide

theorem digit_char_isDigit {d : Nat} (h : d < 10) :
    isDigitChar (Char.ofNat (48 + d)) = true := by
  interval_cases d <;> decide

theorem digit_char_val {d : Nat} (h : d < 10) :
    digitVal (Char.ofNat (48 + d)) = d := by
  rw [digitVal, digit_char_toNat h]; omega

theorem natDecimalAux_stable : ∀ fuel fuel2 n, n < fuel → n < fuel2 →
    natDecimalAux fuel n = natDecimalAux fuel2 n := by
  intro fuel
  induction fuel with
  | zero => intro fuel2 n h; omega
  | succ f ih =>
    intro fuel2 n h h2
    cases fuel2 with
    | zero => omega
    | succ f2 =>
      rw [natDecimalAux, natDecimalAux]
      by_cases h10 : n < 10
      · rw [if_pos h10, if_pos h10]
      · have hd : n / 10 < n := Nat.div_lt_self (by omega) (by omega)
        rw [if_neg h10, if_neg h10, ih f2 (n / 10) (by omega) (by omega)]

theorem natDecimal_step (n : Nat) (h : ¬n < 10) :
    natDecimal n = natDecimal (n / 10) ++ [Char.ofNat (48 + n % 10)] := by
  have hd : n / 10 < n := Nat.div_lt_self (by omega) (by omega)
  rw [natDecimal, natDecimal, natDecimalAux, if_neg h]
  rw [natDecimalAux_stable n (n / 10 + 1) (n / 10) (by omega) (by omega)]

theorem natDecimal_small (n : Nat) (h : n < 10) :
    natDecimal n = [Char.ofNat (48 + n)] := by
  rw [natDecimal, natDecimalAux, if_pos h]

theorem natDecimal_ne_nil (n : Nat) : natDecimal n ≠ [] := by
  by_cases h : n < 10
  · rw [natDecimal_small n h]; simp
  · rw [natDecimal_step n h]; simp

theorem natDecimal_all_digits (n : Nat) :
    ∀ c ∈ natDecimal n, isDigitChar c = true := by
  induction n using Nat.strong_induction_on with
  | _ n ih =>
    by_cases h : n < 10
    · rw [natDecimal_small n h]
      intro c hc
      simp at hc
      subst hc
      exact digit_char_isDigit h
    · rw [natDecimal_step n h]
      intro c hc
      simp at hc
      rcases hc with hc | hc
      · exact ih (n / 10) (Nat.div_lt_self (by omega) (by omega)) c hc
      · subst hc
        exact digit_char_isDigit (Nat.mod_lt _ (by omega))

theorem natFromDigits_append_digit (l : List Char) (c : Char) :
    natFromDigits (l ++ [c]) = 10 * natFromDigits l + digitVal c := by
  simp [natFromDigits, List.foldl_append]

theorem natFromDigits_natDecimal (n : Nat) :
    natFromDigits (natDecimal n) = n := by
  induction n using Nat.strong_induction_on with
  | _ n ih =>
    by_cases h : n < 10
    · rw [natDecimal_small n h]
      simp [natFromDigits, digit_char_val h]
    · rw [natDecimal_step n h, natFromDigits_append_digit,
        ih (n / 10) (Nat.div_lt_self (by omega) (by omega)),
        digit_char_val (Nat.mod_lt _ (by omega))]
      omega

theorem qToChars_int (q : ℚ) (h : q.den = 1) : qToChars q = intDecimal q.num := by
  rw [qToChars, intDecimal, h]
  by_cases hn : q.num < 0 <;> simp [hn]

-- ============================================================
-- State-primitive lemmas
-- ============================================================

theorem drop_wsCount (l : List Char) : l.drop (wsCount l) = l.dropWhile isWsChar := by
  have h := List.takeWhile_append_dropWhile (p := isWsChar) (l := l)
  rw [wsCount]
  nth_rewrite 2 [← h]
  exact List.drop_left _ _

theorem remaining_skipWs (st : PState) :
    remaining (skipWs st) = (remaining st).dropWhile isWsChar := by
  show st.input.drop (st.pos + wsCount (remaining st)) = _
  rw [← drop_wsCount (remaining st)]
  show _ = (st.input.drop st.pos).drop (wsCount (remaining st))
  rw [List.drop_drop, Nat.add_comm]

theorem remaining_ne_nil_iff (st : PState) :
    remaining st ≠ [] ↔ st.pos < st.input.length := by
  simp only [remaining, ne_eq, List.drop_eq_nil_iff]
  omega

theorem trailingCheck_ne_ok_none {α : Type} (a : α) (st : PState) :
    trailingCheck a st ≠ .ok none := by
  rw [trailingCheck]
  split
  · intro h; cases h
  · intro h; cases h

theorem trailingCheck_ok {α : Type} (a : α) (st : PState)
    (h : (remaining st).dropWhile isWsChar = []) :
    trailingCheck a st = .ok (some a) := by
  rw [trailingCheck]
  have h2 : ¬(skipWs st).pos < (skipWs st).input.length := by
    intro hlt
    have h3 : remaining (skipWs st) ≠ [] := by
      rw [remaining_ne_nil_iff]
      exact hlt
    rw [remaining_skipWs] at h3
    exact h3 h
  rw [if_neg h2]

theorem trailingCheck_err {α : Type} (a : α) (st : PState)
    (h : (remaining st).dropWhile isWsChar ≠ []) :
    trailingCheck a st =
      .error (.trailingChars (skipWs st).pos (remaining (skipWs st))) := by
  rw [trailingCheck]
  have h2 : (skipWs st).pos < (skipWs st).input.length := by
    rw [← remaining_ne_nil_iff, remaining_skipWs]
    exact h
  rw [if_pos h2]

-- ============================================================
-- C7 — escaping round trip
-- ============================================================

/-- C7: for every string `s`, applying the serializer's escape function
(doubling backslashes, backslash-prefixing quotes) and then the parser's
unescape step (mapping the escape pairs back) reproduces `s` exactly. -/
theorem c7_escape_unescape_roundtrip :
    ∀ s : List Char, unescapeValue (escapeValue s) = s :=
  fun s => unescape_escape s

-- ============================================================
-- C4 — precedence and left association
-- ============================================================

/-- C4: parsing `A = 1 or B = 2 and C = 3` yields
`Or(A=1, And(B=2, C=3))` — AND binds tighter than OR — and chains of
same-kind combinators parse left-associated. -/
theorem c4_and_binds_tighter_left_assoc :
    parseFn "A = 1 or B = 2 and C = 3" =
      .ok (some (.eor (.pred "A".data .eq (.vnum 1))
        (.eand (.pred "B".data .eq (.vnum 2)) (.pred "C".data .eq (.vnum 3))))) ∧
    parseFn "A = 1 and B = 2 and C = 3" =
      .ok (some (.eand
        (.eand (.pred "A".data .eq (.vnum 1)) (.pred "B".data .eq (.vnum 2)))
        (.pred "C".data .eq (.vnum 3)))) ∧
    parseFn "A = 1 or B = 2 or C = 3" =
      .ok (some (.eor
        (.eor (.pred "A".data .eq (.vnum 1)) (.pred "B".data .eq (.vnum 2)))
        (.pred "C".data .eq (.vnum 3)))) :=
  ⟨rfl, rfl, rfl⟩

-- ============================================================
-- C8 — canonical serialization
-- ============================================================

/-- C8: the scenario-B Query serializes to exactly the expected text;
every Combinator is parenthesized regardless of need; clauses are
space-joined in order with absent parts omitted. -/
theorem c8_canonical_serialization :
    generate ⟨some (.eand (.pred "Status".data .eq (.vstr "Open".data))
        (.pred "Priority".data .gt (.vnum 3))),
      some [⟨"Priority".data, .desc⟩, ⟨"DueDate".data, .asc⟩],
      some 50, some 10⟩ =
      "(Status = \"Open\" and Priority > 3) order by Priority desc, DueDate asc limit 50 offset 10".data ∧
    (∀ l r, expressionToString (.eand l r) =
      '(' :: (expressionToString l ++ " and ".data ++ expressionToString r ++ [')'])) ∧
    (∀ l r, expressionToString (.eor l r) =
      '(' :: (expressionToString l ++ " or ".data ++ expressionToString r ++ [')'])) ∧
    generate ⟨some (.pred "A".data .eq (.vnum 1)), none, some 50, none⟩ =
      "A = 1 limit 50".data ∧
    generate ⟨none, none, none, some 10⟩ = "offset 10".data :=
  ⟨rfl, fun _ _ => rfl, fun _ _ => rfl, rfl, rfl⟩

-- ============================================================
-- C3 — function-argument rendering
-- ============================================================

/-- C3 as written is false: a quoted string argument is emitted verbatim,
not escaped. At the argument `a"b` the serializer emits `TODAY("a"b")`,
not the escaped `TODAY("a\"b")` the claim requires. -/
theorem c3_arg_escaping_counterexample :
    formatValue (.vfunc "TODAY".data (some [.vstr ['a', '"', 'b']])) =
      "TODAY(\"a\"b\")".data ∧
    "TODAY".data ++ '(' :: (specArgJoin specArgEscaped [.vstr ['a', '"', 'b']] ++ [')']) =
      "TODAY(\"a\\\"b\")".data ∧
    formatValue (.vfunc "TODAY".data (some [.vstr ['a', '"', 'b']])) ≠
      "TODAY".data ++ '(' :: (specArgJoin specArgEscaped [.vstr ['a', '"', 'b']] ++ [')']) :=
  ⟨rfl, rfl, by decide⟩

theorem argChars_eq_specArgPlain (v : JSValue) : argChars v = specArgPlain v := by
  cases v <;> rfl

theorem argListChars_eq_specArgJoin (args : List JSValue) :
    argListChars args = specArgJoin specArgPlain args := by
  induction args with
  | nil => rfl
  | cons a t ih =>
    cases t with
    | nil => exact argChars_eq_specArgPlain a
    | cons b t2 =>
      show argChars a ++ ", ".data ++ argListChars (b :: t2) =
        specArgPlain a ++ ", ".data ++ specArgJoin specArgPlain (b :: t2)
      rw [argChars_eq_specArgPlain, ih]

/-- C3 amended: when serializing a FunctionCall with (string/number)
arguments, uppercase/underscore-only strings are emitted bare, every
other string is emitted in double quotes verbatim (without escaping), and
numbers are emitted in their decimal form. -/
theorem c3_function_arg_rendering :
    (∀ name args, args ≠ [] → args.all isScalarArg = true →
      funcCallChars name (some args) =
        name ++ '(' :: (specArgJoin specArgPlain args ++ [')'])) ∧
    (∀ s, isUpperToken s = true → argChars (.vstr s) = s) ∧
    (∀ s, isUpperToken s = false → argChars (.vstr s) = '"' :: (s ++ ['"'])) ∧
    (∀ q : ℚ, argChars (.vnum q) = qToChars q) := by
  refine ⟨?_, ?_, ?_, ?_⟩
  · intro name args h1 _
    match args, h1 with
    | a :: rest, _ =>
      show name ++ '(' :: (argListChars (a :: rest) ++ [')']) = _
      rw [argListChars_eq_specArgJoin]
  · intro s h
    simp [argChars, h]
  · intro s h
    simp [argChars, h]
  · intro q
    rfl

/-- Witness for the amended C3 at `FROM_TODAY(-7, "days")`. -/
theorem c3_function_arg_rendering_witness :
    funcCallChars "FROM_TODAY".data (some [.vnum (-7), .vstr "days".data]) =
      "FROM_TODAY".data ++ '(' ::
        (specArgJoin specArgPlain [.vnum (-7), .vstr "days".data] ++ [')']) ∧
    argChars (.vstr "DAYS".data) = "DAYS".data ∧
    argChars (.vstr "days".data) = '"' :: ("days".data ++ ['"']) ∧
    argChars (.vnum 7) = qToChars 7 :=
  ⟨c3_function_arg_rendering.1 "FROM_TODAY".data [.vnum (-7), .vstr "days".data]
      (by simp) (by decide),
    c3_function_arg_rendering.2.1 "DAYS".data (by decide),
    c3_function_arg_rendering.2.2.1 "days".data (by decide),
    c3_function_arg_rendering.2.2.2 7⟩

-- ============================================================
-- C2 — non-fatal shape mismatches, fatal pagination bounds
-- ============================================================

/-- C2: a parsed field predicate with an operator/value-shape violation
does not fail the parse — the validator emits one diagnostic to the sink
and returns the predicate unchanged (and emits nothing when the shape is
fine) — whereas an out-of-range limit or offset always aborts: a
successful `parseLimit`/`parseOffset` value is always an in-range
integer. End-to-end: `A in 5` parses to the malformed predicate with one
diagnostic recorded, while `A = 1 limit 501` aborts the whole parse. -/
theorem c2_shape_mismatch_nonfatal_bounds_fatal :
    (∀ f op v st, shapeOk op v = false →
      validateQueryExpression f op v st =
        (.pred f op v,
          { st with diags := st.diags ++
            [⟨"Query expression validation failed".data, f, op⟩] })) ∧
    (∀ f op v st, shapeOk op v = true →
      validateQueryExpression f op v st = (.pred f op v, st)) ∧
    (∀ st q st', parseLimit st = .ok (q, st') → 1 ≤ q ∧ q ≤ 500 ∧ q.den = 1) ∧
    (∀ st q st', parseOffset st = .ok (q, st') → 0 ≤ q ∧ q ≤ 10000 ∧ q.den = 1) ∧
    parseCompletePipeline "A in 5".data =
      .ok (⟨some (.pred "A".data .opIn (.vnum 5)), none, none, none⟩,
        ⟨"A in 5".data, 6,
          [⟨"Query expression validation failed".data, "A".data, .opIn⟩]⟩) ∧
    parseCompleteFn "A in 5" =
      .ok (some ⟨some (.pred "A".data .opIn (.vnum 5)), none, none, none⟩) ∧
    parseCompleteFn "A = 1 limit 501" = .error (.limitOutOfRange 501) := by
  refine ⟨?_, ?_, ?_, ?_, rfl, rfl, rfl⟩
  · intro f op v st h
    simp [validateQueryExpression, h]
  · intro f op v st h
    simp [validateQueryExpression, h]
  · intro st q st' h
    simp only [parseLimit] at h
    by_cases hn : isNumberB (skipWs st)
    · rw [if_pos hn] at h
      cases hp : parseNumber (skipWs st) with
      | error e => rw [hp] at h; simp at h
      | ok p =>
        obtain ⟨q0, st2⟩ := p
        rw [hp] at h
        dsimp only at h
        by_cases hc : q0 < 1 ∨ 500 < q0 ∨ q0.den ≠ 1
        · rw [if_pos hc] at h; simp at h
        · rw [if_neg hc] at h
          simp only [Except.ok.injEq, Prod.mk.injEq] at h
          obtain ⟨rfl, rfl⟩ := h
          push_neg at hc
          exact ⟨by linarith [hc.1], by linarith [hc.2.1], hc.2.2⟩
    · rw [if_neg hn] at h; simp at h
  · intro st q st' h
    simp only [parseOffset] at h
    by_cases hn : isNumberB (skipWs st)
    · rw [if_pos hn] at h
      cases hp : parseNumber (skipWs st) with
      | error e => rw [hp] at h; simp at h
      | ok p =>
        obtain ⟨q0, st2⟩ := p
        rw [hp] at h
        dsimp only at h
        by_cases hc : q0 < 0 ∨ 10000 < q0 ∨ q0.den ≠ 1
        · rw [if_pos hc] at h; simp at h
        · rw [if_neg hc] at h
          simp only [Except.ok.injEq, Prod.mk.injEq] at h
          obtain ⟨rfl, rfl⟩ := h
          push_neg at hc
          exact ⟨by linarith [hc.1], by linarith [hc.2.1], hc.2.2⟩
    · rw [if_neg hn] at h; simp at h

/-- Witness for C2 at concrete arguments. -/
theorem c2_shape_mismatch_witness :
    validateQueryExpression "A".data .opIn (.vnum 5) ⟨"A in 5".data, 6, []⟩ =
      (.pred "A".data .opIn (.vnum 5),
        ⟨"A in 5".data, 6,
          [⟨"Query expression validation failed".data, "A".data, .opIn⟩]⟩) ∧
    validateQueryExpression "A".data .eq (.vnum 5) ⟨"A = 5".data, 5, []⟩ =
      (.pred "A".data .eq (.vnum 5), ⟨"A = 5".data, 5, []⟩) ∧
    (1 ≤ (7 : ℚ) ∧ (7 : ℚ) ≤ 500 ∧ (7 : ℚ).den = 1) ∧
    (0 ≤ (7 : ℚ) ∧ (7 : ℚ) ≤ 10000 ∧ (7 : ℚ).den = 1) :=
  ⟨c2_shape_mismatch_nonfatal_bounds_fatal.1 "A".data .opIn (.vnum 5) _ rfl,
    c2_shape_mismatch_nonfatal_bounds_fatal.2.1 "A".data .eq (.vnum 5) _ rfl,
    c2_shape_mismatch_nonfatal_bounds_fatal.2.2.1 ⟨"limit 7".data, 5, []⟩ 7
      ⟨"limit 7".data, 7, []⟩ rfl,
    c2_shape_mismatch_nonfatal_bounds_fatal.2.2.2.1 ⟨"offset 7".data, 6, []⟩ 7
      ⟨"offset 7".data, 8, []⟩ rfl⟩

-- ============================================================
-- C10 — empty input returns null
-- ============================================================

/-- C10: empty or all-whitespace input makes both `parse` and
`parseComplete` return null (not an empty Query, not an error); a
nonempty input never yields null from a successful parse. -/
theorem c10_empty_input_null :
    ∀ s : String,
      (jsTrim s.data = [] → parseFn s = .ok none ∧ parseCompleteFn s = .ok none) ∧
      (jsTrim s.data ≠ [] → parseFn s ≠ .ok none ∧ parseCompleteFn s ≠ .ok none) := by
  intro s
  constructor
  · intro h
    constructor
    · rw [parseFn]
      simp [h]
    · rw [parseCompleteFn]
      simp [h]
  · intro h
    have hne : (jsTrim s.data).isEmpty = false := by
      cases hh : (jsTrim s.data).isEmpty
      · rfl
      · exact absurd (List.isEmpty_iff.mp hh) h
    constructor
    · rw [parseFn]
      simp only [hne, Bool.false_eq_true, if_false]
      cases hp : parseOr ((jsTrim s.data).length + 1) ⟨jsTrim s.data, 0, []⟩ with
      | error e => intro hcon; cases hcon
      | ok p => exact trailingCheck_ne_ok_none p.1 p.2
    · rw [parseCompleteFn]
      simp only [hne, Bool.false_eq_true, if_false]
      cases hp : parseCompletePipeline (jsTrim s.data) with
      | error e => intro hcon; cases hcon
      | ok p => exact trailingCheck_ne_ok_none p.1 p.2

/-- Witness for C10 at the whitespace input and at `A = 1`. -/
theorem c10_empty_input_null_witness :
    (parseFn "   " = .ok none ∧ parseCompleteFn "   " = .ok none) ∧
    (parseFn "A = 1" ≠ .ok none ∧ parseCompleteFn "A = 1" ≠ .ok none) :=
  ⟨(c10_empty_input_null "   ").1 rfl, (c10_empty_input_null "A = 1").2 (by decide)⟩

-- ============================================================
-- Trimmed-input facts
-- ============================================================

theorem dropWhile_head_not {p : Char → Bool} :
    ∀ (l : List Char) (c : Char) (r : List Char),
      l.dropWhile p = c :: r → p c = false := by
  intro l
  induction l with
  | nil => intro c r h; cases h
  | cons a t ih =>
    intro c r h
    by_cases hp : p a
    · rw [List.dropWhile_cons, if_pos hp] at h
      exact ih c r h
    · rw [List.dropWhile_cons, if_neg hp] at h
      have : a = c := List.head_eq_of_cons_eq h
      rw [← this]
      exact Bool.eq_false_iff.mpr hp

theorem wsCount_cons_of_not {c : Char} {l : List Char} (h : isWsChar c = false) :
    wsCount (c :: l) = 0 := by
  simp [wsCount, List.takeWhile_cons, h]

theorem wsCount_zero_cases (l : List Char) (h : wsCount l = 0) :
    l = [] ∨ ∃ c r, l = c :: r ∧ isWsChar c = false := by
  cases l with
  | nil => exact Or.inl rfl
  | cons c t =>
    right
    refine ⟨c, t, rfl, ?_⟩
    by_contra hc
    have hc2 : isWsChar c = true := by
      cases hcc : isWsChar c
      · exact absurd hcc hc
      · rfl
    simp [wsCount, List.takeWhile_cons, hc2] at h

theorem wsCount_take (a : List Char) (m : Nat) (h : wsCount a = 0) :
    wsCount (a.take m) = 0 := by
  rcases wsCount_zero_cases a h with hnil | ⟨c, r, hcons, hc⟩
  · subst hnil; simp [wsCount]
  · subst hcons
    cases m with
    | zero => rfl
    | succ m2 =>
      rw [List.take_succ_cons]
      exact wsCount_cons_of_not hc

theorem jsTrim_wsCount (l : List Char) : wsCount (jsTrim l) = 0 := by
  rw [jsTrim]
  have h0 : wsCount (l.dropWhile isWsChar) = 0 := by
    cases haa : l.dropWhile isWsChar with
    | nil => rfl
    | cons c r => exact wsCount_cons_of_not (dropWhile_head_not l c r haa)
  rw [show (l.dropWhile isWsChar).reverse.dropWhile isWsChar =
      (l.dropWhile isWsChar).reverse.drop (wsCount (l.dropWhile isWsChar).reverse) from
    (drop_wsCount _).symm]
  rw [List.drop_reverse, List.reverse_reverse]
  exact wsCount_take _ _ h0

theorem skipWs_zero (t : List Char) (d : List Diag) (h : wsCount t = 0) :
    skipWs ⟨t, 0, d⟩ = ⟨t, 0, d⟩ := by
  rw [skipWs]
  simp [remaining, h]

theorem lowerStarts_iff (t tok : List Char) :
    lowerStarts t tok = true ↔ (t.map asciiLower).take tok.length = tok := by
  rw [lowerStarts, beq_iff_eq]

theorem hasWhereClause_false_of (t : List Char) (h0 : wsCount t = 0)
    (hpre : lowerStarts t "order".data = true ∨ lowerStarts t "limit".data = true ∨
      lowerStarts t "offset".data = true) :
    hasWhereClause ⟨t, 0, []⟩ = false := by
  rw [hasWhereClause]
  have hp : (skipWs ⟨t, 0, []⟩).pos = 0 := by rw [skipWs_zero t [] h0]
  rw [hp]
  dsimp only
  rw [List.drop_zero]
  have hcond : (t.map asciiLower).take 5 = "order".data ∨
      (t.map asciiLower).take 5 = "limit".data ∨
      (t.map asciiLower).take 6 = "offset".data := by
    rcases hpre with h | h | h
    · exact Or.inl ((lowerStarts_iff t "order".data).mp h)
    · exact Or.inr (Or.inl ((lowerStarts_iff t "limit".data).mp h))
    · exact Or.inr (Or.inr ((lowerStarts_iff t "offset".data).mp h))
  rw [if_pos hcond]

theorem hasWhereClause_true_of (t : List Char) (h0 : wsCount t = 0) (hne : t ≠ [])
    (h1 : lowerStarts t "order".data = false)
    (h2 : lowerStarts t "limit".data = false)
    (h3 : lowerStarts t "offset".data = false) :
    hasWhereClause ⟨t, 0, []⟩ = true := by
  rw [hasWhereClause]
  have hp : (skipWs ⟨t, 0, []⟩).pos = 0 := by rw [skipWs_zero t [] h0]
  rw [hp]
  dsimp only
  rw [List.drop_zero]
  have hcond : ¬((t.map asciiLower).take 5 = "order".data ∨
      (t.map asciiLower).take 5 = "limit".data ∨
      (t.map asciiLower).take 6 = "offset".data) := by
    intro hc
    rcases hc with h | h | h
    · have := (lowerStarts_iff t "order".data).mpr h
      rw [h1] at this
      cases this
    · have := (lowerStarts_iff t "limit".data).mpr h
      rw [h2] at this
      cases this
    · have := (lowerStarts_iff t "offset".data).mpr h
      rw [h3] at this
      cases this
  rw [if_neg hcond]
  simp [List.length_pos_iff_ne_nil, hne]

-- ============================================================
-- C6 — trailing input is fatal
-- ============================================================

/-- C6: once the grammar has consumed its maximal prefix, any remaining
non-whitespace input makes both entry points fail with a trailing-input
error that carries the offset and the offending fragment (the input from
the first trailing non-whitespace character on); a successful parse
leaves only whitespace behind — no suffix is silently dropped. -/
theorem c6_trailing_input_fatal :
    (∀ (s : String) e st,
      parseOr ((jsTrim s.data).length + 1) ⟨jsTrim s.data, 0, []⟩ = .ok (e, st) →
      (remaining st).dropWhile isWsChar ≠ [] →
      parseFn s = .error (.trailingChars (skipWs st).pos (remaining (skipWs st))) ∧
      remaining (skipWs st) = (remaining st).dropWhile isWsChar) ∧
    (∀ (s : String) ast st,
      parseCompletePipeline (jsTrim s.data) = .ok (ast, st) →
      (remaining st).dropWhile isWsChar ≠ [] →
      parseCompleteFn s = .error (.trailingChars (skipWs st).pos (remaining (skipWs st)))) ∧
    (∀ (s : String) e st x,
      parseOr ((jsTrim s.data).length + 1) ⟨jsTrim s.data, 0, []⟩ = .ok (e, st) →
      parseFn s = .ok x → (remaining st).dropWhile isWsChar = []) ∧
    (∀ (s : String) ast st x,
      parseCompletePipeline (jsTrim s.data) = .ok (ast, st) →
      parseCompleteFn s = .ok x → (remaining st).dropWhile isWsChar = []) := by
  have core1 : ∀ (s : String) e st,
      parseOr ((jsTrim s.data).length + 1) ⟨jsTrim s.data, 0, []⟩ = .ok (e, st) →
      (remaining st).dropWhile isWsChar ≠ [] →
      parseFn s = .error (.trailingChars (skipWs st).pos (remaining (skipWs st))) := by
    intro s e st hp hrem
    rw [parseFn]
    cases hemp : (jsTrim s.data).isEmpty
    · simp only [Bool.false_eq_true, if_false]
      rw [hp]
      exact trailingCheck_err e st hrem
    · exfalso
      have hnil : jsTrim s.data = [] := List.isEmpty_iff.mp hemp
      rw [hnil] at hp
      cases hp
  have core2 : ∀ (s : String) ast st,
      parseCompletePipeline (jsTrim s.data) = .ok (ast, st) →
      (remaining st).dropWhile isWsChar ≠ [] →
      parseCompleteFn s = .error (.trailingChars (skipWs st).pos (remaining (skipWs st))) := by
    intro s ast st hp hrem
    rw [parseCompleteFn]
    cases hemp : (jsTrim s.data).isEmpty
    · simp only [Bool.false_eq_true, if_false]
      rw [hp]
      exact trailingCheck_err ast st hrem
    · exfalso
      have hnil : jsTrim s.data = [] := List.isEmpty_iff.mp hemp
      rw [hnil] at hp
      have heval : parseCompletePipeline [] =
          .ok (⟨none, none, none, none⟩, ⟨[], 0, []⟩) := rfl
      rw [heval] at hp
      simp only [Except.ok.injEq, Prod.mk.injEq] at hp
      apply hrem
      rw [← hp.2]
      rfl
  refine ⟨fun s e st hp hrem => ⟨core1 s e st hp hrem, remaining_skipWs st⟩,
    core2, ?_, ?_⟩
  · intro s e st x hp hok
    by_contra hrem
    rw [core1 s e st hp hrem] at hok
    cases hok
  · intro s ast st x hp hok
    by_contra hrem
    rw [core2 s ast st hp hrem] at hok
    cases hok

/-- Witness for C6 at `A = 1 xyz`. -/
theorem c6_trailing_input_fatal_witness :
    parseFn "A = 1 xyz" = .error (.trailingChars 6 "xyz".data) := by
  have h := c6_trailing_input_fatal.1 "A = 1 xyz"
    (.pred "A".data .eq (.vnum 1)) ⟨"A = 1 xyz".data, 6, []⟩ (by rfl) (by decide)
  rw [h.1]
  rfl

-- ============================================================
-- C9 — the clause-keyword gate of parseComplete
-- ============================================================

theorem pipeline_whereE_none {input : List Char}
    (hhas : hasWhereClause ⟨input, 0, []⟩ = false) :
    ∀ ast st, parseCompletePipeline input = .ok (ast, st) → ast.whereE = none := by
  intro ast st h
  rw [parseCompletePipeline] at h
  simp only [hhas, Bool.false_eq_true, if_false] at h
  repeat' split at h
  all_goals cases h
  all_goals rfl

/-- C9: whenever the trimmed input begins, case-insensitively, with
`order`, `limit` or `offset` — even as a mere prefix of a longer
identifier — `parseComplete` never reads a predicate: a successful parse
carries no where clause, and inputs like `orderStatus = 1` or
`OrderItems.Quantity > 10` fail outright. -/
theorem c9_clause_keyword_gate :
    (∀ (s : String) ast,
      (lowerStarts (jsTrim s.data) "order".data = true ∨
        lowerStarts (jsTrim s.data) "limit".data = true ∨
        lowerStarts (jsTrim s.data) "offset".data = true) →
      parseCompleteFn s = .ok (some ast) → ast.whereE = none) ∧
    parseCompleteFn "orderStatus = 1" =
      .error (.trailingChars 0 "orderStatus = 1".data) ∧
    parseCompleteFn "OrderItems.Quantity > 10" =
      .error (.trailingChars 0 "OrderItems.Quantity > 10".data) ∧
    parseCompleteFn "order by A" =
      .ok (some ⟨none, some [⟨"A".data, .asc⟩], none, none⟩) := by
  refine ⟨?_, rfl, rfl, rfl⟩
  intro s ast hpre hok
  rw [parseCompleteFn] at hok
  cases hemp : (jsTrim s.data).isEmpty
  · simp only [hemp, Bool.false_eq_true, if_false] at hok
    cases hp : parseCompletePipeline (jsTrim s.data) with
    | error e => rw [hp] at hok; cases hok
    | ok p =>
      obtain ⟨ast', st'⟩ := p
      rw [hp] at hok
      dsimp only at hok
      have hast : ast' = ast := by
        rw [trailingCheck] at hok
        split at hok
        · cases hok
        · simp only [Except.ok.injEq, Option.some.injEq] at hok
          exact hok
      have hhas : hasWhereClause ⟨jsTrim s.data, 0, []⟩ = false :=
        hasWhereClause_false_of _ (jsTrim_wsCount _) hpre
      rw [← hast]
      exact pipeline_whereE_none hhas ast' st' hp
  · simp only [hemp, if_true] at hok
    cases hok

/-- Witness for C9 at `order by A`. -/
theorem c9_clause_keyword_gate_witness :
    (⟨none, some [⟨"A".data, .asc⟩], none, none⟩ : CompleteQueryAST).whereE = none :=
  c9_clause_keyword_gate.1 "order by A" ⟨none, some [⟨"A".data, .asc⟩], none, none⟩
    (Or.inl (by decide)) (by rfl)

-- ============================================================
-- Generic scanning and state-advance lemmas
-- ============================================================

theorem headNotB_nil (p : Char → Bool) : headNotB p [] = true := rfl

theorem headNotB_cons {p : Char → Bool} {c : Char} {r : List Char}
    (h : p c = false) : headNotB p (c :: r) = true := by
  rw [headNotB, h]; rfl

theorem dropWhile_headNot {p : Char → Bool} {l : List Char}
    (h : headNotB p l = true) : l.dropWhile p = l := by
  cases l with
  | nil => rfl
  | cons c r =>
    rw [headNotB] at h
    rw [List.dropWhile_cons, if_neg (by simp_all)]

theorem takeWhile_headNot {p : Char → Bool} {l : List Char}
    (h : headNotB p l = true) : l.takeWhile p = [] := by
  cases l with
  | nil => rfl
  | cons c r =>
    rw [headNotB] at h
    rw [List.takeWhile_cons, if_neg (by simp_all)]

theorem takeWhile_append_all {p : Char → Bool} :
    ∀ (a b : List Char), (∀ c ∈ a, p c = true) → headNotB p b = true →
      (a ++ b).takeWhile p = a ∧ (a ++ b).dropWhile p = b := by
  intro a
  induction a with
  | nil =>
    intro b _ hb
    exact ⟨takeWhile_headNot hb, dropWhile_headNot hb⟩
  | cons x t ih =>
    intro b ha hb
    have hx : p x = true := ha x (List.mem_cons_self x t)
    have ht : ∀ c ∈ t, p c = true := fun c hc => ha c (List.mem_cons_of_mem x hc)
    obtain ⟨h1, h2⟩ := ih b ht hb
    constructor
    · rw [List.cons_append, List.takeWhile_cons, if_pos hx, h1]
    · rw [List.cons_append, List.dropWhile_cons, if_pos hx, h2]

theorem headNotB_of_all {p q : Char → Bool} (h : ∀ c, p c = true → q c = false) :
    ∀ l : List Char, (∀ c ∈ l, p c = true) → headNotB q l = true := by
  intro l hl
  cases l with
  | nil => rfl
  | cons c r =>
    rw [headNotB, h c (hl c (List.mem_cons_self c r))]
    rfl

theorem stepped_stepped (st : PState) (m n : Nat) :
    stepped (stepped st m) n = stepped st (m + n) := by
  rw [stepped, stepped, stepped, Nat.add_assoc]

theorem stepped_zero (st : PState) : stepped st 0 = st := rfl

theorem remaining_stepped (st : PState) (n : Nat) :
    remaining (stepped st n) = (remaining st).drop n := by
  show st.input.drop (st.pos + n) = (st.input.drop st.pos).drop n
  rw [List.drop_drop, Nat.add_comm]

theorem remaining_stepped_of (st : PState) (a rest : List Char)
    (h : remaining st = a ++ rest) :
    remaining (stepped st a.length) = rest := by
  rw [remaining_stepped, h, List.drop_left]

theorem peek_of (st : PState) (c : Char) (r : List Char)
    (h : remaining st = c :: r) : peek? st = some c := by
  rw [peek?, h]; rfl

theorem peek_nil (st : PState) (h : remaining st = []) : peek? st = none := by
  rw [peek?, h]; rfl

theorem consumeLit_yes (tok rest : List Char) (st : PState)
    (h : remaining st = tok ++ rest) :
    consumeLit tok st = (true, stepped st tok.length) := by
  rw [consumeLit, h, if_pos (List.take_left tok rest)]
  rfl

theorem consumeLit_no (tok : List Char) (st : PState)
    (h : ¬(remaining st).take tok.length = tok) :
    consumeLit tok st = (false, st) := by
  rw [consumeLit, if_neg h]

theorem take_ne_of_get (t tok : List Char) (i : Nat)
    (hi : i < tok.length) (hne : ¬ t[i]? = tok[i]?) :
    ¬ t.take tok.length = tok := by
  intro h
  apply hne
  rw [← h, List.getElem?_take_of_lt hi]

theorem skipWs_pad (st : PState) (pad t : List Char)
    (hrem : remaining st = pad ++ t) (hpad : ∀ c ∈ pad, isWsChar c = true)
    (ht : headNotB isWsChar t = true) :
    skipWs st = stepped st pad.length := by
  obtain ⟨h1, _⟩ := takeWhile_append_all pad t hpad ht
  have hws : wsCount (remaining st) = pad.length := by
    rw [wsCount, hrem, h1]
  rw [skipWs, hws]
  rfl

theorem consumeKeyword_yes (kw : List Char) (st : PState) (pad rest : List Char)
    (hrem : remaining st = pad ++ (kw ++ rest))
    (hpad : ∀ c ∈ pad, isWsChar c = true)
    (hkw : headNotB isWsChar (kw ++ rest) = true)
    (hb : headNotB (fun c => !isBoundaryChar c) rest = true) :
    consumeKeyword kw st = (true, stepped st (pad.length + kw.length)) := by
  have hs1 : skipWs st = stepped st pad.length := skipWs_pad st pad (kw ++ rest) hrem hpad hkw
  have hs2 : remaining (stepped st pad.length) = kw ++ rest :=
    remaining_stepped_of st pad (kw ++ rest) hrem
  have hc1 : consumeLit kw (stepped st pad.length) =
      (true, stepped (stepped st pad.length) kw.length) :=
    consumeLit_yes kw rest (stepped st pad.length) hs2
  have hc2 : remaining (stepped (stepped st pad.length) kw.length) = rest :=
    remaining_stepped_of (stepped st pad.length) kw rest hs2
  rw [consumeKeyword]
  rw [hs1, hc1]
  dsimp only
  cases hr : rest with
  | nil =>
    rw [hr] at hc2
    rw [peek_nil _ hc2]
    dsimp only
    rw [stepped_stepped]
  | cons c r =>
    rw [hr] at hc2 hb
    rw [headNotB] at hb
    have hbc : isBoundaryChar c = true := by
      cases hbb : isBoundaryChar c
      · rw [hbb] at hb; cases hb
      · rfl
    rw [peek_of _ c r hc2]
    dsimp only
    rw [if_pos hbc, stepped_stepped]

theorem kwOkAt_false_of_take_ne (kw t : List Char)
    (ht : headNotB isWsChar t = true) (h : ¬ t.take kw.length = kw) :
    kwOkAt kw t = false := by
  rw [kwOkAt]
  rw [dropWhile_headNot ht, beq_false_of_ne h, Bool.false_and]

theorem kwOkAt_false_get (kw t : List Char) (ht : headNotB isWsChar t = true)
    (i : Nat) (hi : i < kw.length) (hne : ¬ t[i]? = kw[i]?) :
    kwOkAt kw t = false :=
  kwOkAt_false_of_take_ne kw t ht (take_ne_of_get t kw i hi hne)

theorem ne_of_all_not {p : Char → Bool} {a b : List Char}
    (hall : ∀ c ∈ a, p c = true) {c : Char} (hc : c ∈ b) (hpc : p c = false) :
    ¬ a = b := by
  intro h
  subst h
  rw [hall c hc] at hpc
  cases hpc

theorem kwOkAt_false_all {p : Char → Bool} (kw t : List Char)
    (ht : headNotB isWsChar t = true)
    (hall : ∀ c ∈ t, p c = true) {c : Char} (hc : c ∈ kw) (hpc : p c = false) :
    kwOkAt kw t = false := by
  apply kwOkAt_false_of_take_ne kw t ht
  exact ne_of_all_not (fun d hd => hall d (List.mem_of_mem_take hd)) hc hpc

theorem consumeKeyword_no (kw : List Char) (st : PState) (pad t : List Char)
    (hrem : remaining st = pad ++ t)
    (hpad : ∀ c ∈ pad, isWsChar c = true)
    (ht : headNotB isWsChar t = true)
    (hno : kwOkAt kw t = false) :
    consumeKeyword kw st = (false, stepped st pad.length) := by
  have hs1 : skipWs st = stepped st pad.length := skipWs_pad st pad t hrem hpad ht
  have hs2 : remaining (stepped st pad.length) = t :=
    remaining_stepped_of st pad t hrem
  rw [kwOkAt] at hno
  rw [dropWhile_headNot ht] at hno
  rw [consumeKeyword]
  rw [hs1]
  by_cases htake : t.take kw.length = kw
  · have hc1 : consumeLit kw (stepped st pad.length) =
        (true, stepped (stepped st pad.length) kw.length) := by
      have : remaining (stepped st pad.length) = kw ++ t.drop kw.length := by
        rw [hs2]
        conv_lhs => rw [← List.take_append_drop kw.length t]
        rw [htake]
      exact consumeLit_yes kw (t.drop kw.length) (stepped st pad.length) this
    have hc2 : remaining (stepped (stepped st pad.length) kw.length) = t.drop kw.length := by
      rw [remaining_stepped, hs2]
    rw [hc1]
    dsimp only
    rw [beq_iff_eq.mpr htake, Bool.true_and] at hno
    cases hd : t.drop kw.length with
    | nil =>
      rw [hd] at hno
      have hno2 : (true : Bool) = false := hno
      cases hno2
    | cons c r =>
      rw [hd] at hno hc2
      have hno2 : isBoundaryChar c = false := hno
      rw [peek_of _ c r hc2]
      dsimp only
      rw [if_neg (by simp [hno2])]
  · rw [consumeLit_no kw _ (by rw [hs2]; exact htake)]

-- character-class disjointness facts

theorem digit_not_ws (c : Char) (h : isDigitChar c = true) : isWsChar c = false := by
  rw [isDigitChar] at h
  rw [isWsChar]
  simp only [Bool.and_eq_true, decide_eq_true_eq, beq_iff_eq] at h
  simp only [Bool.or_eq_false_iff, beq_eq_false_iff_ne, ne_eq, Bool.and_eq_false_iff,
    decide_eq_false_iff_not, not_le]
  omega

theorem digit_numTok (c : Char) (h : isDigitChar c = true) : isNumTokChar c = true := by
  rw [isNumTokChar, h, Bool.true_or]

theorem numTok_not_ws (c : Char) (h : isNumTokChar c = true) : isWsChar c = false := by
  rw [isNumTokChar, Bool.or_eq_true, beq_iff_eq] at h
  rcases h with h | h
  · exact digit_not_ws c h
  · subst h; rfl

theorem digit_ne_dash (c : Char) (h : isDigitChar c = true) : ¬ c = '-' := by
  intro hc
  subst hc
  cases h

theorem fieldChar_not_ws (c : Char) (h : isFieldChar c = true) : isWsChar c = false := by
  rw [isFieldChar] at h
  rw [isWsChar]
  simp only [Bool.or_eq_true, Bool.and_eq_true, decide_eq_true_eq, beq_iff_eq] at h
  simp only [Bool.or_eq_false_iff, beq_eq_false_iff_ne, ne_eq, Bool.and_eq_false_iff,
    decide_eq_false_iff_not, not_le]
  omega

-- ============================================================
-- Number-parsing lemmas
-- ============================================================

theorem natDecimal_head (n : Nat) :
    ∃ c r, natDecimal n = c :: r ∧ isDigitChar c = true := by
  cases hnd : natDecimal n with
  | nil => exact absurd hnd (natDecimal_ne_nil n)
  | cons c r =>
    refine ⟨c, r, rfl, ?_⟩
    apply natDecimal_all_digits n
    rw [hnd]
    exact List.mem_cons_self c r

theorem natDecimal_headNot_ws (n : Nat) (rest : List Char) :
    headNotB isWsChar (natDecimal n ++ rest) = true := by
  obtain ⟨c, r, hnd, hc⟩ := natDecimal_head n
  rw [hnd, List.cons_append]
  exact headNotB_cons (digit_not_ws c hc)

theorem jsParseFloat_natDecimal (n : Nat) : jsParseFloat (natDecimal n) = some (n : ℚ) := by
  obtain ⟨c, r, hnd, hc⟩ := natDecimal_head n
  have hneg : ¬ (natDecimal n).head? = some '-' := by
    rw [hnd]
    simp only [List.head?_cons, Option.some.injEq]
    exact digit_ne_dash c hc
  have htk : (natDecimal n).takeWhile isDigitChar = natDecimal n ∧
      (natDecimal n).dropWhile isDigitChar = [] := by
    have h := takeWhile_append_all (natDecimal n) [] (natDecimal_all_digits n) rfl
    rw [List.append_nil] at h
    exact h
  rw [jsParseFloat]
  simp only [if_neg hneg]
  rw [htk.1, List.drop_length]
  have hne : ¬((natDecimal n).isEmpty = true ∧ ([] : List Char).isEmpty = true) := by
    intro h
    exact natDecimal_ne_nil n (List.isEmpty_iff.mp h.1)
  rw [if_neg hne]
  rw [natFromDigits_natDecimal]
  show some (Rat.divInt ((n : Int) * 10 ^ ([] : List Char).length +
    (natFromDigits [] : Int)) ((10 : Int) ^ ([] : List Char).length)) = _
  norm_num [natFromDigits, Rat.divInt_one]

theorem parseNumber_natDecimal (st : PState) (n : Nat) (rest : List Char)
    (hrem : remaining st = natDecimal n ++ rest)
    (hrest : headNotB isNumTokChar rest = true) :
    parseNumber st = .ok ((n : ℚ), stepped st (natDecimal n).length) := by
  obtain ⟨c, r, hnd, hc⟩ := natDecimal_head n
  have hneg : ¬ peek? st = some '-' := by
    rw [peek?, hrem, hnd]
    simp only [List.cons_append, List.head?_cons, Option.some.injEq]
    exact digit_ne_dash c hc
  have htk : ((natDecimal n ++ rest).takeWhile isNumTokChar = natDecimal n) :=
    (takeWhile_append_all (natDecimal n) rest
      (fun d hd => digit_numTok d (natDecimal_all_digits n d hd)) hrest).1
  rw [parseNumber]
  simp only [if_neg hneg]
  rw [hrem, htk, List.nil_append, jsParseFloat_natDecimal]
  rfl

theorem parseLimit_natDecimal (st : PState) (n : Nat) (pad rest : List Char)
    (hrem : remaining st = pad ++ (natDecimal n ++ rest))
    (hpad : ∀ c ∈ pad, isWsChar c = true)
    (hrest : headNotB isNumTokChar rest = true) :
    parseLimit st =
      if 1 ≤ n ∧ n ≤ 500
      then .ok ((n : ℚ), stepped st (pad.length + (natDecimal n).length))
      else .error (.limitOutOfRange (n : ℚ)) := by
  obtain ⟨c, r, hnd, hc⟩ := natDecimal_head n
  have hs1 : skipWs st = stepped st pad.length :=
    skipWs_pad st pad _ hrem hpad (natDecimal_headNot_ws n rest)
  have hs2 : remaining (stepped st pad.length) = natDecimal n ++ rest :=
    remaining_stepped_of st pad _ hrem
  have hnum : isNumberB (stepped st pad.length) = true := by
    rw [isNumberB, peek?, hs2, hnd]
    simp only [List.cons_append, List.head?_cons]
    rw [hc, Bool.or_true]
  have hpn : parseNumber (stepped st pad.length) =
      .ok ((n : ℚ), stepped (stepped st pad.length) (natDecimal n).length) :=
    parseNumber_natDecimal _ n rest hs2 hrest
  rw [parseLimit]
  rw [hs1, if_pos hnum, hpn]
  dsimp only
  by_cases hn : 1 ≤ n ∧ n ≤ 500
  · rw [if_pos hn]
    rw [if_neg ?hc1, stepped_stepped]
    case hc1 =>
      intro h
      rcases h with h | h | h
      · rw [Nat.cast_lt_one] at h
        omega
      · rw [Nat.ofNat_lt_cast] at h
        omega
      · exact h (Rat.den_natCast n)
  · rw [if_neg hn]
    rw [if_pos ?hc2]
    case hc2 =>
      by_cases h1 : n = 0
      · left
        rw [Nat.cast_lt_one]
        exact h1
      · right; left
        rw [Nat.ofNat_lt_cast]
        omega

theorem parseOffset_natDecimal (st : PState) (n : Nat) (pad rest : List Char)
    (hrem : remaining st = pad ++ (natDecimal n ++ rest))
    (hpad : ∀ c ∈ pad, isWsChar c = true)
    (hrest : headNotB isNumTokChar rest = true) :
    parseOffset st =
      if n ≤ 10000
      then .ok ((n : ℚ), stepped st (pad.length + (natDecimal n).length))
      else .error (.offsetOutOfRange (n : ℚ)) := by
  obtain ⟨c, r, hnd, hc⟩ := natDecimal_head n
  have hs1 : skipWs st = stepped st pad.length :=
    skipWs_pad st pad _ hrem hpad (natDecimal_headNot_ws n rest)
  have hs2 : remaining (stepped st pad.length) = natDecimal n ++ rest :=
    remaining_stepped_of st pad _ hrem
  have hnum : isNumberB (stepped st pad.length) = true := by
    rw [isNumberB, peek?, hs2, hnd]
    simp only [List.cons_append, List.head?_cons]
    rw [hc, Bool.or_true]
  have hpn : parseNumber (stepped st pad.length) =
      .ok ((n : ℚ), stepped (stepped st pad.length) (natDecimal n).length) :=
    parseNumber_natDecimal _ n rest hs2 hrest
  rw [parseOffset]
  rw [hs1, if_pos hnum, hpn]
  dsimp only
  by_cases hn : n ≤ 10000
  · rw [if_pos hn]
    rw [if_neg ?hd1, stepped_stepped]
    case hd1 =>
      intro h
      rcases h with h | h | h
      · exact absurd h (by simp [Nat.cast_nonneg])
      · rw [Nat.ofNat_lt_cast] at h
        omega
      · exact h (Rat.den_natCast n)
  · rw [if_neg hn]
    rw [if_pos ?hd2]
    case hd2 =>
      right; left
      rw [Nat.ofNat_lt_cast]
      omega

-- ============================================================
-- Whole-input traces for the limit / offset bounds claim
-- ============================================================

theorem headNotB_append_of_ne_nil {p : Char → Bool} (a b : List Char)
    (ha : headNotB p a = true) (hne : a ≠ []) : headNotB p (a ++ b) = true := by
  cases a with
  | nil => exact absurd rfl hne
  | cons c r => rw [List.cons_append]; exact ha

theorem natDecimal_rev_headNot_ws (n : Nat) (b : List Char) :
    headNotB isWsChar ((natDecimal n).reverse ++ b) = true := by
  apply headNotB_append_of_ne_nil
  · exact headNotB_of_all digit_not_ws _
      (fun c hc => natDecimal_all_digits n c (List.mem_reverse.mp hc))
  · simp [natDecimal_ne_nil n]

theorem jsTrim_eq_self (l : List Char) (h1 : headNotB isWsChar l = true)
    (h2 : headNotB isWsChar l.reverse = true) : jsTrim l = l := by
  rw [jsTrim, dropWhile_headNot h1, dropWhile_headNot h2, List.reverse_reverse]

theorem pipeline_limit_natDecimal (n : Nat) :
    parseCompletePipeline ("limit ".data ++ natDecimal n) =
      if 1 ≤ n ∧ n ≤ 500
      then .ok (⟨none, none, some (n : ℚ), none⟩,
        stepped ⟨"limit ".data ++ natDecimal n, 0, []⟩ (5 + (1 + (natDecimal n).length)))
      else .error (.limitOutOfRange (n : ℚ)) := by
  have hrem0 : remaining ⟨"limit ".data ++ natDecimal n, 0, []⟩ =
      "limit ".data ++ natDecimal n := List.drop_zero _
  have hwc : hasWhereClause ⟨"limit ".data ++ natDecimal n, 0, []⟩ = false := by
    apply hasWhereClause_false_of
    · exact wsCount_cons_of_not (by decide)
    · right; left; rfl
  have hord : consumeKeyword "order".data ⟨"limit ".data ++ natDecimal n, 0, []⟩ =
      (false, ⟨"limit ".data ++ natDecimal n, 0, []⟩) :=
    consumeKeyword_no "order".data _ [] ("limit ".data ++ natDecimal n) hrem0
      (by intro c hc; cases hc) rfl
      (kwOkAt_false_get _ _ rfl 0 (by decide)
        (by rw [show ("limit ".data ++ natDecimal n)[0]? = some 'l' from rfl]; decide))
  have hlim : consumeKeyword "limit".data ⟨"limit ".data ++ natDecimal n, 0, []⟩ =
      (true, stepped ⟨"limit ".data ++ natDecimal n, 0, []⟩ 5) :=
    consumeKeyword_yes "limit".data _ [] (' ' :: natDecimal n) hrem0
      (by intro c hc; cases hc) rfl rfl
  have hrem5 : remaining (stepped ⟨"limit ".data ++ natDecimal n, 0, []⟩ 5) =
      [' '] ++ (natDecimal n ++ []) := by
    rw [List.append_nil]
    exact remaining_stepped_of _ "limit".data (' ' :: natDecimal n) hrem0
  have hpl := parseLimit_natDecimal (stepped ⟨"limit ".data ++ natDecimal n, 0, []⟩ 5)
    n [' '] [] hrem5 (by decide) rfl
  have hremF : remaining (stepped (stepped ⟨"limit ".data ++ natDecimal n, 0, []⟩ 5)
      (1 + (natDecimal n).length)) = [] := by
    rw [remaining_stepped, hrem5, List.append_nil, List.drop_eq_nil_iff, List.length_append,
      show ([' '] : List Char).length = 1 from rfl]
  have hoff : consumeKeyword "offset".data
      (stepped (stepped ⟨"limit ".data ++ natDecimal n, 0, []⟩ 5)
        (1 + (natDecimal n).length)) =
      (false, stepped (stepped ⟨"limit ".data ++ natDecimal n, 0, []⟩ 5)
        (1 + (natDecimal n).length)) :=
    consumeKeyword_no "offset".data _ [] [] hremF (by intro c hc; cases hc) rfl rfl
  simp only [List.length_cons, List.length_nil, Nat.zero_add] at hpl
  rw [parseCompletePipeline]
  rw [hwc]
  rw [if_neg (show ¬(false = true) from Bool.false_ne_true)]
  dsimp only
  rw [hord]
  dsimp only
  rw [hlim]
  dsimp only
  rw [hpl]
  by_cases hn : 1 ≤ n ∧ n ≤ 500
  · rw [if_pos hn, if_pos hn]
    dsimp only
    rw [hoff]
    dsimp only
    rw [stepped_stepped]
  · rw [if_neg hn, if_neg hn]

theorem pipeline_offset_natDecimal (n : Nat) :
    parseCompletePipeline ("offset ".data ++ natDecimal n) =
      if n ≤ 10000
      then .ok (⟨none, none, none, some (n : ℚ)⟩,
        stepped ⟨"offset ".data ++ natDecimal n, 0, []⟩ (6 + (1 + (natDecimal n).length)))
      else .error (.offsetOutOfRange (n : ℚ)) := by
  have hrem0 : remaining ⟨"offset ".data ++ natDecimal n, 0, []⟩ =
      "offset ".data ++ natDecimal n := List.drop_zero _
  have hwc : hasWhereClause ⟨"offset ".data ++ natDecimal n, 0, []⟩ = false := by
    apply hasWhereClause_false_of
    · exact wsCount_cons_of_not (by decide)
    · right; right; rfl
  have hord : consumeKeyword "order".data ⟨"offset ".data ++ natDecimal n, 0, []⟩ =
      (false, ⟨"offset ".data ++ natDecimal n, 0, []⟩) :=
    consumeKeyword_no "order".data _ [] ("offset ".data ++ natDecimal n) hrem0
      (by intro c hc; cases hc) rfl
      (kwOkAt_false_get _ _ rfl 1 (by decide)
        (by rw [show ("offset ".data ++ natDecimal n)[1]? = some 'f' from rfl]; decide))
  have hlim : consumeKeyword "limit".data ⟨"offset ".data ++ natDecimal n, 0, []⟩ =
      (false, ⟨"offset ".data ++ natDecimal n, 0, []⟩) :=
    consumeKeyword_no "limit".data _ [] ("offset ".data ++ natDecimal n) hrem0
      (by intro c hc; cases hc) rfl
      (kwOkAt_false_get _ _ rfl 0 (by decide)
        (by rw [show ("offset ".data ++ natDecimal n)[0]? = some 'o' from rfl]; decide))
  have hoff : consumeKeyword "offset".data ⟨"offset ".data ++ natDecimal n, 0, []⟩ =
      (true, stepped ⟨"offset ".data ++ natDecimal n, 0, []⟩ 6) :=
    consumeKeyword_yes "offset".data _ [] (' ' :: natDecimal n) hrem0
      (by intro c hc; cases hc) rfl rfl
  have hrem6 : remaining (stepped ⟨"offset ".data ++ natDecimal n, 0, []⟩ 6) =
      [' '] ++ (natDecimal n ++ []) := by
    rw [List.append_nil]
    exact remaining_stepped_of _ "offset".data (' ' :: natDecimal n) hrem0
  have hpo := parseOffset_natDecimal (stepped ⟨"offset ".data ++ natDecimal n, 0, []⟩ 6)
    n [' '] [] hrem6 (by decide) rfl
  simp only [List.length_cons, List.length_nil, Nat.zero_add] at hpo
  rw [parseCompletePipeline]
  rw [hwc]
  rw [if_neg (show ¬(false = true) from Bool.false_ne_true)]
  dsimp only
  rw [hord]
  dsimp only
  rw [hlim]
  dsimp only
  rw [hoff]
  dsimp only
  rw [hpo]
  by_cases hn : n ≤ 10000
  · rw [if_pos hn, if_pos hn]
    dsimp only
    rw [stepped_stepped]
  · rw [if_neg hn, if_neg hn]

theorem parseCompleteFn_limit_natDecimal (n : Nat) :
    parseCompleteFn (String.mk ("limit ".data ++ natDecimal n)) =
      if 1 ≤ n ∧ n ≤ 500 then .ok (some ⟨none, none, some (n : ℚ), none⟩)
      else .error (.limitOutOfRange (n : ℚ)) := by
  have htrim : jsTrim (String.mk ("limit ".data ++ natDecimal n)).data =
      "limit ".data ++ natDecimal n := by
    apply jsTrim_eq_self
    · rfl
    · rw [List.reverse_append]
      exact natDecimal_rev_headNot_ws n _
  have hremF : remaining (stepped ⟨"limit ".data ++ natDecimal n, 0, []⟩
      (5 + (1 + (natDecimal n).length))) = [] := by
    have hrem0 : remaining ⟨"limit ".data ++ natDecimal n, 0, []⟩ =
        "limit ".data ++ natDecimal n := List.drop_zero _
    rw [remaining_stepped, hrem0, List.drop_eq_nil_iff, List.length_append,
      show ("limit ".data).length = 6 from rfl]
    omega
  rw [parseCompleteFn]
  rw [htrim]
  rw [if_neg (show ¬(("limit ".data ++ natDecimal n).isEmpty = true) from
    fun h => Bool.false_ne_true h)]
  rw [pipeline_limit_natDecimal n]
  by_cases hn : 1 ≤ n ∧ n ≤ 500
  · rw [if_pos hn, if_pos hn]
    exact trailingCheck_ok _ _ (by rw [hremF]; rfl)
  · rw [if_neg hn, if_neg hn]

theorem parseCompleteFn_offset_natDecimal (n : Nat) :
    parseCompleteFn (String.mk ("offset ".data ++ natDecimal n)) =
      if n ≤ 10000 then .ok (some ⟨none, none, none, some (n : ℚ)⟩)
      else .error (.offsetOutOfRange (n : ℚ)) := by
  have htrim : jsTrim (String.mk ("offset ".data ++ natDecimal n)).data =
      "offset ".data ++ natDecimal n := by
    apply jsTrim_eq_self
    · rfl
    · rw [List.reverse_append]
      exact natDecimal_rev_headNot_ws n _
  have hremF : remaining (stepped ⟨"offset ".data ++ natDecimal n, 0, []⟩
      (6 + (1 + (natDecimal n).length))) = [] := by
    have hrem0 : remaining ⟨"offset ".data ++ natDecimal n, 0, []⟩ =
        "offset ".data ++ natDecimal n := List.drop_zero _
    rw [remaining_stepped, hrem0, List.drop_eq_nil_iff, List.length_append,
      show ("offset ".data).length = 7 from rfl]
    omega
  rw [parseCompleteFn]
  rw [htrim]
  rw [if_neg (show ¬(("offset ".data ++ natDecimal n).isEmpty = true) from
    fun h => Bool.false_ne_true h)]
  rw [pipeline_offset_natDecimal n]
  by_cases hn : n ≤ 10000
  · rw [if_pos hn, if_pos hn]
    exact trailingCheck_ok _ _ (by rw [hremF]; rfl)
  · rw [if_neg hn, if_neg hn]

-- ============================================================
-- C5 — limit / offset bounds
-- ============================================================

/-- C5: `limit 1` and `limit 500` parse, `limit 0` / `limit 501` fail with
the limit-out-of-range error, `limit 50.5` fails as a non-integer, and
`offset 0` / `offset 10000` parse while `offset -1` / `offset 10001` fail
with the offset-out-of-range error; in general, for every decimal numeral
`n`, `limit n` is accepted exactly when `1 ≤ n ≤ 500` and `offset n`
exactly when `0 ≤ n ≤ 10000`, and conversely every accepted limit (offset)
is an integer in `1..500` (`0..10000`). -/
theorem c5_limit_offset_bounds :
    (∀ n : Nat, 1 ≤ n → n ≤ 500 →
      parseCompleteFn (String.mk ("limit ".data ++ natDecimal n)) =
        .ok (some ⟨none, none, some (n : ℚ), none⟩)) ∧
    (∀ n : Nat, 500 < n →
      parseCompleteFn (String.mk ("limit ".data ++ natDecimal n)) =
        .error (.limitOutOfRange (n : ℚ))) ∧
    (∀ n : Nat, n ≤ 10000 →
      parseCompleteFn (String.mk ("offset ".data ++ natDecimal n)) =
        .ok (some ⟨none, none, none, some (n : ℚ)⟩)) ∧
    (∀ n : Nat, 10000 < n →
      parseCompleteFn (String.mk ("offset ".data ++ natDecimal n)) =
        .error (.offsetOutOfRange (n : ℚ))) ∧
    (∀ st q st', parseLimit st = .ok (q, st') → 1 ≤ q ∧ q ≤ 500 ∧ q.den = 1) ∧
    (∀ st q st', parseOffset st = .ok (q, st') → 0 ≤ q ∧ q ≤ 10000 ∧ q.den = 1) ∧
    parseCompleteFn "limit 1" = .ok (some ⟨none, none, some 1, none⟩) ∧
    parseCompleteFn "limit 500" = .ok (some ⟨none, none, some 500, none⟩) ∧
    parseCompleteFn "limit 0" = .error (.limitOutOfRange 0) ∧
    parseCompleteFn "limit 501" = .error (.limitOutOfRange 501) ∧
    parseCompleteFn "limit 50.5" = .error (.limitOutOfRange (Rat.divInt 101 2)) ∧
    parseCompleteFn "offset 0" = .ok (some ⟨none, none, none, some 0⟩) ∧
    parseCompleteFn "offset 10000" = .ok (some ⟨none, none, none, some 10000⟩) ∧
    parseCompleteFn "offset -1" = .error (.offsetOutOfRange (-1)) ∧
    parseCompleteFn "offset 10001" = .error (.offsetOutOfRange 10001) := by
  refine ⟨?_, ?_, ?_, ?_, ?_, ?_, rfl, rfl, rfl, rfl, rfl, rfl, rfl, rfl, rfl⟩
  · intro n h1 h2
    rw [parseCompleteFn_limit_natDecimal n, if_pos ⟨h1, h2⟩]
  · intro n h
    rw [parseCompleteFn_limit_natDecimal n, if_neg (by omega)]
  · intro n h
    rw [parseCompleteFn_offset_natDecimal n, if_pos h]
  · intro n h
    rw [parseCompleteFn_offset_natDecimal n, if_neg (by omega)]
  · intro st q st' h
    simp only [parseLimit] at h
    by_cases hn : isNumberB (skipWs st)
    · rw [if_pos hn] at h
      cases hp : parseNumber (skipWs st) with
      | error e => rw [hp] at h; simp at h
      | ok p =>
        obtain ⟨q0, st2⟩ := p
        rw [hp] at h
        dsimp only at h
        by_cases hc : q0 < 1 ∨ 500 < q0 ∨ q0.den ≠ 1
        · rw [if_pos hc] at h; simp at h
        · rw [if_neg hc] at h
          simp only [Except.ok.injEq, Prod.mk.injEq] at h
          obtain ⟨rfl, rfl⟩ := h
          push_neg at hc
          exact ⟨by linarith [hc.1], by linarith [hc.2.1], hc.2.2⟩
    · rw [if_neg hn] at h; simp at h
  · intro st q st' h
    simp only [parseOffset] at h
    by_cases hn : isNumberB (skipWs st)
    · rw [if_pos hn] at h
      cases hp : parseNumber (skipWs st) with
      | error e => rw [hp] at h; simp at h
      | ok p =>
        obtain ⟨q0, st2⟩ := p
        rw [hp] at h
        dsimp only at h
        by_cases hc : q0 < 0 ∨ 10000 < q0 ∨ q0.den ≠ 1
        · rw [if_pos hc] at h; simp at h
        · rw [if_neg hc] at h
          simp only [Except.ok.injEq, Prod.mk.injEq] at h
          obtain ⟨rfl, rfl⟩ := h
          push_neg at hc
          exact ⟨by linarith [hc.1], by linarith [hc.2.1], hc.2.2⟩
    · rw [if_neg hn] at h; simp at h

/-- Witness for C5 at concrete inputs: the general decimal-numeral parts
applied at `limit 42`, `limit 777`, `offset 42` and `offset 20000`. -/
theorem c5_limit_offset_bounds_witness :
    parseCompleteFn (String.mk ("limit ".data ++ natDecimal 42)) =
      .ok (some ⟨none, none, some ((42 : Nat) : ℚ), none⟩) ∧
    parseCompleteFn (String.mk ("limit ".data ++ natDecimal 777)) =
      .error (.limitOutOfRange ((777 : Nat) : ℚ)) ∧
    parseCompleteFn (String.mk ("offset ".data ++ natDecimal 42)) =
      .ok (some ⟨none, none, none, some ((42 : Nat) : ℚ)⟩) ∧
    parseCompleteFn (String.mk ("offset ".data ++ natDecimal 20000)) =
      .error (.offsetOutOfRange ((20000 : Nat) : ℚ)) ∧
    (1 ≤ (7 : ℚ) ∧ (7 : ℚ) ≤ 500 ∧ (7 : ℚ).den = 1) ∧
    (0 ≤ (7 : ℚ) ∧ (7 : ℚ) ≤ 10000 ∧ (7 : ℚ).den = 1) :=
  ⟨c5_limit_offset_bounds.1 42 (by decide) (by decide),
   c5_limit_offset_bounds.2.1 777 (by decide),
   c5_limit_offset_bounds.2.2.1 42 (by decide),
   c5_limit_offset_bounds.2.2.2.1 20000 (by decide),
   c5_limit_offset_bounds.2.2.2.2.1 ⟨"7".data, 0, []⟩ 7 ⟨"7".data, 1, []⟩ (by rfl),
   c5_limit_offset_bounds.2.2.2.2.2.1 ⟨"7".data, 0, []⟩ 7 ⟨"7".data, 1, []⟩ (by rfl)⟩

-- ============================================================
-- Round-trip toolkit A: class helpers and zero-pad consumption
-- ============================================================

theorem class_ne {p : Char → Bool} (c d : Char) (hc : p c = true) (hd : p d = false) :
    ¬ c = d := by
  intro h
  subst h
  rw [hc] at hd
  cases hd

theorem consumeKeyword_no0 (kw : List Char) (st : PState)
    (ht : headNotB isWsChar (remaining st) = true)
    (hno : kwOkAt kw (remaining st) = false) :
    consumeKeyword kw st = (false, st) :=
  consumeKeyword_no kw st [] (remaining st) rfl (by intro c hc; cases hc) ht hno

theorem consumeKeyword_yes0 (kw : List Char) (st : PState) (rest : List Char)
    (hrem : remaining st = kw ++ rest)
    (hkw : headNotB isWsChar (kw ++ rest) = true)
    (hb : headNotB (fun c => !isBoundaryChar c) rest = true) :
    consumeKeyword kw st = (true, stepped st kw.length) := by
  have h := consumeKeyword_yes kw st [] rest hrem (by intro c hc; cases hc) hkw hb
  simpa only [List.length_nil, Nat.zero_add] using h

theorem consumeLit_no_head (tok : List Char) (st : PState) (c : Char) (r : List Char)
    (hrem : remaining st = c :: r) (d : Char) (tr : List Char) (htok : tok = d :: tr)
    (hne : ¬ c = d) : consumeLit tok st = (false, st) := by
  apply consumeLit_no
  rw [hrem, htok, show (d :: tr).length = tr.length + 1 from rfl, List.take_succ_cons]
  intro h
  exact hne (List.head_eq_of_cons_eq h)

theorem kwOkAt_false_head (kw t : List Char) (c : Char) (r : List Char)
    (ht2 : t = c :: r) (hws : isWsChar c = false) (d : Char) (tr : List Char)
    (hkw : kw = d :: tr) (hne : ¬ c = d) : kwOkAt kw t = false := by
  subst ht2
  subst hkw
  apply kwOkAt_false_of_take_ne
  · exact headNotB_cons hws
  · rw [show (d :: tr).length = tr.length + 1 from rfl, List.take_succ_cons]
    intro h
    exact hne (List.head_eq_of_cons_eq h)

theorem upper_not_ws (c : Char) (h : isUpperAZ c = true) : isWsChar c = false := by
  rw [isUpperAZ] at h
  rw [isWsChar]
  simp only [Bool.and_eq_true, decide_eq_true_eq] at h
  simp only [Bool.or_eq_false_iff, beq_eq_false_iff_ne, ne_eq, Bool.and_eq_false_iff,
    decide_eq_false_iff_not, not_le]
  omega

theorem funcChar_not_ws (c : Char) (h : isFuncChar c = true) : isWsChar c = false := by
  rw [isFuncChar, Bool.or_eq_true, beq_iff_eq] at h
  rcases h with h | h
  · exact upper_not_ws c h
  · have hc : c.toNat = 95 := h
    rw [isWsChar]
    simp only [Bool.or_eq_false_iff, beq_eq_false_iff_ne, ne_eq, Bool.and_eq_false_iff,
      decide_eq_false_iff_not, not_le]
    omega

theorem upper_isField (c : Char) (h : isUpperAZ c = true) : isFieldChar c = true := by
  rw [isUpperAZ] at h
  rw [isFieldChar]
  simp only [Bool.and_eq_true, decide_eq_true_eq] at h
  simp only [Bool.or_eq_true, Bool.and_eq_true, decide_eq_true_eq, beq_iff_eq]
  omega

theorem digit_isField (c : Char) (h : isDigitChar c = true) : isFieldChar c = true := by
  rw [isDigitChar] at h
  rw [isFieldChar]
  simp only [Bool.and_eq_true, decide_eq_true_eq] at h
  simp only [Bool.or_eq_true, Bool.and_eq_true, decide_eq_true_eq, beq_iff_eq]
  omega

theorem stepped_congr (st : PState) {m n : Nat} (h : m = n) :
    stepped st m = stepped st n := by rw [h]

theorem upd_eq_stepped (st : PState) (n : Nat) :
    ({ st with pos := st.pos + n } : PState) = stepped st n := rfl

-- ============================================================
-- Round-trip toolkit B: string values
-- ============================================================

theorem strScan_escape (s : List Char) : ∀ rest : List Char,
    strScan (escapeValue s ++ ('"' :: rest)) = (escapeValue s).length := by
  induction s with
  | nil =>
    intro rest
    cases rest with
    | nil => rfl
    | cons a t => rfl
  | cons c t ih =>
    intro rest
    rw [escapeValue, List.append_assoc]
    by_cases hs : c = '\\'
    · subst hs
      rw [show escTok '\\' = ['\\', '\\'] from rfl]
      rw [show (['\\', '\\'] ++ (escapeValue t ++ '"' :: rest)) =
        '\\' :: '\\' :: (escapeValue t ++ '"' :: rest) from rfl]
      rw [strScan]
      rw [if_neg (by decide), if_pos rfl]
      rw [ih rest]
      simp [List.length_append]
      omega
    · by_cases hq : c = '"'
      · subst hq
        rw [show escTok '"' = ['\\', '"'] from rfl]
        rw [show (['\\', '"'] ++ (escapeValue t ++ '"' :: rest)) =
          '\\' :: '"' :: (escapeValue t ++ '"' :: rest) from rfl]
        rw [strScan]
        rw [if_neg (by decide), if_pos rfl]
        rw [ih rest]
        simp [List.length_append]
        omega
      · rw [show escTok c = [c] from by rw [escTok, if_neg hs, if_neg hq]]
        rw [show ([c] ++ (escapeValue t ++ '"' :: rest)) =
          c :: (escapeValue t ++ '"' :: rest) from rfl]
        cases h2 : escapeValue t ++ '"' :: rest with
        | nil => exact absurd h2 (by simp)
        | cons a t2 =>
          rw [strScan]
          rw [if_neg hq, if_neg hs, ← h2, ih rest]
          simp [List.length_append]
          omega

theorem parseString_escaped (st : PState) (s rest : List Char)
    (hrem : remaining st = '"' :: (escapeValue s ++ ('"' :: rest))) :
    parseString st =
      .ok (s, stepped st ('"' :: (escapeValue s ++ ['"'])).length) := by
  have h1 : consumeLit ['"'] st = (true, stepped st 1) :=
    consumeLit_yes ['"'] (escapeValue s ++ ('"' :: rest)) st hrem
  have hr1 : remaining (stepped st 1) = escapeValue s ++ ('"' :: rest) :=
    remaining_stepped_of st ['"'] (escapeValue s ++ ('"' :: rest)) hrem
  have hscan : strScan (remaining (stepped st 1)) = (escapeValue s).length := by
    rw [hr1]
    exact strScan_escape s rest
  have htake : (remaining (stepped st 1)).take (escapeValue s).length = escapeValue s := by
    rw [hr1]
    exact List.take_left _ _
  have hr2 : remaining (stepped (stepped st 1) (escapeValue s).length) = '"' :: rest :=
    remaining_stepped_of (stepped st 1) (escapeValue s) ('"' :: rest) hr1
  have h2 : consumeLit ['"'] (stepped (stepped st 1) (escapeValue s).length) =
      (true, stepped (stepped (stepped st 1) (escapeValue s).length) 1) :=
    consumeLit_yes ['"'] rest _ hr2
  have hlen : 1 + ((escapeValue s).length + 1) =
      ('"' :: (escapeValue s ++ ['"'])).length := by
    simp only [List.length_cons, List.length_append, List.length_nil]
    omega
  rw [parseString]
  rw [show expectLit ['"'] st = .ok (stepped st 1) from by rw [expectLit, h1]]
  dsimp only
  rw [hscan, htake]
  rw [upd_eq_stepped]
  rw [show expectLit ['"'] (stepped (stepped st 1) (escapeValue s).length) =
    .ok (stepped (stepped (stepped st 1) (escapeValue s).length) 1) from by
      rw [expectLit, h2]]
  rw [unescape_escape]
  rw [stepped_stepped, stepped_stepped, hlen]

-- ============================================================
-- Round-trip toolkit C: the operator alternatives
-- ============================================================

theorem take_two_ne (c : Char) (rest : List Char) (d : Char)
    (h : ¬ rest.head? = some d) : ¬ (c :: rest).take 2 = [c, d] := by
  intro hc
  rw [show (2 : Nat) = 1 + 1 from rfl, List.take_succ_cons] at hc
  have h2 : rest.take 1 = [d] := List.tail_eq_of_cons_eq hc
  cases rest with
  | nil => cases h2
  | cons a r2 =>
    rw [List.take_succ_cons, List.take_zero] at h2
    have ha : a = d := List.head_eq_of_cons_eq h2
    subst ha
    exact h rfl

theorem take_append_ne_of_prefix_ne (a rest kw : List Char) (i : Nat)
    (hia : i < a.length) (hik : i < kw.length) (hne : ¬ a[i]? = kw[i]?) :
    ¬ (a ++ rest).take kw.length = kw := by
  intro h
  apply hne
  have h1 : (a ++ rest)[i]? = a[i]? := List.getElem?_append_left hia
  have h2 : kw[i]? = (a ++ rest)[i]? := by
    rw [← h, List.getElem?_take_of_lt hik]
  rw [← h1, ← h2]

theorem parseOperator_eq (st : PState) (pad rest : List Char)
    (hrem : remaining st = pad ++ (opChars .eq ++ rest))
    (hpad : ∀ c ∈ pad, isWsChar c = true)
    : parseOperator st = .ok (.eq, stepped st (pad.length + (opChars .eq).length)) := by
  have hhead : headNotB isWsChar (opChars .eq ++ rest) = true := rfl
  have hs1 : skipWs st = stepped st pad.length :=
    skipWs_pad st pad _ hrem hpad hhead
  have hs2 : remaining (stepped st pad.length) = opChars .eq ++ rest :=
    remaining_stepped_of st pad _ hrem
  have hno1 : consumeKeyword "is not empty".data (stepped st pad.length) =
      (false, stepped st pad.length) :=
    consumeKeyword_no0 _ _ (by rw [hs2]; exact hhead)
      (by rw [hs2]
          exact kwOkAt_false_of_take_ne _ _ hhead
            (take_append_ne_of_prefix_ne _ rest _ 0 (by decide) (by decide) (by decide)))
  have hno2 : consumeKeyword "is empty".data (stepped st pad.length) =
      (false, stepped st pad.length) :=
    consumeKeyword_no0 _ _ (by rw [hs2]; exact hhead)
      (by rw [hs2]
          exact kwOkAt_false_of_take_ne _ _ hhead
            (take_append_ne_of_prefix_ne _ rest _ 0 (by decide) (by decide) (by decide)))
  have hno3 : consumeKeyword "not like".data (stepped st pad.length) =
      (false, stepped st pad.length) :=
    consumeKeyword_no0 _ _ (by rw [hs2]; exact hhead)
      (by rw [hs2]
          exact kwOkAt_false_of_take_ne _ _ hhead
            (take_append_ne_of_prefix_ne _ rest _ 0 (by decide) (by decide) (by decide)))
  have hno4 : consumeKeyword "not in".data (stepped st pad.length) =
      (false, stepped st pad.length) :=
    consumeKeyword_no0 _ _ (by rw [hs2]; exact hhead)
      (by rw [hs2]
          exact kwOkAt_false_of_take_ne _ _ hhead
            (take_append_ne_of_prefix_ne _ rest _ 0 (by decide) (by decide) (by decide)))
  have hno5 : consumeLit ">=".data (stepped st pad.length) =
      (false, stepped st pad.length) :=
    consumeLit_no_head (">=".data) (stepped st pad.length) '=' ("".data ++ rest)
      (by rw [hs2]; rfl) '>' ("=".data) rfl (by decide)
  have hno6 : consumeLit "<=".data (stepped st pad.length) =
      (false, stepped st pad.length) :=
    consumeLit_no_head ("<=".data) (stepped st pad.length) '=' ("".data ++ rest)
      (by rw [hs2]; rfl) '<' ("=".data) rfl (by decide)
  have hno7 : consumeLit "!=".data (stepped st pad.length) =
      (false, stepped st pad.length) :=
    consumeLit_no_head ("!=".data) (stepped st pad.length) '=' ("".data ++ rest)
      (by rw [hs2]; rfl) '!' ("=".data) rfl (by decide)
  have hyes : consumeLit "=".data (stepped st pad.length) =
      (true, stepped (stepped st pad.length) (("=".data).length)) :=
    consumeLit_yes ("=".data) rest (stepped st pad.length) hs2
  rw [parseOperator, hs1]
  rw [hno1]
  dsimp only
  rw [if_neg (show ¬(false = true) from Bool.false_ne_true)]
  rw [hno2]
  dsimp only
  rw [if_neg (show ¬(false = true) from Bool.false_ne_true)]
  rw [hno3]
  dsimp only
  rw [if_neg (show ¬(false = true) from Bool.false_ne_true)]
  rw [hno4]
  dsimp only
  rw [if_neg (show ¬(false = true) from Bool.false_ne_true)]
  rw [hno5]
  dsimp only
  rw [if_neg (show ¬(false = true) from Bool.false_ne_true)]
  rw [hno6]
  dsimp only
  rw [if_neg (show ¬(false = true) from Bool.false_ne_true)]
  rw [hno7]
  dsimp only
  rw [if_neg (show ¬(false = true) from Bool.false_ne_true)]
  rw [hyes]
  dsimp only
  rw [if_pos rfl]
  rw [stepped_stepped]
  rfl

theorem parseOperator_ne (st : PState) (pad rest : List Char)
    (hrem : remaining st = pad ++ (opChars .ne ++ rest))
    (hpad : ∀ c ∈ pad, isWsChar c = true)
    : parseOperator st = .ok (.ne, stepped st (pad.length + (opChars .ne).length)) := by
  have hhead : headNotB isWsChar (opChars .ne ++ rest) = true := rfl
  have hs1 : skipWs st = stepped st pad.length :=
    skipWs_pad st pad _ hrem hpad hhead
  have hs2 : remaining (stepped st pad.length) = opChars .ne ++ rest :=
    remaining_stepped_of st pad _ hrem
  have hno1 : consumeKeyword "is not empty".data (stepped st pad.length) =
      (false, stepped st pad.length) :=
    consumeKeyword_no0 _ _ (by rw [hs2]; exact hhead)
      (by rw [hs2]
          exact kwOkAt_false_of_take_ne _ _ hhead
            (take_append_ne_of_prefix_ne _ rest _ 0 (by decide) (by decide) (by decide)))
  have hno2 : consumeKeyword "is empty".data (stepped st pad.length) =
      (false, stepped st pad.length) :=
    consumeKeyword_no0 _ _ (by rw [hs2]; exact hhead)
      (by rw [hs2]
          exact kwOkAt_false_of_take_ne _ _ hhead
            (take_append_ne_of_prefix_ne _ rest _ 0 (by decide) (by decide) (by decide)))
  have hno3 : consumeKeyword "not like".data (stepped st pad.length) =
      (false, stepped st pad.length) :=
    consumeKeyword_no0 _ _ (by rw [hs2]; exact hhead)
      (by rw [hs2]
          exact kwOkAt_false_of_take_ne _ _ hhead
            (take_append_ne_of_prefix_ne _ rest _ 0 (by decide) (by decide) (by decide)))
  have hno4 : consumeKeyword "not in".data (stepped st pad.length) =
      (false, stepped st pad.length) :=
    consumeKeyword_no0 _ _ (by rw [hs2]; exact hhead)
      (by rw [hs2]
          exact kwOkAt_false_of_take_ne _ _ hhead
            (take_append_ne_of_prefix_ne _ rest _ 0 (by decide) (by decide) (by decide)))
  have hno5 : consumeLit ">=".data (stepped st pad.length) =
      (false, stepped st pad.length) :=
    consumeLit_no_head (">=".data) (stepped st pad.length) '!' ("=".data ++ rest)
      (by rw [hs2]; rfl) '>' ("=".data) rfl (by decide)
  have hno6 : consumeLit "<=".data (stepped st pad.length) =
      (false, stepped st pad.length) :=
    consumeLit_no_head ("<=".data) (stepped st pad.length) '!' ("=".data ++ rest)
      (by rw [hs2]; rfl) '<' ("=".data) rfl (by decide)
  have hyes : consumeLit "!=".data (stepped st pad.length) =
      (true, stepped (stepped st pad.length) (("!=".data).length)) :=
    consumeLit_yes ("!=".data) rest (stepped st pad.length) hs2
  rw [parseOperator, hs1]
  rw [hno1]
  dsimp only
  rw [if_neg (show ¬(false = true) from Bool.false_ne_true)]
  rw [hno2]
  dsimp only
  rw [if_neg (show ¬(false = true) from Bool.false_ne_true)]
  rw [hno3]
  dsimp only
  rw [if_neg (show ¬(false = true) from Bool.false_ne_true)]
  rw [hno4]
  dsimp only
  rw [if_neg (show ¬(false = true) from Bool.false_ne_true)]
  rw [hno5]
  dsimp only
  rw [if_neg (show ¬(false = true) from Bool.false_ne_true)]
  rw [hno6]
  dsimp only
  rw [if_neg (show ¬(false = true) from Bool.false_ne_true)]
  rw [hyes]
  dsimp only
  rw [if_pos rfl]
  rw [stepped_stepped]
  rfl

theorem parseOperator_gt (st : PState) (pad rest : List Char)
    (hrem : remaining st = pad ++ (opChars .gt ++ rest))
    (hpad : ∀ c ∈ pad, isWsChar c = true)
    (hrest : ¬ rest.head? = some '=')
    : parseOperator st = .ok (.gt, stepped st (pad.length + (opChars .gt).length)) := by
  have hhead : headNotB isWsChar (opChars .gt ++ rest) = true := rfl
  have hs1 : skipWs st = stepped st pad.length :=
    skipWs_pad st pad _ hrem hpad hhead
  have hs2 : remaining (stepped st pad.length) = opChars .gt ++ rest :=
    remaining_stepped_of st pad _ hrem
  have hno1 : consumeKeyword "is not empty".data (stepped st pad.length) =
      (false, stepped st pad.length) :=
    consumeKeyword_no0 _ _ (by rw [hs2]; exact hhead)
      (by rw [hs2]
          exact kwOkAt_false_of_take_ne _ _ hhead
            (take_append_ne_of_prefix_ne _ rest _ 0 (by decide) (by decide) (by decide)))
  have hno2 : consumeKeyword "is empty".data (stepped st pad.length) =
      (false, stepped st pad.length) :=
    consumeKeyword_no0 _ _ (by rw [hs2]; exact hhead)
      (by rw [hs2]
          exact kwOkAt_false_of_take_ne _ _ hhead
            (take_append_ne_of_prefix_ne _ rest _ 0 (by decide) (by decide) (by decide)))
  have hno3 : consumeKeyword "not like".data (stepped st pad.length) =
      (false, stepped st pad.length) :=
    consumeKeyword_no0 _ _ (by rw [hs2]; exact hhead)
      (by rw [hs2]
          exact kwOkAt_false_of_take_ne _ _ hhead
            (take_append_ne_of_prefix_ne _ rest _ 0 (by decide) (by decide) (by decide)))
  have hno4 : consumeKeyword "not in".data (stepped st pad.length) =
      (false, stepped st pad.length) :=
    consumeKeyword_no0 _ _ (by rw [hs2]; exact hhead)
      (by rw [hs2]
          exact kwOkAt_false_of_take_ne _ _ hhead
            (take_append_ne_of_prefix_ne _ rest _ 0 (by decide) (by decide) (by decide)))
  have hno5 : consumeLit ">=".data (stepped st pad.length) =
      (false, stepped st pad.length) := by
    apply consumeLit_no
    rw [hs2]
    intro hcontra
    exact take_two_ne '>' rest '=' hrest hcontra
  have hno6 : consumeLit "<=".data (stepped st pad.length) =
      (false, stepped st pad.length) :=
    consumeLit_no_head ("<=".data) (stepped st pad.length) '>' ("".data ++ rest)
      (by rw [hs2]; rfl) '<' ("=".data) rfl (by decide)
  have hno7 : consumeLit "!=".data (stepped st pad.length) =
      (false, stepped st pad.length) :=
    consumeLit_no_head ("!=".data) (stepped st pad.length) '>' ("".data ++ rest)
      (by rw [hs2]; rfl) '!' ("=".data) rfl (by decide)
  have hno8 : consumeLit "=".data (stepped st pad.length) =
      (false, stepped st pad.length) :=
    consumeLit_no_head ("=".data) (stepped st pad.length) '>' ("".data ++ rest)
      (by rw [hs2]; rfl) '=' ("".data) rfl (by decide)
  have hyes : consumeLit ">".data (stepped st pad.length) =
      (true, stepped (stepped st pad.length) ((">".data).length)) :=
    consumeLit_yes (">".data) rest (stepped st pad.length) hs2
  rw [parseOperator, hs1]
  rw [hno1]
  dsimp only
  rw [if_neg (show ¬(false = true) from Bool.false_ne_true)]
  rw [hno2]
  dsimp only
  rw [if_neg (show ¬(false = true) from Bool.false_ne_true)]
  rw [hno3]
  dsimp only
  rw [if_neg (show ¬(false = true) from Bool.false_ne_true)]
  rw [hno4]
  dsimp only
  rw [if_neg (show ¬(false = true) from Bool.false_ne_true)]
  rw [hno5]
  dsimp only
  rw [if_neg (show ¬(false = true) from Bool.false_ne_true)]
  rw [hno6]
  dsimp only
  rw [if_neg (show ¬(false = true) from Bool.false_ne_true)]
  rw [hno7]
  dsimp only
  rw [if_neg (show ¬(false = true) from Bool.false_ne_true)]
  rw [hno8]
  dsimp only
  rw [if_neg (show ¬(false = true) from Bool.false_ne_true)]
  rw [hyes]
  dsimp only
  rw [if_pos rfl]
  rw [stepped_stepped]
  rfl

theorem parseOperator_lt (st : PState) (pad rest : List Char)
    (hrem : remaining st = pad ++ (opChars .lt ++ rest))
    (hpad : ∀ c ∈ pad, isWsChar c = true)
    (hrest : ¬ rest.head? = some '=')
    : parseOperator st = .ok (.lt, stepped st (pad.length + (opChars .lt).length)) := by
  have hhead : headNotB isWsChar (opChars .lt ++ rest) = true := rfl
  have hs1 : skipWs st = stepped st pad.length :=
    skipWs_pad st pad _ hrem hpad hhead
  have hs2 : remaining (stepped st pad.length) = opChars .lt ++ rest :=
    remaining_stepped_of st pad _ hrem
  have hno1 : consumeKeyword "is not empty".data (stepped st pad.length) =
      (false, stepped st pad.length) :=
    consumeKeyword_no0 _ _ (by rw [hs2]; exact hhead)
      (by rw [hs2]
          exact kwOkAt_false_of_take_ne _ _ hhead
            (take_append_ne_of_prefix_ne _ rest _ 0 (by decide) (by decide) (by decide)))
  have hno2 : consumeKeyword "is empty".data (stepped st pad.length) =
      (false, stepped st pad.length) :=
    consumeKeyword_no0 _ _ (by rw [hs2]; exact hhead)
      (by rw [hs2]
          exact kwOkAt_false_of_take_ne _ _ hhead
            (take_append_ne_of_prefix_ne _ rest _ 0 (by decide) (by decide) (by decide)))
  have hno3 : consumeKeyword "not like".data (stepped st pad.length) =
      (false, stepped st pad.length) :=
    consumeKeyword_no0 _ _ (by rw [hs2]; exact hhead)
      (by rw [hs2]
          exact kwOkAt_false_of_take_ne _ _ hhead
            (take_append_ne_of_prefix_ne _ rest _ 0 (by decide) (by decide) (by decide)))
  have hno4 : consumeKeyword "not in".data (stepped st pad.length) =
      (false, stepped st pad.length) :=
    consumeKeyword_no0 _ _ (by rw [hs2]; exact hhead)
      (by rw [hs2]
          exact kwOkAt_false_of_take_ne _ _ hhead
            (take_append_ne_of_prefix_ne _ rest _ 0 (by decide) (by decide) (by decide)))
  have hno5 : consumeLit ">=".data (stepped st pad.length) =
      (false, stepped st pad.length) :=
    consumeLit_no_head (">=".data) (stepped st pad.length) '<' ("".data ++ rest)
      (by rw [hs2]; rfl) '>' ("=".data) rfl (by decide)
  have hno6 : consumeLit "<=".data (stepped st pad.length) =
      (false, stepped st pad.length) := by
    apply consumeLit_no
    rw [hs2]
    intro hcontra
    exact take_two_ne '<' rest '=' hrest hcontra
  have hno7 : consumeLit "!=".data (stepped st pad.length) =
      (false, stepped st pad.length) :=
    consumeLit_no_head ("!=".data) (stepped st pad.length) '<' ("".data ++ rest)
      (by rw [hs2]; rfl) '!' ("=".data) rfl (by decide)
  have hno8 : consumeLit "=".data (stepped st pad.length) =
      (false, stepped st pad.length) :=
    consumeLit_no_head ("=".data) (stepped st pad.length) '<' ("".data ++ rest)
      (by rw [hs2]; rfl) '=' ("".data) rfl (by decide)
  have hno9 : consumeLit ">".data (stepped st pad.length) =
      (false, stepped st pad.length) :=
    consumeLit_no_head (">".data) (stepped st pad.length) '<' ("".data ++ rest)
      (by rw [hs2]; rfl) '>' ("".data) rfl (by decide)
  have hyes : consumeLit "<".data (stepped st pad.length) =
      (true, stepped (stepped st pad.length) (("<".data).length)) :=
    consumeLit_yes ("<".data) rest (stepped st pad.length) hs2
  rw [parseOperator, hs1]
  rw [hno1]
  dsimp only
  rw [if_neg (show ¬(false = true) from Bool.false_ne_true)]
  rw [hno2]
  dsimp only
  rw [if_neg (show ¬(false = true) from Bool.false_ne_true)]
  rw [hno3]
  dsimp only
  rw [if_neg (show ¬(false = true) from Bool.false_ne_true)]
  rw [hno4]
  dsimp only
  rw [if_neg (show ¬(false = true) from Bool.false_ne_true)]
  rw [hno5]
  dsimp only
  rw [if_neg (show ¬(false = true) from Bool.false_ne_true)]
  rw [hno6]
  dsimp only
  rw [if_neg (show ¬(false = true) from Bool.false_ne_true)]
  rw [hno7]
  dsimp only
  rw [if_neg (show ¬(false = true) from Bool.false_ne_true)]
  rw [hno8]
  dsimp only
  rw [if_neg (show ¬(false = true) from Bool.false_ne_true)]
  rw [hno9]
  dsimp only
  rw [if_neg (show ¬(false = true) from Bool.false_ne_true)]
  rw [hyes]
  dsimp only
  rw [if_pos rfl]
  rw [stepped_stepped]
  rfl

theorem parseOperator_ge (st : PState) (pad rest : List Char)
    (hrem : remaining st = pad ++ (opChars .ge ++ rest))
    (hpad : ∀ c ∈ pad, isWsChar c = true)
    : parseOperator st = .ok (.ge, stepped st (pad.length + (opChars .ge).length)) := by
  have hhead : headNotB isWsChar (opChars .ge ++ rest) = true := rfl
  have hs1 : skipWs st = stepped st pad.length :=
    skipWs_pad st pad _ hrem hpad hhead
  have hs2 : remaining (stepped st pad.length) = opChars .ge ++ rest :=
    remaining_stepped_of st pad _ hrem
  have hno1 : consumeKeyword "is not empty".data (stepped st pad.length) =
      (false, stepped st pad.length) :=
    consumeKeyword_no0 _ _ (by rw [hs2]; exact hhead)
      (by rw [hs2]
          exact kwOkAt_false_of_take_ne _ _ hhead
            (take_append_ne_of_prefix_ne _ rest _ 0 (by decide) (by decide) (by decide)))
  have hno2 : consumeKeyword "is empty".data (stepped st pad.length) =
      (false, stepped st pad.length) :=
    consumeKeyword_no0 _ _ (by rw [hs2]; exact hhead)
      (by rw [hs2]
          exact kwOkAt_false_of_take_ne _ _ hhead
            (take_append_ne_of_prefix_ne _ rest _ 0 (by decide) (by decide) (by decide)))
  have hno3 : consumeKeyword "not like".data (stepped st pad.length) =
      (false, stepped st pad.length) :=
    consumeKeyword_no0 _ _ (by rw [hs2]; exact hhead)
      (by rw [hs2]
          exact kwOkAt_false_of_take_ne _ _ hhead
            (take_append_ne_of_prefix_ne _ rest _ 0 (by decide) (by decide) (by decide)))
  have hno4 : consumeKeyword "not in".data (stepped st pad.length) =
      (false, stepped st pad.length) :=
    consumeKeyword_no0 _ _ (by rw [hs2]; exact hhead)
      (by rw [hs2]
          exact kwOkAt_false_of_take_ne _ _ hhead
            (take_append_ne_of_prefix_ne _ rest _ 0 (by decide) (by decide) (by decide)))
  have hyes : consumeLit ">=".data (stepped st pad.length) =
      (true, stepped (stepped st pad.length) ((">=".data).length)) :=
    consumeLit_yes (">=".data) rest (stepped st pad.length) hs2
  rw [parseOperator, hs1]
  rw [hno1]
  dsimp only
  rw [if_neg (show ¬(false = true) from Bool.false_ne_true)]
  rw [hno2]
  dsimp only
  rw [if_neg (show ¬(false = true) from Bool.false_ne_true)]
  rw [hno3]
  dsimp only
  rw [if_neg (show ¬(false = true) from Bool.false_ne_true)]
  rw [hno4]
  dsimp only
  rw [if_neg (show ¬(false = true) from Bool.false_ne_true)]
  rw [hyes]
  dsimp only
  rw [if_pos rfl]
  rw [stepped_stepped]
  rfl

theorem parseOperator_le (st : PState) (pad rest : List Char)
    (hrem : remaining st = pad ++ (opChars .le ++ rest))
    (hpad : ∀ c ∈ pad, isWsChar c = true)
    : parseOperator st = .ok (.le, stepped st (pad.length + (opChars .le).length)) := by
  have hhead : headNotB isWsChar (opChars .le ++ rest) = true := rfl
  have hs1 : skipWs st = stepped st pad.length :=
    skipWs_pad st pad _ hrem hpad hhead
  have hs2 : remaining (stepped st pad.length) = opChars .le ++ rest :=
    remaining_stepped_of st pad _ hrem
  have hno1 : consumeKeyword "is not empty".data (stepped st pad.length) =
      (false, stepped st pad.length) :=
    consumeKeyword_no0 _ _ (by rw [hs2]; exact hhead)
      (by rw [hs2]
          exact kwOkAt_false_of_take_ne _ _ hhead
            (take_append_ne_of_prefix_ne _ rest _ 0 (by decide) (by decide) (by decide)))
  have hno2 : consumeKeyword "is empty".data (stepped st pad.length) =
      (false, stepped st pad.length) :=
    consumeKeyword_no0 _ _ (by rw [hs2]; exact hhead)
      (by rw [hs2]
          exact kwOkAt_false_of_take_ne _ _ hhead
            (take_append_ne_of_prefix_ne _ rest _ 0 (by decide) (by decide) (by decide)))
  have hno3 : consumeKeyword "not like".data (stepped st pad.length) =
      (false, stepped st pad.length) :=
    consumeKeyword_no0 _ _ (by rw [hs2]; exact hhead)
      (by rw [hs2]
          exact kwOkAt_false_of_take_ne _ _ hhead
            (take_append_ne_of_prefix_ne _ rest _ 0 (by decide) (by decide) (by decide)))
  have hno4 : consumeKeyword "not in".data (stepped st pad.length) =
      (false, stepped st pad.length) :=
    consumeKeyword_no0 _ _ (by rw [hs2]; exact hhead)
      (by rw [hs2]
          exact kwOkAt_false_of_take_ne _ _ hhead
            (take_append_ne_of_prefix_ne _ rest _ 0 (by decide) (by decide) (by decide)))
  have hno5 : consumeLit ">=".data (stepped st pad.length) =
      (false, stepped st pad.length) :=
    consumeLit_no_head (">=".data) (stepped st pad.length) '<' ("=".data ++ rest)
      (by rw [hs2]; rfl) '>' ("=".data) rfl (by decide)
  have hyes : consumeLit "<=".data (stepped st pad.length) =
      (true, stepped (stepped st pad.length) (("<=".data).length)) :=
    consumeLit_yes ("<=".data) rest (stepped st pad.length) hs2
  rw [parseOperator, hs1]
  rw [hno1]
  dsimp only
  rw [if_neg (show ¬(false = true) from Bool.false_ne_true)]
  rw [hno2]
  dsimp only
  rw [if_neg (show ¬(false = true) from Bool.false_ne_true)]
  rw [hno3]
  dsimp only
  rw [if_neg (show ¬(false = true) from Bool.false_ne_true)]
  rw [hno4]
  dsimp only
  rw [if_neg (show ¬(false = true) from Bool.false_ne_true)]
  rw [hno5]
  dsimp only
  rw [if_neg (show ¬(false = true) from Bool.false_ne_true)]
  rw [hyes]
  dsimp only
  rw [if_pos rfl]
  rw [stepped_stepped]
  rfl

theorem parseOperator_opIn (st : PState) (pad rest : List Char)
    (hrem : remaining st = pad ++ (opChars .opIn ++ rest))
    (hpad : ∀ c ∈ pad, isWsChar c = true)
    (hb : headNotB (fun c => !isBoundaryChar c) rest = true)
    : parseOperator st = .ok (.opIn, stepped st (pad.length + (opChars .opIn).length)) := by
  have hhead : headNotB isWsChar (opChars .opIn ++ rest) = true := rfl
  have hs1 : skipWs st = stepped st pad.length :=
    skipWs_pad st pad _ hrem hpad hhead
  have hs2 : remaining (stepped st pad.length) = opChars .opIn ++ rest :=
    remaining_stepped_of st pad _ hrem
  have hno1 : consumeKeyword "is not empty".data (stepped st pad.length) =
      (false, stepped st pad.length) :=
    consumeKeyword_no0 _ _ (by rw [hs2]; exact hhead)
      (by rw [hs2]
          exact kwOkAt_false_of_take_ne _ _ hhead
            (take_append_ne_of_prefix_ne _ rest _ 1 (by decide) (by decide) (by decide)))
  have hno2 : consumeKeyword "is empty".data (stepped st pad.length) =
      (false, stepped st pad.length) :=
    consumeKeyword_no0 _ _ (by rw [hs2]; exact hhead)
      (by rw [hs2]
          exact kwOkAt_false_of_take_ne _ _ hhead
            (take_append_ne_of_prefix_ne _ rest _ 1 (by decide) (by decide) (by decide)))
  have hno3 : consumeKeyword "not like".data (stepped st pad.length) =
      (false, stepped st pad.length) :=
    consumeKeyword_no0 _ _ (by rw [hs2]; exact hhead)
      (by rw [hs2]
          exact kwOkAt_false_of_take_ne _ _ hhead
            (take_append_ne_of_prefix_ne _ rest _ 0 (by decide) (by decide) (by decide)))
  have hno4 : consumeKeyword "not in".data (stepped st pad.length) =
      (false, stepped st pad.length) :=
    consumeKeyword_no0 _ _ (by rw [hs2]; exact hhead)
      (by rw [hs2]
          exact kwOkAt_false_of_take_ne _ _ hhead
            (take_append_ne_of_prefix_ne _ rest _ 0 (by decide) (by decide) (by decide)))
  have hno5 : consumeLit ">=".data (stepped st pad.length) =
      (false, stepped st pad.length) :=
    consumeLit_no_head (">=".data) (stepped st pad.length) 'i' ("n".data ++ rest)
      (by rw [hs2]; rfl) '>' ("=".data) rfl (by decide)
  have hno6 : consumeLit "<=".data (stepped st pad.length) =
      (false, stepped st pad.length) :=
    consumeLit_no_head ("<=".data) (stepped st pad.length) 'i' ("n".data ++ rest)
      (by rw [hs2]; rfl) '<' ("=".data) rfl (by decide)
  have hno7 : consumeLit "!=".data (stepped st pad.length) =
      (false, stepped st pad.length) :=
    consumeLit_no_head ("!=".data) (stepped st pad.length) 'i' ("n".data ++ rest)
      (by rw [hs2]; rfl) '!' ("=".data) rfl (by decide)
  have hno8 : consumeLit "=".data (stepped st pad.length) =
      (false, stepped st pad.length) :=
    consumeLit_no_head ("=".data) (stepped st pad.length) 'i' ("n".data ++ rest)
      (by rw [hs2]; rfl) '=' ("".data) rfl (by decide)
  have hno9 : consumeLit ">".data (stepped st pad.length) =
      (false, stepped st pad.length) :=
    consumeLit_no_head (">".data) (stepped st pad.length) 'i' ("n".data ++ rest)
      (by rw [hs2]; rfl) '>' ("".data) rfl (by decide)
  have hno10 : consumeLit "<".data (stepped st pad.length) =
      (false, stepped st pad.length) :=
    consumeLit_no_head ("<".data) (stepped st pad.length) 'i' ("n".data ++ rest)
      (by rw [hs2]; rfl) '<' ("".data) rfl (by decide)
  have hno11 : consumeKeyword "like".data (stepped st pad.length) =
      (false, stepped st pad.length) :=
    consumeKeyword_no0 _ _ (by rw [hs2]; exact hhead)
      (by rw [hs2]
          exact kwOkAt_false_of_take_ne _ _ hhead
            (take_append_ne_of_prefix_ne _ rest _ 0 (by decide) (by decide) (by decide)))
  have hyes : consumeKeyword "in".data (stepped st pad.length) =
      (true, stepped (stepped st pad.length) (("in".data).length)) :=
    consumeKeyword_yes0 ("in".data) (stepped st pad.length) rest hs2 hhead hb
  rw [parseOperator, hs1]
  rw [hno1]
  dsimp only
  rw [if_neg (show ¬(false = true) from Bool.false_ne_true)]
  rw [hno2]
  dsimp only
  rw [if_neg (show ¬(false = true) from Bool.false_ne_true)]
  rw [hno3]
  dsimp only
  rw [if_neg (show ¬(false = true) from Bool.false_ne_true)]
  rw [hno4]
  dsimp only
  rw [if_neg (show ¬(false = true) from Bool.false_ne_true)]
  rw [hno5]
  dsimp only
  rw [if_neg (show ¬(false = true) from Bool.false_ne_true)]
  rw [hno6]
  dsimp only
  rw [if_neg (show ¬(false = true) from Bool.false_ne_true)]
  rw [hno7]
  dsimp only
  rw [if_neg (show ¬(false = true) from Bool.false_ne_true)]
  rw [hno8]
  dsimp only
  rw [if_neg (show ¬(false = true) from Bool.false_ne_true)]
  rw [hno9]
  dsimp only
  rw [if_neg (show ¬(false = true) from Bool.false_ne_true)]
  rw [hno10]
  dsimp only
  rw [if_neg (show ¬(false = true) from Bool.false_ne_true)]
  rw [hno11]
  dsimp only
  rw [if_neg (show ¬(false = true) from Bool.false_ne_true)]
  rw [hyes]
  dsimp only
  rw [if_pos rfl]
  rw [stepped_stepped]
  rfl

theorem parseOperator_opNotIn (st : PState) (pad rest : List Char)
    (hrem : remaining st = pad ++ (opChars .opNotIn ++ rest))
    (hpad : ∀ c ∈ pad, isWsChar c = true)
    (hb : headNotB (fun c => !isBoundaryChar c) rest = true)
    : parseOperator st = .ok (.opNotIn, stepped st (pad.length + (opChars .opNotIn).length)) := by
  have hhead : headNotB isWsChar (opChars .opNotIn ++ rest) = true := rfl
  have hs1 : skipWs st = stepped st pad.length :=
    skipWs_pad st pad _ hrem hpad hhead
  have hs2 : remaining (stepped st pad.length) = opChars .opNotIn ++ rest :=
    remaining_stepped_of st pad _ hrem
  have hno1 : consumeKeyword "is not empty".data (stepped st pad.length) =
      (false, stepped st pad.length) :=
    consumeKeyword_no0 _ _ (by rw [hs2]; exact hhead)
      (by rw [hs2]
          exact kwOkAt_false_of_take_ne _ _ hhead
            (take_append_ne_of_prefix_ne _ rest _ 0 (by decide) (by decide) (by decide)))
  have hno2 : consumeKeyword "is empty".data (stepped st pad.length) =
      (false, stepped st pad.length) :=
    consumeKeyword_no0 _ _ (by rw [hs2]; exact hhead)
      (by rw [hs2]
          exact kwOkAt_false_of_take_ne _ _ hhead
            (take_append_ne_of_prefix_ne _ rest _ 0 (by decide) (by decide) (by decide)))
  have hno3 : consumeKeyword "not like".data (stepped st pad.length) =
      (false, stepped st pad.length) :=
    consumeKeyword_no0 _ _ (by rw [hs2]; exact hhead)
      (by rw [hs2]
          exact kwOkAt_false_of_take_ne _ _ hhead
            (take_append_ne_of_prefix_ne _ rest _ 4 (by decide) (by decide) (by decide)))
  have hyes : consumeKeyword "not in".data (stepped st pad.length) =
      (true, stepped (stepped st pad.length) (("not in".data).length)) :=
    consumeKeyword_yes0 ("not in".data) (stepped st pad.length) rest hs2 hhead hb
  rw [parseOperator, hs1]
  rw [hno1]
  dsimp only
  rw [if_neg (show ¬(false = true) from Bool.false_ne_true)]
  rw [hno2]
  dsimp only
  rw [if_neg (show ¬(false = true) from Bool.false_ne_true)]
  rw [hno3]
  dsimp only
  rw [if_neg (show ¬(false = true) from Bool.false_ne_true)]
  rw [hyes]
  dsimp only
  rw [if_pos rfl]
  rw [stepped_stepped]
  rfl

theorem parseOperator_like (st : PState) (pad rest : List Char)
    (hrem : remaining st = pad ++ (opChars .like ++ rest))
    (hpad : ∀ c ∈ pad, isWsChar c = true)
    (hb : headNotB (fun c => !isBoundaryChar c) rest = true)
    : parseOperator st = .ok (.like, stepped st (pad.length + (opChars .like).length)) := by
  have hhead : headNotB isWsChar (opChars .like ++ rest) = true := rfl
  have hs1 : skipWs st = stepped st pad.length :=
    skipWs_pad st pad _ hrem hpad hhead
  have hs2 : remaining (stepped st pad.length) = opChars .like ++ rest :=
    remaining_stepped_of st pad _ hrem
  have hno1 : consumeKeyword "is not empty".data (stepped st pad.length) =
      (false, stepped st pad.length) :=
    consumeKeyword_no0 _ _ (by rw [hs2]; exact hhead)
      (by rw [hs2]
          exact kwOkAt_false_of_take_ne _ _ hhead
            (take_append_ne_of_prefix_ne _ rest _ 0 (by decide) (by decide) (by decide)))
  have hno2 : consumeKeyword "is empty".data (stepped st pad.length) =
      (false, stepped st pad.length) :=
    consumeKeyword_no0 _ _ (by rw [hs2]; exact hhead)
      (by rw [hs2]
          exact kwOkAt_false_of_take_ne _ _ hhead
            (take_append_ne_of_prefix_ne _ rest _ 0 (by decide) (by decide) (by decide)))
  have hno3 : consumeKeyword "not like".data (stepped st pad.length) =
      (false, stepped st pad.length) :=
    consumeKeyword_no0 _ _ (by rw [hs2]; exact hhead)
      (by rw [hs2]
          exact kwOkAt_false_of_take_ne _ _ hhead
            (take_append_ne_of_prefix_ne _ rest _ 0 (by decide) (by decide) (by decide)))
  have hno4 : consumeKeyword "not in".data (stepped st pad.length) =
      (false, stepped st pad.length) :=
    consumeKeyword_no0 _ _ (by rw [hs2]; exact hhead)
      (by rw [hs2]
          exact kwOkAt_false_of_take_ne _ _ hhead
            (take_append_ne_of_prefix_ne _ rest _ 0 (by decide) (by decide) (by decide)))
  have hno5 : consumeLit ">=".data (stepped st pad.length) =
      (false, stepped st pad.length) :=
    consumeLit_no_head (">=".data) (stepped st pad.length) 'l' ("ike".data ++ rest)
      (by rw [hs2]; rfl) '>' ("=".data) rfl (by decide)
  have hno6 : consumeLit "<=".data (stepped st pad.length) =
      (false, stepped st pad.length) :=
    consumeLit_no_head ("<=".data) (stepped st pad.length) 'l' ("ike".data ++ rest)
      (by rw [hs2]; rfl) '<' ("=".data) rfl (by decide)
  have hno7 : consumeLit "!=".data (stepped st pad.length) =
      (false, stepped st pad.length) :=
    consumeLit_no_head ("!=".data) (stepped st pad.length) 'l' ("ike".data ++ rest)
      (by rw [hs2]; rfl) '!' ("=".data) rfl (by decide)
  have hno8 : consumeLit "=".data (stepped st pad.length) =
      (false, stepped st pad.length) :=
    consumeLit_no_head ("=".data) (stepped st pad.length) 'l' ("ike".data ++ rest)
      (by rw [hs2]; rfl) '=' ("".data) rfl (by decide)
  have hno9 : consumeLit ">".data (stepped st pad.length) =
      (false, stepped st pad.length) :=
    consumeLit_no_head (">".data) (stepped st pad.length) 'l' ("ike".data ++ rest)
      (by rw [hs2]; rfl) '>' ("".data) rfl (by decide)
  have hno10 : consumeLit "<".data (stepped st pad.length) =
      (false, stepped st pad.length) :=
    consumeLit_no_head ("<".data) (stepped st pad.length) 'l' ("ike".data ++ rest)
      (by rw [hs2]; rfl) '<' ("".data) rfl (by decide)
  have hyes : consumeKeyword "like".data (stepped st pad.length) =
      (true, stepped (stepped st pad.length) (("like".data).length)) :=
    consumeKeyword_yes0 ("like".data) (stepped st pad.length) rest hs2 hhead hb
  rw [parseOperator, hs1]
  rw [hno1]
  dsimp only
  rw [if_neg (show ¬(false = true) from Bool.false_ne_true)]
  rw [hno2]
  dsimp only
  rw [if_neg (show ¬(false = true) from Bool.false_ne_true)]
  rw [hno3]
  dsimp only
  rw [if_neg (show ¬(false = true) from Bool.false_ne_true)]
  rw [hno4]
  dsimp only
  rw [if_neg (show ¬(false = true) from Bool.false_ne_true)]
  rw [hno5]
  dsimp only
  rw [if_neg (show ¬(false = true) from Bool.false_ne_true)]
  rw [hno6]
  dsimp only
  rw [if_neg (show ¬(false = true) from Bool.false_ne_true)]
  rw [hno7]
  dsimp only
  rw [if_neg (show ¬(false = true) from Bool.false_ne_true)]
  rw [hno8]
  dsimp only
  rw [if_neg (show ¬(false = true) from Bool.false_ne_true)]
  rw [hno9]
  dsimp only
  rw [if_neg (show ¬(false = true) from Bool.false_ne_true)]
  rw [hno10]
  dsimp only
  rw [if_neg (show ¬(false = true) from Bool.false_ne_true)]
  rw [hyes]
  dsimp only
  rw [if_pos rfl]
  rw [stepped_stepped]
  rfl

theorem parseOperator_notLike (st : PState) (pad rest : List Char)
    (hrem : remaining st = pad ++ (opChars .notLike ++ rest))
    (hpad : ∀ c ∈ pad, isWsChar c = true)
    (hb : headNotB (fun c => !isBoundaryChar c) rest = true)
    : parseOperator st = .ok (.notLike, stepped st (pad.length + (opChars .notLike).length)) := by
  have hhead : headNotB isWsChar (opChars .notLike ++ rest) = true := rfl
  have hs1 : skipWs st = stepped st pad.length :=
    skipWs_pad st pad _ hrem hpad hhead
  have hs2 : remaining (stepped st pad.length) = opChars .notLike ++ rest :=
    remaining_stepped_of st pad _ hrem
  have hno1 : consumeKeyword "is not empty".data (stepped st pad.length) =
      (false, stepped st pad.length) :=
    consumeKeyword_no0 _ _ (by rw [hs2]; exact hhead)
      (by rw [hs2]
          exact kwOkAt_false_of_take_ne _ _ hhead
            (take_append_ne_of_prefix_ne _ rest _ 0 (by decide) (by decide) (by decide)))
  have hno2 : consumeKeyword "is empty".data (stepped st pad.length) =
      (false, stepped st pad.length) :=
    consumeKeyword_no0 _ _ (by rw [hs2]; exact hhead)
      (by rw [hs2]
          exact kwOkAt_false_of_take_ne _ _ hhead
            (take_append_ne_of_prefix_ne _ rest _ 0 (by decide) (by decide) (by decide)))
  have hyes : consumeKeyword "not like".data (stepped st pad.length) =
      (true, stepped (stepped st pad.length) (("not like".data).length)) :=
    consumeKeyword_yes0 ("not like".data) (stepped st pad.length) rest hs2 hhead hb
  rw [parseOperator, hs1]
  rw [hno1]
  dsimp only
  rw [if_neg (show ¬(false = true) from Bool.false_ne_true)]
  rw [hno2]
  dsimp only
  rw [if_neg (show ¬(false = true) from Bool.false_ne_true)]
  rw [hyes]
  dsimp only
  rw [if_pos rfl]
  rw [stepped_stepped]
  rfl

theorem parseOperator_opIsEmpty (st : PState) (pad rest : List Char)
    (hrem : remaining st = pad ++ (opChars .opIsEmpty ++ rest))
    (hpad : ∀ c ∈ pad, isWsChar c = true)
    (hb : headNotB (fun c => !isBoundaryChar c) rest = true)
    : parseOperator st = .ok (.opIsEmpty, stepped st (pad.length + (opChars .opIsEmpty).length)) := by
  have hhead : headNotB isWsChar (opChars .opIsEmpty ++ rest) = true := rfl
  have hs1 : skipWs st = stepped st pad.length :=
    skipWs_pad st pad _ hrem hpad hhead
  have hs2 : remaining (stepped st pad.length) = opChars .opIsEmpty ++ rest :=
    remaining_stepped_of st pad _ hrem
  have hno1 : consumeKeyword "is not empty".data (stepped st pad.length) =
      (false, stepped st pad.length) :=
    consumeKeyword_no0 _ _ (by rw [hs2]; exact hhead)
      (by rw [hs2]
          exact kwOkAt_false_of_take_ne _ _ hhead
            (take_append_ne_of_prefix_ne _ rest _ 3 (by decide) (by decide) (by decide)))
  have hyes : consumeKeyword "is empty".data (stepped st pad.length) =
      (true, stepped (stepped st pad.length) (("is empty".data).length)) :=
    consumeKeyword_yes0 ("is empty".data) (stepped st pad.length) rest hs2 hhead hb
  rw [parseOperator, hs1]
  rw [hno1]
  dsimp only
  rw [if_neg (show ¬(false = true) from Bool.false_ne_true)]
  rw [hyes]
  dsimp only
  rw [if_pos rfl]
  rw [stepped_stepped]
  rfl

theorem parseOperator_opIsNotEmpty (st : PState) (pad rest : List Char)
    (hrem : remaining st = pad ++ (opChars .opIsNotEmpty ++ rest))
    (hpad : ∀ c ∈ pad, isWsChar c = true)
    (hb : headNotB (fun c => !isBoundaryChar c) rest = true)
    : parseOperator st = .ok (.opIsNotEmpty, stepped st (pad.length + (opChars .opIsNotEmpty).length)) := by
  have hhead : headNotB isWsChar (opChars .opIsNotEmpty ++ rest) = true := rfl
  have hs1 : skipWs st = stepped st pad.length :=
    skipWs_pad st pad _ hrem hpad hhead
  have hs2 : remaining (stepped st pad.length) = opChars .opIsNotEmpty ++ rest :=
    remaining_stepped_of st pad _ hrem
  have hyes : consumeKeyword "is not empty".data (stepped st pad.length) =
      (true, stepped (stepped st pad.length) (("is not empty".data).length)) :=
    consumeKeyword_yes0 ("is not empty".data) (stepped st pad.length) rest hs2 hhead hb
  rw [parseOperator, hs1]
  rw [hyes]
  dsimp only
  rw [if_pos rfl]
  rw [stepped_stepped]
  rfl

-- ============================================================
-- Round-trip toolkit D/E: field names and signed numbers
-- ============================================================

theorem pstate_mk_congr (i : List Char) (d : List Diag) {p q : Nat} (h : p = q) :
    (⟨i, p, d⟩ : PState) = ⟨i, q, d⟩ := by rw [h]

theorem parseFieldName_spec (st : PState) (pad f rest : List Char)
    (hrem : remaining st = pad ++ (f ++ rest))
    (hpad : ∀ c ∈ pad, isWsChar c = true)
    (hf : ∀ c ∈ f, isFieldChar c = true) (hne : f ≠ [])
    (hrest : headNotB isFieldChar rest = true) :
    parseFieldName st = .ok (f, stepped st (pad.length + f.length)) := by
  have hhead : headNotB isWsChar (f ++ rest) = true := by
    cases f with
    | nil => exact absurd rfl hne
    | cons c r =>
      rw [List.cons_append]
      exact headNotB_cons (fieldChar_not_ws c (hf c (List.mem_cons_self c r)))
  have hs1 : skipWs st = stepped st pad.length :=
    skipWs_pad st pad _ hrem hpad hhead
  have hs2 : remaining (stepped st pad.length) = f ++ rest :=
    remaining_stepped_of st pad _ hrem
  have htk : (f ++ rest).takeWhile isFieldChar = f :=
    (takeWhile_append_all f rest hf hrest).1
  rw [parseFieldName, hs1]
  rw [hs2, htk]
  rw [if_neg hne]
  rw [upd_eq_stepped, stepped_stepped]

theorem jsParseFloat_neg_natDecimal (n : Nat) :
    jsParseFloat ('-' :: natDecimal n) = some (-(n : ℚ)) := by
  have htk : (natDecimal n).takeWhile isDigitChar = natDecimal n ∧
      (natDecimal n).dropWhile isDigitChar = [] := by
    have h := takeWhile_append_all (natDecimal n) [] (natDecimal_all_digits n) rfl
    rw [List.append_nil] at h
    exact h
  rw [jsParseFloat]
  simp only [List.head?_cons, Option.some.injEq, eq_self_iff_true, if_true,
    List.drop_succ_cons, List.drop_zero]
  rw [htk.1, List.drop_length]
  have hne : ¬((natDecimal n).isEmpty = true ∧ ([] : List Char).isEmpty = true) := by
    intro h
    exact natDecimal_ne_nil n (List.isEmpty_iff.mp h.1)
  rw [if_neg hne]
  rw [natFromDigits_natDecimal]
  show some (Rat.divInt (-((n : Int) * 10 ^ ([] : List Char).length +
    (natFromDigits [] : Int))) ((10 : Int) ^ ([] : List Char).length)) = _
  norm_num [natFromDigits, Rat.divInt_one]

theorem parseNumber_intDecimal (st : PState) (i : Int) (rest : List Char)
    (hrem : remaining st = intDecimal i ++ rest)
    (hrest : headNotB isNumTokChar rest = true) :
    parseNumber st = .ok ((i : ℚ), stepped st (intDecimal i).length) := by
  by_cases hi : i < 0
  · have hid : intDecimal i = '-' :: natDecimal i.natAbs := by
      rw [intDecimal, if_pos hi]
    rw [hid] at hrem
    have hneg : peek? st = some '-' := by
      rw [peek?, hrem]
      rfl
    have hr1 : remaining (stepped st 1) = natDecimal i.natAbs ++ rest := by
      have := remaining_stepped_of st ['-'] (natDecimal i.natAbs ++ rest)
        (by rw [hrem]; rfl)
      exact this
    have htk : ((natDecimal i.natAbs ++ rest).takeWhile isNumTokChar = natDecimal i.natAbs) :=
      (takeWhile_append_all (natDecimal i.natAbs) rest
        (fun d hd => digit_numTok d (natDecimal_all_digits _ d hd)) hrest).1
    rw [parseNumber]
    simp only [if_pos hneg]
    rw [show ({ st with pos := st.pos + 1 } : PState) = stepped st 1 from rfl]
    rw [hr1, htk]
    rw [show ['-'] ++ natDecimal i.natAbs = '-' :: natDecimal i.natAbs from rfl]
    rw [jsParseFloat_neg_natDecimal]
    have hcast : -(↑(i.natAbs) : ℚ) = (i : ℚ) := by
      have h0 : (i.natAbs : Int) = -i := by omega
      have hcn : ((i.natAbs : Nat) : ℚ) = ((i.natAbs : Int) : ℚ) :=
        (Int.cast_natCast _).symm
      rw [hcn, h0, Int.cast_neg, neg_neg]
    rw [hcast]
    rw [hid]
    have hfin : stepped st ('-' :: natDecimal i.natAbs).length =
        (⟨st.input, st.pos + 1 + (natDecimal i.natAbs).length, st.diags⟩ : PState) :=
      pstate_mk_congr _ _ (by simp [List.length_cons]; omega)
    rw [hfin]
  · have hid : intDecimal i = natDecimal i.natAbs := by
      rw [intDecimal, if_neg hi]
    rw [hid] at hrem
    have h := parseNumber_natDecimal st i.natAbs rest hrem hrest
    rw [hid]
    rw [h]
    have hcast : ((i.natAbs : Nat) : ℚ) = (i : ℚ) := by
      have h0 : (i.natAbs : Int) = i := by omega
      have hcn : ((i.natAbs : Nat) : ℚ) = ((i.natAbs : Int) : ℚ) :=
        (Int.cast_natCast _).symm
      rw [hcn, h0]
    rw [hcast]

-- ============================================================
-- Round-trip toolkit F: serializer structure
-- ============================================================

theorem stripRDot_eq_self (f : List Char) (h : ¬ f.take 2 = ['r', '.']) :
    stripRDot f = f := by
  rw [stripRDot, if_neg h]

theorem formatValueList_one (v : JSValue) : formatValueList [v] = formatValue v := by
  rw [formatValueList]

theorem formatValueList_cons2 (a b : JSValue) (t : List JSValue) :
    formatValueList (a :: b :: t) =
      formatValue a ++ ", ".data ++ formatValueList (b :: t) := by
  rw [formatValueList]
  intro h
  cases h

theorem argListChars_one (v : JSValue) : argListChars [v] = argChars v := by
  rw [argListChars]

theorem argListChars_cons2 (a b : JSValue) (t : List JSValue) :
    argListChars (a :: b :: t) = argChars a ++ ", ".data ++ argListChars (b :: t) := by
  rw [argListChars]
  intro h
  cases h

theorem escapeValue_eq_self_of_noSpecials (s : List Char)
    (h : noSpecialChars s = true) : escapeValue s = s := by
  induction s with
  | nil => rfl
  | cons c t ih =>
    rw [noSpecialChars, List.all_cons] at h
    rw [Bool.and_eq_true] at h
    obtain ⟨hc, ht⟩ := h
    simp only [Bool.not_eq_true', Bool.or_eq_false_iff, beq_eq_false_iff_ne, ne_eq] at hc
    rw [escapeValue, escTok, if_neg hc.2, if_neg hc.1, ih ht]
    rfl

theorem argChars_eq_formatValue (v : JSValue) (h : wfArg v = true) :
    argChars v = formatValue v := by
  cases v with
  | vstr s =>
    rw [wfArg, Bool.and_eq_true] at h
    rw [argChars, formatValue]
    rw [if_neg (by rw [Bool.not_eq_true'] at h; exact by simp [h.1])]
    rw [escapeValue_eq_self_of_noSpecials s h.2]
  | vnum q => rfl
  | varr l => cases h
  | vfunc n a => cases h
  | vnull => cases h

-- ============================================================
-- Round-trip toolkit G: serialized-value heads and the argument loop
-- ============================================================

theorem funcCallChars_none (name : List Char) :
    funcCallChars name none = name ++ "()".data := by
  rw [funcCallChars]
  intro a rest h
  cases h

theorem funcCallChars_some_cons (name : List Char) (a : JSValue) (rest : List JSValue) :
    funcCallChars name (some (a :: rest)) =
      name ++ '(' :: (argListChars (a :: rest) ++ [')']) := by
  rw [funcCallChars]

theorem formatValue_head_facts (v : JSValue) (h : wfElem v = true) :
    ∃ c r, formatValue v = c :: r ∧ isWsChar c = false ∧ ¬ c = ')' ∧ ¬ c = ',' := by
  cases v with
  | vstr s =>
    exact ⟨'"', escapeValue s ++ ['"'], rfl, by decide, by decide, by decide⟩
  | vnum q =>
    rw [wfElem] at h
    have hden : q.den = 1 := by
      rw [beq_iff_eq] at h
      exact h
    have hfv : formatValue (.vnum q) = intDecimal q.num := by
      rw [formatValue]
      exact qToChars_int q hden
    by_cases hs : q.num < 0
    · refine ⟨'-', natDecimal q.num.natAbs, ?_, by decide, by decide, by decide⟩
      rw [hfv, intDecimal, if_pos hs]
    · obtain ⟨c, r, hnd, hc⟩ := natDecimal_head q.num.natAbs
      refine ⟨c, r, ?_, digit_not_ws c hc, class_ne c ')' hc (by decide),
        class_ne c ',' hc (by decide)⟩
      rw [hfv, intDecimal, if_neg hs, hnd]
  | vfunc name args =>
    rw [wfElem, Bool.and_eq_true] at h
    obtain ⟨hn, _⟩ := h
    cases name with
    | nil =>
      have hn2 : (false : Bool) = true := hn
      cases hn2
    | cons c r =>
      have hn2 : (isUpperAZ c && (c :: r).all isFuncChar) = true := hn
      rw [Bool.and_eq_true] at hn2
      have hcu : isUpperAZ c = true := hn2.1
      cases args with
      | none =>
        refine ⟨c, r ++ "()".data, ?_, upper_not_ws c hcu,
          class_ne c ')' hcu (by decide), class_ne c ',' hcu (by decide)⟩
        rw [formatValue, funcCallChars_none, List.cons_append]
      | some l =>
        cases l with
        | nil =>
          refine ⟨c, r ++ "()".data, ?_, upper_not_ws c hcu,
            class_ne c ')' hcu (by decide), class_ne c ',' hcu (by decide)⟩
          rw [formatValue, funcCallChars, List.cons_append]
          intro a rest hcon
          simp at hcon
        | cons a rest =>
          refine ⟨c, r ++ '(' :: (argListChars (a :: rest) ++ [')']), ?_,
            upper_not_ws c hcu, class_ne c ')' hcu (by decide),
            class_ne c ',' hcu (by decide)⟩
          rw [formatValue, funcCallChars_some_cons, List.cons_append]
  | varr l => cases h
  | vnull => cases h

theorem formatValue_ne_nil (v : JSValue) (h : wfElem v = true) :
    formatValue v ≠ [] := by
  obtain ⟨c, r, hfv, _⟩ := formatValue_head_facts v h
  rw [hfv]
  simp

theorem formatValueList_length_ge (l : List JSValue) (h : ∀ v ∈ l, wfElem v = true) :
    l.length ≤ (formatValueList l).length := by
  induction l with
  | nil => simp [formatValueList]
  | cons a t ih =>
    have ha : 1 ≤ (formatValue a).length := by
      have := formatValue_ne_nil a (h a (List.mem_cons_self a t))
      cases hfa : formatValue a with
      | nil => exact absurd hfa this
      | cons c r => simp
    cases t with
    | nil =>
      rw [formatValueList_one]
      simp only [List.length_cons, List.length_nil]
      omega
    | cons b t2 =>
      have ih2 := ih (fun v hv => h v (List.mem_cons_of_mem a hv))
      rw [formatValueList_cons2]
      simp only [List.length_cons, List.length_append] at *
      omega

theorem formatValue_mem_le (a : JSValue) (l : List JSValue) (ha : a ∈ l) :
    (formatValue a).length ≤ (formatValueList l).length := by
  induction l with
  | nil => cases ha
  | cons x t ih =>
    cases t with
    | nil =>
      have : a = x := by
        cases ha with
        | head => rfl
        | tail _ h2 => cases h2
      subst this
      rw [formatValueList_one]
    | cons b t2 =>
      rw [formatValueList_cons2]
      simp only [List.length_append]
      cases ha with
      | head => omega
      | tail _ h2 =>
        have := ih h2
        omega

theorem formatValueList_head_not_ws (b : JSValue) (t2 : List JSValue)
    (hb : wfElem b = true) (X : List Char) :
    headNotB isWsChar (formatValueList (b :: t2) ++ X) = true := by
  obtain ⟨c, r, hfv, hcw, _, _⟩ := formatValue_head_facts b hb
  cases t2 with
  | nil =>
    rw [formatValueList_one, hfv, List.cons_append]
    exact headNotB_cons hcw
  | cons x y =>
    rw [formatValueList_cons2, hfv]
    rw [List.append_assoc, List.append_assoc, List.cons_append]
    exact headNotB_cons hcw

theorem parseArrayLoopW_eq (psv : PState → Except PErr (JSValue × PState)) :
    ∀ (f : Nat) (acc : List JSValue) (st : PState),
      parseArrayLoopW psv f acc st = parseFuncLoopW psv f acc st := by
  intro f
  induction f with
  | zero => intro acc st; rfl
  | succ f ih =>
    intro acc st
    rw [parseArrayLoopW, parseFuncLoopW]
    by_cases h1 : peek? st = some ')'
    · rw [if_pos h1, if_pos h1]
    · rw [if_neg h1, if_neg h1]
      cases hp : psv st with
      | error e => rfl
      | ok p =>
        obtain ⟨v, st1⟩ := p
        dsimp only
        by_cases h2 : peek? st1 = some ','
        · rw [if_pos h2, if_pos h2, ih]
        · rw [if_neg h2, if_neg h2]
          by_cases h3 : peek? st1 = some ')'
          · rw [if_pos h3, if_pos h3, ih]
          · rw [if_neg h3, if_neg h3]

theorem parseFuncLoopW_spec (psv : PState → Except PErr (JSValue × PState))
    (G : JSValue → Prop)
    (hpsv : ∀ v st rest, G v → remaining st = formatValue v ++ rest →
      headNotB isNumTokChar rest = true →
      psv st = .ok (v, stepped st (formatValue v).length))
    (hG : ∀ v, G v → wfElem v = true) :
    ∀ (args : List JSValue) (f : Nat) (acc : List JSValue) (st : PState) (rest : List Char),
      (∀ a ∈ args, G a) →
      remaining st = formatValueList args ++ (')' :: rest) →
      args ≠ [] →
      args.length + 1 ≤ f →
      parseFuncLoopW psv f acc st =
        .ok (acc.reverse ++ args, stepped st (formatValueList args).length) := by
  intro args
  induction args with
  | nil =>
    intro f acc st rest _ _ hne
    exact absurd rfl hne
  | cons a t ih =>
    intro f acc st rest hGa hrem _ hf
    obtain ⟨f1, rfl⟩ : ∃ f1, f = f1 + 1 := ⟨f - 1, by simp at hf; omega⟩
    obtain ⟨c, cr, hfv, hcw, hcp, hcc⟩ :=
      formatValue_head_facts a (hG a (hGa a (List.mem_cons_self a t)))
    cases t with
    | nil =>
      rw [formatValueList_one] at hrem ⊢
      have hpk : peek? st = some c := by
        rw [peek?, hrem, hfv]
        rfl
      have hstep : psv st = .ok (a, stepped st (formatValue a).length) :=
        hpsv a st (')' :: rest) (hGa a (List.mem_cons_self a [])) hrem
          (headNotB_cons (by decide))
      have hr1 : remaining (stepped st (formatValue a).length) = ')' :: rest :=
        remaining_stepped_of st _ _ hrem
      have hpk1 : peek? (stepped st (formatValue a).length) = some ')' := peek_of _ _ _ hr1
      rw [parseFuncLoopW]
      rw [if_neg (by rw [hpk]; intro hcon; exact hcp (Option.some.inj hcon))]
      rw [hstep]
      dsimp only
      rw [if_neg (by rw [hpk1]; decide)]
      rw [if_pos (by rw [hpk1])]
      obtain ⟨f2, rfl⟩ : ∃ f2, f1 = f2 + 1 := ⟨f1 - 1, by simp at hf; omega⟩
      rw [parseFuncLoopW]
      rw [if_pos (by rw [hpk1])]
      rw [List.reverse_cons]
    | cons b t2 =>
      rw [formatValueList_cons2] at hrem
      rw [List.append_assoc, List.append_assoc] at hrem
      obtain ⟨cb, cbr, hfvb, hcwb, _, _⟩ :=
        formatValue_head_facts b (hG b (hGa b (by simp)))
      have hpk : peek? st = some c := by
        rw [peek?, hrem, hfv]
        rfl
      have hstep : psv st = .ok (a, stepped st (formatValue a).length) :=
        hpsv a st (", ".data ++ (formatValueList (b :: t2) ++ ')' :: rest))
          (hGa a (List.mem_cons_self a (b :: t2))) hrem (headNotB_cons (by decide))
      have hr1 : remaining (stepped st (formatValue a).length) =
          ", ".data ++ (formatValueList (b :: t2) ++ ')' :: rest) :=
        remaining_stepped_of st _ _ hrem
      have hpk1 : peek? (stepped st (formatValue a).length) = some ',' := by
        rw [peek?, hr1]
        rfl
      have hcm : consumeLit [','] (stepped st (formatValue a).length) =
          (true, stepped (stepped st (formatValue a).length) 1) :=
        consumeLit_yes [','] (' ' :: (formatValueList (b :: t2) ++ ')' :: rest)) _ hr1
      have hr2 : remaining (stepped (stepped st (formatValue a).length) 1) =
          ' ' :: (formatValueList (b :: t2) ++ ')' :: rest) := by
        have := remaining_stepped_of (stepped st (formatValue a).length)
          [','] (' ' :: (formatValueList (b :: t2) ++ ')' :: rest)) hr1
        exact this
      have hskip : skipWs (stepped (stepped st (formatValue a).length) 1) =
          stepped (stepped (stepped st (formatValue a).length) 1) 1 := by
        have := skipWs_pad (stepped (stepped st (formatValue a).length) 1)
          [' '] (formatValueList (b :: t2) ++ ')' :: rest) hr2 (by decide)
          (formatValueList_head_not_ws b t2 (hG b (hGa b (by simp))) _)
        exact this
      have hr3 : remaining (stepped (stepped (stepped st (formatValue a).length) 1) 1) =
          formatValueList (b :: t2) ++ ')' :: rest := by
        have := remaining_stepped_of (stepped (stepped st (formatValue a).length) 1)
          [' '] (formatValueList (b :: t2) ++ ')' :: rest) hr2
        exact this
      have hrec := ih f1 (a :: acc)
        (stepped (stepped (stepped st (formatValue a).length) 1) 1) rest
        (fun v hv => hGa v (List.mem_cons_of_mem a hv)) hr3 (by simp)
        (by simp at hf ⊢; omega)
      rw [parseFuncLoopW]
      rw [if_neg (by rw [hpk]; intro hcon; exact hcp (Option.some.inj hcon))]
      rw [hstep]
      dsimp only
      rw [if_pos hpk1]
      rw [hcm]
      dsimp only
      rw [hskip]
      rw [hrec]
      rw [List.reverse_cons]
      rw [stepped_stepped, stepped_stepped, stepped_stepped]
      rw [List.append_assoc]
      rw [show [a] ++ (b :: t2) = a :: b :: t2 from rfl]
      rw [stepped_congr st (show (formatValue a).length + (1 + (1 + (formatValueList (b :: t2)).length)) = (formatValueList (a :: b :: t2)).length from by
        rw [formatValueList_cons2]
        simp only [List.length_append]
        rw [show (", ".data : List Char).length = 2 from rfl]
        omega)]

-- ============================================================
-- Round-trip toolkit H: function calls and single values
-- ============================================================

theorem wfArg_wfElem (v : JSValue) (h : wfArg v = true) : wfElem v = true := by
  cases v with
  | vstr s => rfl
  | vnum q => exact h
  | varr l => cases h
  | vfunc n a => cases h
  | vnull => cases h

theorem argListChars_eq_formatValueList (l : List JSValue)
    (h : ∀ a ∈ l, wfArg a = true) : argListChars l = formatValueList l := by
  induction l with
  | nil => rfl
  | cons a t ih =>
    cases t with
    | nil =>
      rw [argListChars_one, formatValueList_one,
        argChars_eq_formatValue a (h a (List.mem_cons_self a []))]
    | cons b t2 =>
      rw [argListChars_cons2, formatValueList_cons2,
        argChars_eq_formatValue a (h a (List.mem_cons_self a (b :: t2))),
        ih (fun x hx => h x (List.mem_cons_of_mem a hx))]

theorem name_head_upper (name : List Char) (h : wfFuncName name = true) :
    ∃ c r, name = c :: r ∧ isUpperAZ c = true := by
  cases name with
  | nil =>
    have h2 : (false : Bool) = true := h
    cases h2
  | cons c r =>
    have h2 : (isUpperAZ c && (c :: r).all isFuncChar) = true := h
    rw [Bool.and_eq_true] at h2
    exact ⟨c, r, rfl, h2.1⟩

theorem name_all_funcChar (name : List Char) (h : wfFuncName name = true) :
    ∀ d ∈ name, isFuncChar d = true := by
  obtain ⟨c, r, rfl, _⟩ := name_head_upper name h
  have h2 : (isUpperAZ c && (c :: r).all isFuncChar) = true := h
  rw [Bool.and_eq_true] at h2
  exact List.all_eq_true.mp h2.2

theorem isFunctionB_true_of (st : PState) (name rest2 : List Char)
    (hrem : remaining st = name ++ ('(' :: rest2))
    (hname : wfFuncName name = true) : isFunctionB st = true := by
  obtain ⟨c, r, rfl, hcu⟩ := name_head_upper name hname
  have hdw : (remaining st).dropWhile isFuncChar = '(' :: rest2 := by
    rw [hrem]
    exact (takeWhile_append_all _ _ (name_all_funcChar _ hname)
      (headNotB_cons (by decide))).2
  have hrem3 : remaining st = c :: (r ++ ('(' :: rest2)) := by
    rw [hrem]
    rfl
  rw [isFunctionB, hrem3]
  dsimp only
  rw [hcu]
  rw [show (c :: (r ++ ('(' :: rest2))).dropWhile isFuncChar = '(' :: rest2 from by
    rw [← hrem3]
    exact hdw]
  rw [show (('(' :: rest2).dropWhile isWsChar) = '(' :: rest2 from
    dropWhile_headNot (headNotB_cons (by decide))]
  rfl

theorem digit_not_upper (c : Char) (h : isDigitChar c = true) : isUpperAZ c = false := by
  rw [isDigitChar] at h
  rw [isUpperAZ]
  simp only [Bool.and_eq_true, decide_eq_true_eq] at h
  simp only [Bool.and_eq_false_iff, decide_eq_false_iff_not, not_le]
  omega

theorem isFunctionB_false_of_head (st : PState) (c : Char) (r : List Char)
    (hrem : remaining st = c :: r) (hc : isUpperAZ c = false) :
    isFunctionB st = false := by
  rw [isFunctionB, hrem]
  dsimp only
  rw [hc]
  rfl

theorem parseFunctionW_spec (psv : PState → Except PErr (JSValue × PState))
    (G : JSValue → Prop)
    (hpsv : ∀ v st rest, G v → remaining st = formatValue v ++ rest →
      headNotB isNumTokChar rest = true →
      psv st = .ok (v, stepped st (formatValue v).length))
    (hG : ∀ v, G v → wfElem v = true)
    (fuel : Nat) (st : PState) (name : List Char) (args : Option (List JSValue))
    (rest : List Char)
    (hname : wfFuncName name = true)
    (hargs : wfArgs args = true)
    (hattr : ∀ l, args = some l → ∀ a ∈ l, wfArg a = true ∧ G a)
    (hrem : remaining st = funcCallChars name args ++ rest)
    (hfuel : (funcCallChars name args).length ≤ fuel) :
    parseFunctionW psv fuel st =
      .ok (.vfunc name args, stepped st (funcCallChars name args).length) := by
  cases args with
  | none =>
    rw [funcCallChars_none] at hrem
    have hrem2 : remaining st = name ++ ('(' :: (')' :: rest)) := by
      rw [hrem, List.append_assoc]
      rfl
    have htk : (remaining st).takeWhile isFuncChar = name := by
      rw [hrem2]
      exact (takeWhile_append_all _ _ (name_all_funcChar _ hname)
        (headNotB_cons (by decide))).1
    have hr1 : remaining (stepped st name.length) = '(' :: (')' :: rest) :=
      remaining_stepped_of st name _ hrem2
    have hc1 : consumeLit ['('] (stepped st name.length) =
        (true, stepped (stepped st name.length) 1) :=
      consumeLit_yes ['('] (')' :: rest) _ hr1
    have hr2 : remaining (stepped (stepped st name.length) 1) = ')' :: rest :=
      remaining_stepped_of (stepped st name.length) ['('] (')' :: rest) hr1
    have hpk2 : peek? (stepped (stepped st name.length) 1) = some ')' :=
      peek_of _ _ _ hr2
    have hc3 : consumeLit [')'] (stepped (stepped st name.length) 1) =
        (true, stepped (stepped (stepped st name.length) 1) 1) :=
      consumeLit_yes [')'] rest _ hr2
    rw [funcCallChars_none] at hfuel
    obtain ⟨f1, rfl⟩ : ∃ f1, fuel = f1 + 1 := by
      refine ⟨fuel - 1, ?_⟩
      have h3 : 3 ≤ (name ++ "()".data).length := by
        obtain ⟨c, r, rfl, _⟩ := name_head_upper name hname
        simp [List.length_append]
      omega
    rw [parseFunctionW]
    rw [htk, upd_eq_stepped]
    rw [show expectLit ['('] (stepped st name.length) =
      .ok (stepped (stepped st name.length) 1) from by rw [expectLit, hc1]]
    dsimp only
    rw [parseFuncLoopW]
    rw [if_pos hpk2]
    dsimp only
    rw [show expectLit [')'] (stepped (stepped st name.length) 1) =
      .ok (stepped (stepped (stepped st name.length) 1) 1) from by rw [expectLit, hc3]]
    rw [show (List.reverse ([] : List JSValue)).isEmpty = true from rfl]
    rw [if_pos rfl]
    rw [stepped_stepped, stepped_stepped]
    rw [stepped_congr st (show name.length + 1 + 1 = (funcCallChars name none).length from by
      rw [funcCallChars_none]
      simp [List.length_append])]
  | some l =>
    cases l with
    | nil =>
      have h2 : (false : Bool) = true := hargs
      cases h2
    | cons a t =>
      have hwfl : ∀ x ∈ a :: t, wfArg x = true :=
        fun x hx => (hattr (a :: t) rfl x hx).1
      have hGl : ∀ x ∈ a :: t, G x := fun x hx => (hattr (a :: t) rfl x hx).2
      have hargEq : argListChars (a :: t) = formatValueList (a :: t) :=
        argListChars_eq_formatValueList (a :: t) hwfl
      rw [funcCallChars_some_cons, hargEq] at hrem
      have hrem2 : remaining st =
          name ++ ('(' :: (formatValueList (a :: t) ++ (')' :: rest))) := by
        rw [hrem, List.append_assoc]
        rw [List.cons_append, List.append_assoc]
        rfl
      have htk : (remaining st).takeWhile isFuncChar = name := by
        rw [hrem2]
        exact (takeWhile_append_all _ _ (name_all_funcChar _ hname)
          (headNotB_cons (by decide))).1
      have hr1 : remaining (stepped st name.length) =
          '(' :: (formatValueList (a :: t) ++ (')' :: rest)) :=
        remaining_stepped_of st name _ hrem2
      have hc1 : consumeLit ['('] (stepped st name.length) =
          (true, stepped (stepped st name.length) 1) :=
        consumeLit_yes ['('] _ _ hr1
      have hr2 : remaining (stepped (stepped st name.length) 1) =
          formatValueList (a :: t) ++ (')' :: rest) :=
        remaining_stepped_of (stepped st name.length) ['('] _ hr1
      have hlen1 : (a :: t).length ≤ (formatValueList (a :: t)).length :=
        formatValueList_length_ge _ (fun v hv => wfArg_wfElem v (hwfl v hv))
      have hlenf : (formatValueList (a :: t)).length + 3 ≤
          (funcCallChars name (some (a :: t))).length := by
        rw [funcCallChars_some_cons, hargEq]
        obtain ⟨c, r, rfl, _⟩ := name_head_upper name hname
        simp [List.length_append]
      have hloop := parseFuncLoopW_spec psv G hpsv hG (a :: t) fuel []
        (stepped (stepped st name.length) 1) rest hGl hr2 (by simp)
        (by omega)
      have hr3 : remaining (stepped (stepped (stepped st name.length) 1)
          (formatValueList (a :: t)).length) = ')' :: rest :=
        remaining_stepped_of (stepped (stepped st name.length) 1) _ _ hr2
      have hc3 : consumeLit [')'] (stepped (stepped (stepped st name.length) 1)
          (formatValueList (a :: t)).length) =
          (true, stepped (stepped (stepped (stepped st name.length) 1)
            (formatValueList (a :: t)).length) 1) :=
        consumeLit_yes [')'] rest _ hr3
      rw [parseFunctionW]
      rw [htk, upd_eq_stepped]
      rw [show expectLit ['('] (stepped st name.length) =
        .ok (stepped (stepped st name.length) 1) from by rw [expectLit, hc1]]
      dsimp only
      rw [hloop]
      dsimp only
      rw [show expectLit [')'] (stepped (stepped (stepped st name.length) 1)
        (formatValueList (a :: t)).length) =
        .ok (stepped (stepped (stepped (stepped st name.length) 1)
          (formatValueList (a :: t)).length) 1) from by rw [expectLit, hc3]]
      rw [show (List.reverse ([] : List JSValue) ++ (a :: t)) = a :: t from rfl]
      rw [if_neg (show ¬((a :: t).isEmpty = true) from fun h => Bool.false_ne_true h)]
      rw [stepped_stepped, stepped_stepped, stepped_stepped]
      rw [stepped_congr st (show name.length + (1 + ((formatValueList (a :: t)).length + 1)) =
        (funcCallChars name (some (a :: t))).length from by
          rw [funcCallChars_some_cons, hargEq]
          simp [List.length_append]
          omega)]

theorem intDecimal_head (i : Int) :
    ∃ c r, intDecimal i = c :: r ∧ (c == '-' || isDigitChar c) = true ∧
      isWsChar c = false ∧ isUpperAZ c = false ∧ ¬ c = '"' ∧ ¬ c = '(' := by
  by_cases hs : i < 0
  · refine ⟨'-', natDecimal i.natAbs, ?_, by decide, by decide, by decide,
      by decide, by decide⟩
    rw [intDecimal, if_pos hs]
  · obtain ⟨c, r, hnd, hc⟩ := natDecimal_head i.natAbs
    refine ⟨c, r, ?_, by rw [hc]; simp, digit_not_ws c hc, digit_not_upper c hc,
      class_ne c '"' hc (by decide), class_ne c '(' hc (by decide)⟩
    rw [intDecimal, if_neg hs, hnd]

theorem funcCallChars_some_nil (name : List Char) :
    funcCallChars name (some []) = name ++ "()".data := by
  rw [funcCallChars]
  intro a rest h
  simp at h

theorem funcCallChars_split (name : List Char) (args : Option (List JSValue)) :
    ∃ Z, funcCallChars name args = name ++ ('(' :: Z) := by
  cases args with
  | none => exact ⟨[')'], funcCallChars_none name⟩
  | some l =>
    cases l with
    | nil => exact ⟨[')'], funcCallChars_some_nil name⟩
    | cons a t =>
      exact ⟨argListChars (a :: t) ++ [')'], funcCallChars_some_cons name a t⟩

theorem wfArgList_mem (l : List JSValue) (h : wfArgList l = true) :
    ∀ a ∈ l, wfArg a = true := by
  induction l with
  | nil => intro a ha; cases ha
  | cons x t ih =>
    have h2 : (wfArg x && wfArgList t) = true := h
    rw [Bool.and_eq_true] at h2
    intro a ha
    cases ha with
    | head => exact h2.1
    | tail _ h3 => exact ih h2.2 a h3

theorem wfElemList_mem (l : List JSValue) (h : wfElemList l = true) :
    ∀ a ∈ l, wfElem a = true := by
  induction l with
  | nil => intro a ha; cases ha
  | cons x t ih =>
    have h2 : (wfElem x && wfElemList t) = true := h
    rw [Bool.and_eq_true] at h2
    intro a ha
    cases ha with
    | head => exact h2.1
    | tail _ h3 => exact ih h2.2 a h3

theorem parseSingleValue_elem : ∀ (f : Nat) (v : JSValue) (st : PState) (rest : List Char),
    wfElem v = true →
    remaining st = formatValue v ++ rest →
    headNotB isNumTokChar rest = true →
    (formatValue v).length + 1 ≤ f →
    parseSingleValue f st = .ok (v, stepped st (formatValue v).length) := by
  intro f
  induction f using Nat.strong_induction_on with
  | _ f ih =>
    intro v st rest hwf hrem hrest hf
    obtain ⟨f1, rfl⟩ : ∃ f1, f = f1 + 1 := ⟨f - 1, by omega⟩
    cases v with
    | vstr s =>
      have hfveq : formatValue (JSValue.vstr s) = '"' :: (escapeValue s ++ ['"']) := rfl
      have hhead : headNotB isWsChar (formatValue (JSValue.vstr s) ++ rest) = true := by
        rw [hfveq]
        exact headNotB_cons (by decide)
      have hskip : skipWs st = st :=
        skipWs_pad st [] _ hrem (by intro c hc; cases hc) hhead
      have hrem2 : remaining st = '"' :: (escapeValue s ++ ('"' :: rest)) := by
        rw [hrem, hfveq]
        simp [List.append_assoc]
      have hpk : peek? st = some '"' := peek_of _ _ _ hrem2
      have hps := parseString_escaped st s rest hrem2
      rw [parseSingleValue]
      dsimp only
      rw [hskip]
      rw [if_pos hpk]
      rw [hps]
      rfl
    | vnum q =>
      have hden : q.den = 1 := by
        have h2 : (q.den == 1) = true := hwf
        rw [beq_iff_eq] at h2
        exact h2
      have hqc : formatValue (JSValue.vnum q) = intDecimal q.num := by
        rw [show formatValue (JSValue.vnum q) = qToChars q from rfl]
        exact qToChars_int q hden
      obtain ⟨c, cr, hic, hnum, hcw, hcu, hcq, hcp⟩ := intDecimal_head q.num
      have hrem2 : remaining st = intDecimal q.num ++ rest := by rw [hrem, hqc]
      have hrem3 : remaining st = c :: (cr ++ rest) := by
        rw [hrem2, hic]
        rfl
      have hhead : headNotB isWsChar (formatValue (JSValue.vnum q) ++ rest) = true := by
        rw [hqc, hic]
        exact headNotB_cons hcw
      have hskip : skipWs st = st :=
        skipWs_pad st [] _ hrem (by intro x hx; cases hx) hhead
      have hpk : peek? st = some c := peek_of _ _ _ hrem3
      have hnq : ¬ peek? st = some '"' := by
        rw [hpk]
        intro h
        exact hcq (Option.some.inj h)
      have hfb : isFunctionB st = false := isFunctionB_false_of_head st c _ hrem3 hcu
      have hnb : isNumberB st = true := by
        rw [isNumberB, hpk]
        exact hnum
      have hpn := parseNumber_intDecimal st q.num rest hrem2 hrest
      rw [Rat.coe_int_num_of_den_eq_one hden] at hpn
      rw [← hqc] at hpn
      rw [parseSingleValue]
      dsimp only
      rw [hskip]
      rw [if_neg hnq]
      rw [hfb]
      rw [if_neg (show ¬(false = true) from Bool.false_ne_true)]
      rw [if_pos hnb]
      rw [hpn]
    | vfunc name args =>
      have h2 : (wfFuncName name && wfArgs args) = true := hwf
      rw [Bool.and_eq_true] at h2
      obtain ⟨hname, hargs⟩ := h2
      obtain ⟨ch, rh, hnm, hcu⟩ := name_head_upper name hname
      obtain ⟨Z, hsplit⟩ := funcCallChars_split name args
      have hfveq : formatValue (JSValue.vfunc name args) = funcCallChars name args := rfl
      have hrem1 : remaining st = funcCallChars name args ++ rest := by
        rw [hrem, hfveq]
      have hrem2 : remaining st = name ++ ('(' :: (Z ++ rest)) := by
        rw [hrem1, hsplit, List.append_assoc]
        rfl
      have hrem3 : remaining st = ch :: (rh ++ ('(' :: (Z ++ rest))) := by
        rw [hrem2, hnm]
        rfl
      have hhead : headNotB isWsChar (formatValue (JSValue.vfunc name args) ++ rest) = true := by
        rw [hfveq, hsplit, hnm]
        exact headNotB_cons (upper_not_ws ch hcu)
      have hskip : skipWs st = st :=
        skipWs_pad st [] _ hrem (by intro x hx; cases hx) hhead
      have hpk : peek? st = some ch := peek_of _ _ _ hrem3
      have hnq : ¬ peek? st = some '"' := by
        rw [hpk]
        intro h
        exact class_ne ch '"' hcu (by decide) (Option.some.inj h)
      have hfb : isFunctionB st = true := isFunctionB_true_of st name (Z ++ rest) hrem2 hname
      have hG : ∀ w, (wfArg w = true ∧ (formatValue w).length + 1 ≤ f1) → wfElem w = true :=
        fun w hw => wfArg_wfElem w hw.1
      have hfcc : (funcCallChars name args).length ≤ f1 := by
        rw [← hfveq]
        omega
      have hattr : ∀ l, args = some l →
          ∀ a ∈ l, wfArg a = true ∧ (wfArg a = true ∧ (formatValue a).length + 1 ≤ f1) := by
        intro l hl a ha
        subst hl
        have hwl : wfArgList l = true := by
          have h3 : (!l.isEmpty && wfArgList l) = true := hargs
          rw [Bool.and_eq_true] at h3
          exact h3.2
        have hwa : wfArg a = true := wfArgList_mem l hwl a ha
        refine ⟨hwa, hwa, ?_⟩
        cases l with
        | nil => cases ha
        | cons x t =>
          have hle : (formatValue a).length ≤ (formatValueList (x :: t)).length :=
            formatValue_mem_le a (x :: t) ha
          have hlf : (formatValueList (x :: t)).length + 3 ≤
              (funcCallChars name (some (x :: t))).length := by
            rw [funcCallChars_some_cons,
              argListChars_eq_formatValueList (x :: t) (wfArgList_mem _ hwl)]
            rw [hnm]
            simp [List.length_append]
          have hfc : (funcCallChars name (some (x :: t))).length ≤ f1 := by
            rw [← hfveq]
            omega
          omega
      have hfw := parseFunctionW_spec (parseSingleValue f1)
        (fun w => wfArg w = true ∧ (formatValue w).length + 1 ≤ f1)
        (fun w st' rest' hGw hrem' hrest' =>
          ih f1 (by omega) w st' rest' (wfArg_wfElem w hGw.1) hrem' hrest' hGw.2)
        hG f1 st name args rest hname hargs hattr hrem1 hfcc
      rw [parseSingleValue]
      dsimp only
      rw [hskip]
      rw [if_neg hnq]
      rw [if_pos hfb]
      rw [hfw]
      rfl
    | varr l =>
      have h2 : (false : Bool) = true := hwf
      cases h2
    | vnull =>
      have h2 : (false : Bool) = true := hwf
      cases h2

theorem parseValue_roundtrip (f1 : Nat) (v : JSValue) (st : PState) (rest : List Char)
    (hwf : wfValue v = true)
    (hrem : remaining st = formatValue v ++ rest)
    (hrest : headNotB isNumTokChar rest = true)
    (hf : (formatValue v).length + 1 ≤ f1 + 1) :
    parseValue (f1 + 1) st = .ok (v, stepped st (formatValue v).length) := by
  cases v with
  | vstr s =>
    have hfveq : formatValue (JSValue.vstr s) = '"' :: (escapeValue s ++ ['"']) := rfl
    have hhead : headNotB isWsChar (formatValue (JSValue.vstr s) ++ rest) = true := by
      rw [hfveq]
      exact headNotB_cons (by decide)
    have hskip : skipWs st = st :=
      skipWs_pad st [] _ hrem (by intro c hc; cases hc) hhead
    have hrem2 : remaining st = '"' :: (escapeValue s ++ ('"' :: rest)) := by
      rw [hrem, hfveq]
      simp [List.append_assoc]
    have hpk : peek? st = some '"' := peek_of _ _ _ hrem2
    have hnp : ¬ peek? st = some '(' := by
      rw [hpk]
      intro h
      cases Option.some.inj h
    have hps := parseString_escaped st s rest hrem2
    rw [parseValue]
    dsimp only
    rw [hskip]
    rw [if_neg hnp]
    rw [if_pos hpk]
    rw [hps]
    rfl
  | vnum q =>
    have hden : q.den = 1 := by
      have h2 : (q.den == 1) = true := hwf
      rw [beq_iff_eq] at h2
      exact h2
    have hqc : formatValue (JSValue.vnum q) = intDecimal q.num := by
      rw [show formatValue (JSValue.vnum q) = qToChars q from rfl]
      exact qToChars_int q hden
    obtain ⟨c, cr, hic, hnum, hcw, hcu, hcq, hcp⟩ := intDecimal_head q.num
    have hrem2 : remaining st = intDecimal q.num ++ rest := by rw [hrem, hqc]
    have hrem3 : remaining st = c :: (cr ++ rest) := by
      rw [hrem2, hic]
      rfl
    have hhead : headNotB isWsChar (formatValue (JSValue.vnum q) ++ rest) = true := by
      rw [hqc, hic]
      exact headNotB_cons hcw
    have hskip : skipWs st = st :=
      skipWs_pad st [] _ hrem (by intro x hx; cases hx) hhead
    have hpk : peek? st = some c := peek_of _ _ _ hrem3
    have hnp : ¬ peek? st = some '(' := by
      rw [hpk]
      intro h
      exact hcp (Option.some.inj h)
    have hnq : ¬ peek? st = some '"' := by
      rw [hpk]
      intro h
      exact hcq (Option.some.inj h)
    have hfb : isFunctionB st = false := isFunctionB_false_of_head st c _ hrem3 hcu
    have hnb : isNumberB st = true := by
      rw [isNumberB, hpk]
      exact hnum
    have hpn := parseNumber_intDecimal st q.num rest hrem2 hrest
    rw [Rat.coe_int_num_of_den_eq_one hden] at hpn
    rw [← hqc] at hpn
    rw [parseValue]
    dsimp only
    rw [hskip]
    rw [if_neg hnp]
    rw [if_neg hnq]
    rw [hfb]
    rw [if_neg (show ¬(false = true) from Bool.false_ne_true)]
    rw [if_pos hnb]
    rw [hpn]
  | vfunc name args =>
    have h2 : (wfFuncName name && wfArgs args) = true := hwf
    rw [Bool.and_eq_true] at h2
    obtain ⟨hname, hargs⟩ := h2
    obtain ⟨ch, rh, hnm, hcu⟩ := name_head_upper name hname
    obtain ⟨Z, hsplit⟩ := funcCallChars_split name args
    have hfveq : formatValue (JSValue.vfunc name args) = funcCallChars name args := rfl
    have hrem1 : remaining st = funcCallChars name args ++ rest := by
      rw [hrem, hfveq]
    have hrem2 : remaining st = name ++ ('(' :: (Z ++ rest)) := by
      rw [hrem1, hsplit, List.append_assoc]
      rfl
    have hrem3 : remaining st = ch :: (rh ++ ('(' :: (Z ++ rest))) := by
      rw [hrem2, hnm]
      rfl
    have hhead : headNotB isWsChar (formatValue (JSValue.vfunc name args) ++ rest) = true := by
      rw [hfveq, hsplit, hnm]
      exact headNotB_cons (upper_not_ws ch hcu)
    have hskip : skipWs st = st :=
      skipWs_pad st [] _ hrem (by intro x hx; cases hx) hhead
    have hpk : peek? st = some ch := peek_of _ _ _ hrem3
    have hnp : ¬ peek? st = some '(' := by
      rw [hpk]
      intro h
      exact class_ne ch '(' hcu (by decide) (Option.some.inj h)
    have hnq : ¬ peek? st = some '"' := by
      rw [hpk]
      intro h
      exact class_ne ch '"' hcu (by decide) (Option.some.inj h)
    have hfb : isFunctionB st = true := isFunctionB_true_of st name (Z ++ rest) hrem2 hname
    have hG : ∀ w, (wfArg w = true ∧ (formatValue w).length + 1 ≤ f1) → wfElem w = true :=
      fun w hw => wfArg_wfElem w hw.1
    have hfcc : (funcCallChars name args).length ≤ f1 := by
      rw [← hfveq]
      omega
    have hattr : ∀ l, args = some l →
        ∀ a ∈ l, wfArg a = true ∧ (wfArg a = true ∧ (formatValue a).length + 1 ≤ f1) := by
      intro l hl a ha
      subst hl
      have hwl : wfArgList l = true := by
        have h3 : (!l.isEmpty && wfArgList l) = true := hargs
        rw [Bool.and_eq_true] at h3
        exact h3.2
      have hwa : wfArg a = true := wfArgList_mem l hwl a ha
      refine ⟨hwa, hwa, ?_⟩
      cases l with
      | nil => cases ha
      | cons x t =>
        have hle : (formatValue a).length ≤ (formatValueList (x :: t)).length :=
          formatValue_mem_le a (x :: t) ha
        have hlf : (formatValueList (x :: t)).length + 3 ≤
            (funcCallChars name (some (x :: t))).length := by
          rw [funcCallChars_some_cons,
            argListChars_eq_formatValueList (x :: t) (wfArgList_mem _ hwl)]
          rw [hnm]
          simp [List.length_append]
        have hfc : (funcCallChars name (some (x :: t))).length ≤ f1 := by
          rw [← hfveq]
          omega
        omega
    have hfw := parseFunctionW_spec (parseSingleValue f1)
      (fun w => wfArg w = true ∧ (formatValue w).length + 1 ≤ f1)
      (fun w st' rest' hGw hrem' hrest' =>
        parseSingleValue_elem f1 w st' rest' (wfArg_wfElem w hGw.1) hrem' hrest' hGw.2)
      hG f1 st name args rest hname hargs hattr hrem1 hfcc
    rw [parseValue]
    dsimp only
    rw [hskip]
    rw [if_neg hnp]
    rw [if_neg hnq]
    rw [if_pos hfb]
    rw [hfw]
    rfl
  | varr l =>
    have hwfl : wfElemList l = true := hwf
    have hfveq : formatValue (JSValue.varr l) = '(' :: (formatValueList l ++ [')']) := rfl
    have hrem2 : remaining st = '(' :: (formatValueList l ++ (')' :: rest)) := by
      rw [hrem, hfveq]
      simp [List.append_assoc]
    have hhead : headNotB isWsChar (formatValue (JSValue.varr l) ++ rest) = true := by
      rw [hfveq]
      exact headNotB_cons (by decide)
    have hskip : skipWs st = st :=
      skipWs_pad st [] _ hrem (by intro x hx; cases hx) hhead
    have hpk : peek? st = some '(' := peek_of _ _ _ hrem2
    have hc1 : consumeLit ['('] st = (true, stepped st 1) :=
      consumeLit_yes ['('] (formatValueList l ++ (')' :: rest)) st hrem2
    have hr1 : remaining (stepped st 1) = formatValueList l ++ (')' :: rest) :=
      remaining_stepped_of st ['('] _ hrem2
    have hr2 : remaining (stepped (stepped st 1) (formatValueList l).length) =
        ')' :: rest :=
      remaining_stepped_of (stepped st 1) _ _ hr1
    have hc2 : consumeLit [')'] (stepped (stepped st 1) (formatValueList l).length) =
        (true, stepped (stepped (stepped st 1) (formatValueList l).length) 1) :=
      consumeLit_yes [')'] rest _ hr2
    have hlenfv : (formatValue (JSValue.varr l)).length =
        (formatValueList l).length + 2 := by
      rw [hfveq]
      simp [List.length_append]
    rw [parseValue]
    dsimp only
    rw [hskip]
    rw [if_pos hpk]
    rw [parseArrayValW]
    rw [show expectLit ['('] st = .ok (stepped st 1) from by rw [expectLit, hc1]]
    dsimp only
    rw [parseArrayLoopW_eq]
    cases l with
    | nil =>
      have hr1n : remaining (stepped st 1) = ')' :: rest := hr1
      obtain ⟨f2, rfl⟩ : ∃ f2, f1 = f2 + 1 := ⟨f1 - 1, by omega⟩
      rw [parseFuncLoopW]
      rw [if_pos (peek_of _ _ _ hr1n)]
      dsimp only
      rw [show expectLit [')'] (stepped st 1) = .ok (stepped (stepped st 1) 1) from by
        rw [expectLit, consumeLit_yes [')'] rest (stepped st 1) hr1n]
        rfl]
      rw [stepped_stepped]
      rfl
    | cons a t =>
      have hloop := parseFuncLoopW_spec (parseSingleValue f1)
        (fun w => wfElem w = true ∧ (formatValue w).length + 1 ≤ f1)
        (fun w st' rest' hGw hrem' hrest' =>
          parseSingleValue_elem f1 w st' rest' hGw.1 hrem' hrest' hGw.2)
        (fun w hw => hw.1) (a :: t) f1 [] (stepped st 1) rest
        (by
          intro x hx
          refine ⟨wfElemList_mem _ hwfl x hx, ?_⟩
          have hle : (formatValue x).length ≤ (formatValueList (a :: t)).length :=
            formatValue_mem_le x (a :: t) hx
          omega)
        hr1 (by simp)
        (by
          have hlg : (a :: t).length ≤ (formatValueList (a :: t)).length :=
            formatValueList_length_ge _ (wfElemList_mem _ hwfl)
          omega)
      rw [hloop]
      dsimp only
      rw [show expectLit [')']
        (stepped (stepped st 1) (formatValueList (a :: t)).length) =
        .ok (stepped (stepped (stepped st 1) (formatValueList (a :: t)).length) 1) from by
          rw [expectLit, hc2]]
      rw [show (List.reverse ([] : List JSValue) ++ (a :: t)) = a :: t from rfl]
      rw [stepped_stepped, stepped_stepped]
      rw [stepped_congr st (show 1 + ((formatValueList (a :: t)).length + 1) =
        (formatValue (JSValue.varr (a :: t))).length from by omega)]
  | vnull =>
    have h2 : (false : Bool) = true := hwf
    cases h2

-- ============================================================
-- Round-trip toolkit I: field conditions
-- ============================================================

theorem parseOperator_any (st : PState) (pad rest : List Char) (op : Op)
    (hrem : remaining st = pad ++ (opChars op ++ rest))
    (hpad : ∀ c ∈ pad, isWsChar c = true)
    (hcond : opRestOk op rest) :
    parseOperator st = .ok (op, stepped st (pad.length + (opChars op).length)) := by
  cases op with
  | eq => exact parseOperator_eq st pad rest hrem hpad
  | ne => exact parseOperator_ne st pad rest hrem hpad
  | gt => exact parseOperator_gt st pad rest hrem hpad hcond
  | lt => exact parseOperator_lt st pad rest hrem hpad hcond
  | ge => exact parseOperator_ge st pad rest hrem hpad
  | le => exact parseOperator_le st pad rest hrem hpad
  | opIn => exact parseOperator_opIn st pad rest hrem hpad hcond
  | opNotIn => exact parseOperator_opNotIn st pad rest hrem hpad hcond
  | like => exact parseOperator_like st pad rest hrem hpad hcond
  | notLike => exact parseOperator_notLike st pad rest hrem hpad hcond
  | opIsEmpty => exact parseOperator_opIsEmpty st pad rest hrem hpad hcond
  | opIsNotEmpty => exact parseOperator_opIsNotEmpty st pad rest hrem hpad hcond

theorem ws_boundary (c : Char) (h : isWsChar c = true) : isBoundaryChar c = true := by
  rw [isBoundaryChar, h]
  rfl

theorem opRestOk_ws (op : Op) (c : Char) (r : List Char) (hws : isWsChar c = true) :
    opRestOk op (c :: r) := by
  have hne : ¬ c = '=' := class_ne c '=' hws (by decide)
  have hbd : headNotB (fun x => !isBoundaryChar x) (c :: r) = true := by
    apply headNotB_cons
    rw [ws_boundary c hws]
    rfl
  cases op <;> first
    | trivial
    | exact hbd
    | (rw [opRestOk, List.head?_cons]
       intro h
       exact hne (Option.some.inj h))

theorem wsCount_dropWhile (l : List Char) : wsCount (l.dropWhile isWsChar) = 0 := by
  cases h : l.dropWhile isWsChar with
  | nil => rfl
  | cons c r => exact wsCount_cons_of_not (dropWhile_head_not l c r h)

theorem skipWs_skipWs (st : PState) : skipWs (skipWs st) = skipWs st := by
  have h : wsCount (remaining (skipWs st)) = 0 := by
    rw [remaining_skipWs]
    exact wsCount_dropWhile _
  conv_lhs => rw [skipWs]
  rw [h, Nat.add_zero]

theorem parseValue_skipWs (f : Nat) (st : PState) :
    parseValue (f + 1) st = parseValue (f + 1) (skipWs st) := by
  rw [parseValue]
  dsimp only
  rw [skipWs_skipWs]

theorem wfValue_head_not_ws (v : JSValue) (hwf : wfValue v = true) (rest : List Char) :
    headNotB isWsChar (formatValue v ++ rest) = true := by
  cases v with
  | vstr s => exact headNotB_cons (by decide)
  | vnum q =>
    have hden : q.den = 1 := by
      have h2 : (q.den == 1) = true := hwf
      rw [beq_iff_eq] at h2
      exact h2
    obtain ⟨c, cr, hic, _, hcw, _, _, _⟩ := intDecimal_head q.num
    rw [show formatValue (JSValue.vnum q) = qToChars q from rfl, qToChars_int q hden, hic]
    exact headNotB_cons hcw
  | varr l => exact headNotB_cons (by decide)
  | vfunc name args =>
    have h2 : (wfFuncName name && wfArgs args) = true := hwf
    rw [Bool.and_eq_true] at h2
    obtain ⟨ch, rh, hnm, hcu⟩ := name_head_upper name h2.1
    obtain ⟨Z, hsplit⟩ := funcCallChars_split name args
    rw [show formatValue (JSValue.vfunc name args) = funcCallChars name args from rfl,
      hsplit, hnm]
    exact headNotB_cons (upper_not_ws ch hcu)
  | vnull =>
    have h2 : (false : Bool) = true := hwf
    cases h2

theorem parseValue_pad (f1 : Nat) (v : JSValue) (st : PState) (pad rest : List Char)
    (hwf : wfValue v = true)
    (hrem : remaining st = pad ++ (formatValue v ++ rest))
    (hpad : ∀ c ∈ pad, isWsChar c = true)
    (hrest : headNotB isNumTokChar rest = true)
    (hf : (formatValue v).length + 1 ≤ f1 + 1) :
    parseValue (f1 + 1) st = .ok (v, stepped st (pad.length + (formatValue v).length)) := by
  have hs : skipWs st = stepped st pad.length :=
    skipWs_pad st pad _ hrem hpad (wfValue_head_not_ws v hwf rest)
  rw [parseValue_skipWs, hs]
  rw [parseValue_roundtrip f1 v (stepped st pad.length) rest hwf
    (remaining_stepped_of st pad _ hrem) hrest hf]
  rw [stepped_stepped]

theorem validate_any (f : List Char) (op : Op) (v : JSValue) (st : PState) :
    ∃ d, validateQueryExpression f op v st = (.pred f op v, ⟨st.input, st.pos, d⟩) := by
  rw [validateQueryExpression]
  by_cases h : shapeOk op v = true
  · rw [if_pos h]
    exact ⟨st.diags, rfl⟩
  · rw [if_neg h]
    exact ⟨st.diags ++ [⟨"Query expression validation failed".data, f, op⟩], rfl⟩

theorem formatValue_ne_nil_wf (v : JSValue) (h : wfValue v = true) :
    formatValue v ≠ [] := by
  cases v with
  | vstr s => simp [show formatValue (JSValue.vstr s) = '"' :: (escapeValue s ++ ['"']) from rfl]
  | vnum q =>
    have hden : q.den = 1 := by
      have hx : (q.den == 1) = true := h
      rw [beq_iff_eq] at hx
      exact hx
    obtain ⟨c, cr, hic, _⟩ := intDecimal_head q.num
    rw [show formatValue (JSValue.vnum q) = qToChars q from rfl, qToChars_int q hden, hic]
    simp
  | varr l =>
    simp [show formatValue (JSValue.varr l) = '(' :: (formatValueList l ++ [')']) from rfl]
  | vfunc n a =>
    have h2 : (wfFuncName n && wfArgs a) = true := h
    rw [Bool.and_eq_true] at h2
    obtain ⟨Z, hsplit⟩ := funcCallChars_split n a
    obtain ⟨ch, rh, hnm, _⟩ := name_head_upper n h2.1
    rw [show formatValue (JSValue.vfunc n a) = funcCallChars n a from rfl, hsplit, hnm]
    simp
  | vnull =>
    have h2 : (false : Bool) = true := h
    cases h2

theorem wfField_parts (f : List Char) (h : wfField f = true) :
    f ≠ [] ∧ (∀ c ∈ f, isFieldChar c = true) ∧ stripRDot f = f := by
  rw [wfField] at h
  simp only [Bool.and_eq_true, Bool.not_eq_true'] at h
  obtain ⟨⟨h1, h2⟩, h3⟩ := h
  refine ⟨?_, List.all_eq_true.mp h2, ?_⟩
  · intro hnil
    subst hnil
    cases h1
  · apply stripRDot_eq_self
    rw [beq_eq_false_iff_ne] at h3
    exact h3

theorem parseFieldCondition_roundtrip (f1 : Nat) (fld : List Char) (op : Op) (v : JSValue)
    (st : PState) (rest : List Char)
    (hwf : wfExpr (.pred fld op v) = true)
    (hrem : remaining st = expressionToString (.pred fld op v) ++ rest)
    (hstopN : headNotB isNumTokChar rest = true)
    (hstopB : headNotB (fun c => !isBoundaryChar c) rest = true)
    (hf : (expressionToString (.pred fld op v)).length + 1 ≤ f1 + 1 + 1) :
    ∃ d, parseFieldConditionW (parseValue (f1 + 1)) st =
      .ok (.pred fld op v, ⟨st.input,
        st.pos + (expressionToString (.pred fld op v)).length, d⟩) := by
  have hwf2 : (wfField fld && wfPredVal op v) = true := hwf
  rw [Bool.and_eq_true] at hwf2
  obtain ⟨hfield, hval⟩ := hwf2
  obtain ⟨hfne, hfchars, hstrip⟩ := wfField_parts fld hfield
  by_cases hOp : op = .opIsEmpty ∨ op = .opIsNotEmpty
  · -- `is empty` / `is not empty`: no value follows
    rw [wfPredVal, if_pos hOp] at hval
    have hv : v = .vnull := by
      cases v with
      | vnull => rfl
      | vstr s => exact absurd hval (by intro h2; exact Bool.false_ne_true h2)
      | vnum q => exact absurd hval (by intro h2; exact Bool.false_ne_true h2)
      | varr l => exact absurd hval (by intro h2; exact Bool.false_ne_true h2)
      | vfunc n a => exact absurd hval (by intro h2; exact Bool.false_ne_true h2)
    subst hv
    have hser : expressionToString (.pred fld op .vnull) =
        fld ++ ' ' :: opChars op := by
      rw [expressionToString, if_pos hOp, hstrip]
    rw [hser] at hrem
    have hrem2 : remaining st = fld ++ (' ' :: (opChars op ++ rest)) := by
      rw [hrem]
      simp [List.append_assoc]
    have hfn := parseFieldName_spec st [] fld (' ' :: (opChars op ++ rest)) hrem2
      (by intro c hc; cases hc) hfchars hfne (headNotB_cons (by decide))
    simp only [List.length_nil, Nat.zero_add] at hfn
    have hr1 : remaining (stepped st fld.length) = ' ' :: (opChars op ++ rest) :=
      remaining_stepped_of st fld _ hrem2
    have hcondB : opRestOk op rest := by
      rcases hOp with h | h <;> (subst h; exact hstopB)
    have hop := parseOperator_any (stepped st fld.length) [' '] rest op
      (by rw [hr1]; rfl) (by decide) hcondB
    obtain ⟨d, hval2⟩ := validate_any fld op .vnull
      (stepped (stepped st fld.length) ([' '].length + (opChars op).length))
    refine ⟨d, ?_⟩
    rw [parseFieldConditionW, hfn]
    dsimp only
    rw [hop]
    dsimp only
    rw [if_pos hOp]
    rw [hval2]
    rw [show (⟨(stepped (stepped st fld.length)
        ([' '].length + (opChars op).length)).input,
      (stepped (stepped st fld.length)
        ([' '].length + (opChars op).length)).pos, d⟩ : PState) =
      (⟨st.input, st.pos + (expressionToString (.pred fld op .vnull)).length, d⟩ :
        PState) from pstate_mk_congr _ _ (by
          show st.pos + fld.length + ([' '].length + (opChars op).length) = _
          rw [hser]
          simp [List.length_append]
          omega)]
  · -- an operator with a value
    rw [wfPredVal, if_neg hOp] at hval
    have hser : expressionToString (.pred fld op v) =
        fld ++ ' ' :: (opChars op ++ ' ' :: formatValue v) := by
      rw [expressionToString, if_neg hOp, hstrip]
    rw [hser] at hrem
    have hrem2 : remaining st =
        fld ++ (' ' :: (opChars op ++ (' ' :: (formatValue v ++ rest)))) := by
      rw [hrem]
      simp [List.append_assoc]
    have hfn := parseFieldName_spec st [] fld
      (' ' :: (opChars op ++ (' ' :: (formatValue v ++ rest)))) hrem2
      (by intro c hc; cases hc) hfchars hfne (headNotB_cons (by decide))
    simp only [List.length_nil, Nat.zero_add] at hfn
    have hr1 : remaining (stepped st fld.length) =
        ' ' :: (opChars op ++ (' ' :: (formatValue v ++ rest))) :=
      remaining_stepped_of st fld _ hrem2
    have hop := parseOperator_any (stepped st fld.length) [' ']
      (' ' :: (formatValue v ++ rest)) op (by rw [hr1]; rfl) (by decide)
      (opRestOk_ws op ' ' _ (by decide))
    have hr2 : remaining (stepped (stepped st fld.length)
        ([' '].length + (opChars op).length)) = ' ' :: (formatValue v ++ rest) := by
      have h0 : remaining (stepped st fld.length) =
          ([' '] ++ opChars op) ++ (' ' :: (formatValue v ++ rest)) := by
        rw [hr1]
        rfl
      have h1 := remaining_stepped_of (stepped st fld.length)
        ([' '] ++ opChars op) (' ' :: (formatValue v ++ rest)) h0
      rw [List.length_append] at h1
      exact h1
    obtain ⟨f2, rfl⟩ : ∃ f2, f1 = f2 + 1 := by
      refine ⟨f1 - 1, ?_⟩
      have h1 : 1 ≤ (formatValue v).length := by
        cases hfv : formatValue v with
        | nil => exact absurd hfv (formatValue_ne_nil_wf v hval)
        | cons c r => simp [hfv]
      rw [hser] at hf
      simp [List.length_append] at hf
      omega
    have hpv := parseValue_pad (f2 + 1) v
      (stepped (stepped st fld.length) ([' '].length + (opChars op).length))
      [' '] rest hval (by rw [hr2]; rfl) (by decide) hstopN
      (by
        rw [hser] at hf
        simp [List.length_append] at hf ⊢
        omega)
    obtain ⟨d, hval2⟩ := validate_any fld op v
      (stepped (stepped (stepped st fld.length)
        ([' '].length + (opChars op).length)) ([' '].length + (formatValue v).length))
    refine ⟨d, ?_⟩
    rw [parseFieldConditionW, hfn]
    dsimp only
    rw [hop]
    dsimp only
    rw [if_neg hOp]
    rw [hpv]
    dsimp only
    rw [hval2]
    rw [show (⟨(stepped (stepped (stepped st fld.length)
        ([' '].length + (opChars op).length))
        ([' '].length + (formatValue v).length)).input,
      (stepped (stepped (stepped st fld.length)
        ([' '].length + (opChars op).length))
        ([' '].length + (formatValue v).length)).pos, d⟩ : PState) =
      (⟨st.input, st.pos + (expressionToString (.pred fld op v)).length, d⟩ :
        PState) from pstate_mk_congr _ _ (by
          show st.pos + fld.length + ([' '].length + (opChars op).length) +
            ([' '].length + (formatValue v).length) = _
          rw [hser]
          simp [List.length_append]
          omega)]

-- ============================================================
-- Round-trip toolkit J: primaries and the and/or levels
-- ============================================================

theorem remaining_after (st : PState) (k : Nat) (d : List Diag) (a b : List Char)
    (hrem : remaining st = a ++ b) (hk : k = a.length) :
    remaining (⟨st.input, st.pos + k, d⟩ : PState) = b := by
  have h1 : remaining (⟨st.input, st.pos + k, d⟩ : PState) = (remaining st).drop k :=
    remaining_stepped st k
  rw [h1, hrem, hk, List.drop_left]

theorem exprStr_len_pos (e : Expr) (h : wfExpr e = true) :
    1 ≤ (expressionToString e).length := by
  cases e with
  | pred fld op v =>
    have h2 : (wfField fld && wfPredVal op v) = true := h
    rw [Bool.and_eq_true] at h2
    obtain ⟨hfne, _, hstrip⟩ := wfField_parts fld h2.1
    rw [expressionToString]
    by_cases hOp : op = .opIsEmpty ∨ op = .opIsNotEmpty
    · rw [if_pos hOp, hstrip]
      cases hfld : fld with
      | nil => exact absurd hfld hfne
      | cons c r => simp
    · rw [if_neg hOp, hstrip]
      cases hfld : fld with
      | nil => exact absurd hfld hfne
      | cons c r => simp
  | eand l r => rw [expressionToString]; simp
  | eor l r => rw [expressionToString]; simp
  | enot e2 =>
    have h2 : (false : Bool) = true := h
    cases h2
  | efunc n a =>
    have h2 : (false : Bool) = true := h
    cases h2

theorem exprStr_head_facts (e : Expr) (h : wfExpr e = true) :
    ∃ c r, expressionToString e = c :: r ∧ isWsChar c = false ∧
      (¬ c = '(' → ∃ fld op v, e = .pred fld op v) := by
  cases e with
  | pred fld op v =>
    have h2 : (wfField fld && wfPredVal op v) = true := h
    rw [Bool.and_eq_true] at h2
    obtain ⟨hfne, hfchars, hstrip⟩ := wfField_parts fld h2.1
    cases hfld : fld with
    | nil => exact absurd hfld hfne
    | cons c r =>
      subst hfld
      have hcf : isFieldChar c = true := hfchars c (List.mem_cons_self c r)
      refine ⟨c, (if op = .opIsEmpty ∨ op = .opIsNotEmpty then
          r ++ ' ' :: opChars op
          else r ++ ' ' :: (opChars op ++ ' ' :: formatValue v)), ?_,
        fieldChar_not_ws c hcf, fun _ => ⟨c :: r, op, v, rfl⟩⟩
      rw [expressionToString, hstrip]
      by_cases hOp : op = .opIsEmpty ∨ op = .opIsNotEmpty
      · rw [if_pos hOp, if_pos hOp]
        rfl
      · rw [if_neg hOp, if_neg hOp]
        rfl
  | eand l r =>
    refine ⟨'(', expressionToString l ++ " and ".data ++ expressionToString r ++ [')'],
      ?_, by decide, fun hc => absurd rfl hc⟩
    rw [expressionToString]
  | eor l r =>
    refine ⟨'(', expressionToString l ++ " or ".data ++ expressionToString r ++ [')'],
      ?_, by decide, fun hc => absurd rfl hc⟩
    rw [expressionToString]
  | enot e2 =>
    have h2 : (false : Bool) = true := h
    cases h2
  | efunc n a =>
    have h2 : (false : Bool) = true := h
    cases h2

theorem parseAndLoopW_exit (pp : PState → Except PErr (Expr × PState))
    (f2 : Nat) (left : Expr) (st : PState) (pad2 t : List Char)
    (hrem : remaining st = pad2 ++ t) (hpad : ∀ c ∈ pad2, isWsChar c = true)
    (htw : headNotB isWsChar t = true)
    (hA : kwOkAt "and".data t = false) (hf : 1 ≤ f2) :
    parseAndLoopW pp f2 left st = .ok (left, stepped st pad2.length) := by
  obtain ⟨f3, rfl⟩ : ∃ f3, f2 = f3 + 1 := ⟨f2 - 1, by omega⟩
  rw [parseAndLoopW]
  rw [consumeKeyword_no "and".data st pad2 t hrem hpad htw hA]

theorem parseOrLoopW_exit (pp : PState → Except PErr (Expr × PState))
    (f2 : Nat) (left : Expr) (st : PState) (pad2 t : List Char)
    (hrem : remaining st = pad2 ++ t) (hpad : ∀ c ∈ pad2, isWsChar c = true)
    (htw : headNotB isWsChar t = true)
    (hO : kwOkAt "or".data t = false) (hf : 1 ≤ f2) :
    parseOrLoopW pp f2 left st = .ok (left, stepped st pad2.length) := by
  obtain ⟨f3, rfl⟩ : ∃ f3, f2 = f3 + 1 := ⟨f2 - 1, by omega⟩
  rw [parseOrLoopW]
  rw [consumeKeyword_no "or".data st pad2 t hrem hpad htw hO]

theorem serInner_pred (fld : List Char) (op : Op) (v : JSValue) :
    serInner (.pred fld op v) = expressionToString (.pred fld op v) := by
  rw [serInner]

theorem serInner_eand (l r : Expr) :
    serInner (.eand l r) =
      expressionToString l ++ " and ".data ++ expressionToString r := by
  rw [serInner]

theorem serInner_eor (l r : Expr) :
    serInner (.eor l r) =
      expressionToString l ++ " or ".data ++ expressionToString r := by
  rw [serInner]

theorem orW_of_primary (f : Nat) (e : Expr) (st q1 : PState) (pad2 t : List Char)
    (hp1 : parsePrimary f st = .ok (e, q1))
    (hr1 : remaining q1 = pad2 ++ t)
    (hpad2 : ∀ c ∈ pad2, isWsChar c = true)
    (htw : headNotB isWsChar t = true)
    (hA : kwOkAt "and".data t = false) (hO : kwOkAt "or".data t = false)
    (hf : 1 ≤ f) :
    parseOrW (parsePrimary f) f st = .ok (e, stepped q1 pad2.length) := by
  have hand := parseAndLoopW_exit (parsePrimary f) f e q1 pad2 t hr1 hpad2 htw hA hf
  have hr2 : remaining (stepped q1 pad2.length) = t := by
    rw [remaining_stepped, hr1, List.drop_left]
  have hor := parseOrLoopW_exit (parsePrimary f) f e (stepped q1 pad2.length) [] t
    (by rw [hr2]; rfl) (by intro c hc; cases hc) htw hO hf
  rw [parseOrW, parseAndW, hp1]
  dsimp only
  rw [hand]
  dsimp only
  rw [hor]
  rw [show stepped (stepped q1 pad2.length) ([] : List Char).length =
    stepped q1 pad2.length from rfl]

theorem andW_of_primary (f f2 : Nat) (e : Expr) (st q1 : PState) (pad2 t : List Char)
    (hp1 : parsePrimary f st = .ok (e, q1))
    (hr1 : remaining q1 = pad2 ++ t)
    (hpad2 : ∀ c ∈ pad2, isWsChar c = true)
    (htw : headNotB isWsChar t = true)
    (hA : kwOkAt "and".data t = false) (hf2 : 1 ≤ f2) :
    parseAndW (parsePrimary f) f2 st = .ok (e, stepped q1 pad2.length) := by
  rw [parseAndW, hp1]
  dsimp only
  rw [parseAndLoopW_exit (parsePrimary f) f2 e q1 pad2 t hr1 hpad2 htw hA hf2]

theorem parseOrW_inner (f : Nat)
    (hS1 : ∀ (e : Expr) (st : PState) (pad rest : List Char),
      wfExpr e = true →
      remaining st = pad ++ (expressionToString e ++ rest) →
      (∀ c ∈ pad, isWsChar c = true) →
      predStop rest →
      (expressionToString e).length + 1 ≤ f →
      ∃ d, parsePrimary f st =
        .ok (e, ⟨st.input, st.pos + (pad.length + (expressionToString e).length), d⟩)) :
    ∀ (e : Expr) (st : PState) (pad2 t : List Char),
      wfExpr e = true →
      remaining st = serInner e ++ (pad2 ++ t) →
      (∀ c ∈ pad2, isWsChar c = true) →
      orExit t →
      predStop (pad2 ++ t) →
      (serInner e).length + 1 ≤ f →
      ∃ d, parseOrW (parsePrimary f) f st =
        .ok (e, ⟨st.input, st.pos + ((serInner e).length + pad2.length), d⟩) := by
  intro e st pad2 t hwf hrem hpad2 hexit hps hf
  obtain ⟨htw, hA, hO⟩ := hexit
  cases e with
  | pred fld op v =>
    rw [serInner_pred] at hrem hf
    have hlen1 := exprStr_len_pos _ hwf
    obtain ⟨d1, hp1⟩ := hS1 (.pred fld op v) st [] (pad2 ++ t) hwf
      (by rw [hrem]; rfl) (by intro c hc; cases hc) hps (by omega)
    have hr1 : remaining (⟨st.input, st.pos + (([] : List Char).length +
        (expressionToString (.pred fld op v)).length), d1⟩ : PState) = pad2 ++ t :=
      remaining_after st _ d1 _ _ hrem (by simp)
    refine ⟨d1, ?_⟩
    rw [orW_of_primary f (.pred fld op v) st _ pad2 t hp1 hr1 hpad2 htw hA hO (by omega)]
    rw [serInner_pred]
    rw [show stepped (⟨st.input, st.pos + (([] : List Char).length +
        (expressionToString (.pred fld op v)).length), d1⟩ : PState) pad2.length =
      (⟨st.input, st.pos + ((expressionToString (.pred fld op v)).length + pad2.length),
        d1⟩ : PState) from pstate_mk_congr _ _ (by simp; omega)]
  | eand l r =>
    have hw2 : (wfExpr l && wfExpr r) = true := hwf
    rw [Bool.and_eq_true] at hw2
    obtain ⟨hwl, hwr⟩ := hw2
    have hlenl := exprStr_len_pos l hwl
    have hlenr := exprStr_len_pos r hwr
    have hserlen : (serInner (.eand l r)).length =
        (expressionToString l).length + 5 + (expressionToString r).length := by
      rw [serInner_eand]
      simp only [List.length_append]
      rw [show (" and ".data : List Char).length = 5 from rfl]
    rw [serInner_eand] at hrem
    have hrem1 : remaining st = [] ++ (expressionToString l ++
        (" and ".data ++ (expressionToString r ++ (pad2 ++ t)))) := by
      rw [hrem]
      simp [List.append_assoc]
    obtain ⟨d1, hp1⟩ := hS1 l st []
      (" and ".data ++ (expressionToString r ++ (pad2 ++ t))) hwl hrem1
      (by intro c hc; cases hc)
      (⟨headNotB_cons (by decide), headNotB_cons (by decide)⟩) (by omega)
    have hr1 : remaining (⟨st.input, st.pos + (([] : List Char).length +
        (expressionToString l).length), d1⟩ : PState) =
        " and ".data ++ (expressionToString r ++ (pad2 ++ t)) :=
      remaining_after st _ d1 _ _ (by rw [hrem1]; rfl) (by simp)
    obtain ⟨f3, rfl⟩ : ∃ f3, f = f3 + 1 := ⟨f - 1, by omega⟩
    have hcons : consumeKeyword "and".data (⟨st.input, st.pos + (([] : List Char).length +
        (expressionToString l).length), d1⟩ : PState) =
        (true, stepped (⟨st.input, st.pos + (([] : List Char).length +
          (expressionToString l).length), d1⟩ : PState)
          ([' '].length + ("and".data : List Char).length)) :=
      consumeKeyword_yes "and".data _ [' ']
        (' ' :: (expressionToString r ++ (pad2 ++ t)))
        (by rw [hr1]; rfl) (by decide) rfl rfl
    have hr2 : remaining (stepped (⟨st.input, st.pos + (([] : List Char).length +
        (expressionToString l).length), d1⟩ : PState)
        ([' '].length + ("and".data : List Char).length)) =
        ' ' :: (expressionToString r ++ (pad2 ++ t)) := by
      rw [remaining_stepped, hr1]
      rfl
    obtain ⟨d2, hp2⟩ := hS1 r _ [' '] (pad2 ++ t) hwr (by rw [hr2]; rfl)
      (by decide) hps (by omega)
    have hr3 : remaining (⟨st.input,
        (stepped (⟨st.input, st.pos + (([] : List Char).length +
          (expressionToString l).length), d1⟩ : PState)
          ([' '].length + ("and".data : List Char).length)).pos +
        ([' '].length + (expressionToString r).length), d2⟩ : PState) = pad2 ++ t := by
      apply remaining_after _ _ _ (' ' :: expressionToString r) (pad2 ++ t)
        (by rw [hr2]; rfl)
      simp
      omega
    have hp2b : parsePrimary (f3 + 1)
        (stepped (⟨st.input, st.pos + (([] : List Char).length +
          (expressionToString l).length), d1⟩ : PState)
          ([' '].length + ("and".data : List Char).length)) =
        .ok (r, (⟨st.input,
          (stepped (⟨st.input, st.pos + (([] : List Char).length +
            (expressionToString l).length), d1⟩ : PState)
            ([' '].length + ("and".data : List Char).length)).pos +
          ([' '].length + (expressionToString r).length), d2⟩ : PState)) := hp2
    have hand2 := parseAndLoopW_exit (parsePrimary (f3 + 1)) f3 (.eand l r)
      (⟨st.input, (stepped (⟨st.input, st.pos + (([] : List Char).length +
          (expressionToString l).length), d1⟩ : PState)
          ([' '].length + ("and".data : List Char).length)).pos +
        ([' '].length + (expressionToString r).length), d2⟩ : PState)
      pad2 t hr3 hpad2 htw hA (by omega)
    have hr4 : remaining (stepped (⟨st.input,
        (stepped (⟨st.input, st.pos + (([] : List Char).length +
          (expressionToString l).length), d1⟩ : PState)
          ([' '].length + ("and".data : List Char).length)).pos +
        ([' '].length + (expressionToString r).length), d2⟩ : PState) pad2.length) = t := by
      rw [remaining_stepped, hr3, List.drop_left]
    have hor := parseOrLoopW_exit (parsePrimary (f3 + 1)) (f3 + 1) (.eand l r)
      _ [] t (by rw [hr4]; rfl) (by intro c hc; cases hc) htw hO (by omega)
    refine ⟨d2, ?_⟩
    rw [parseOrW, parseAndW, hp1]
    dsimp only
    rw [parseAndLoopW]
    rw [hcons]
    dsimp only
    rw [hp2b]
    dsimp only
    rw [hand2]
    dsimp only
    rw [hor]
    rw [show stepped (stepped (⟨st.input,
        (stepped (⟨st.input, st.pos + (([] : List Char).length +
          (expressionToString l).length), d1⟩ : PState)
          ([' '].length + ("and".data : List Char).length)).pos +
        ([' '].length + (expressionToString r).length), d2⟩ : PState) pad2.length)
        ([] : List Char).length =
      (⟨st.input, st.pos + ((serInner (.eand l r)).length + pad2.length), d2⟩ : PState)
      from pstate_mk_congr _ _ (by
        rw [hserlen]
        simp [stepped]
        omega)]
  | eor l r =>
    have hw2 : (wfExpr l && wfExpr r) = true := hwf
    rw [Bool.and_eq_true] at hw2
    obtain ⟨hwl, hwr⟩ := hw2
    have hlenl := exprStr_len_pos l hwl
    have hlenr := exprStr_len_pos r hwr
    have hserlen : (serInner (.eor l r)).length =
        (expressionToString l).length + 4 + (expressionToString r).length := by
      rw [serInner_eor]
      simp only [List.length_append]
      rw [show (" or ".data : List Char).length = 4 from rfl]
    rw [serInner_eor] at hrem
    have hrem1 : remaining st = [] ++ (expressionToString l ++
        (" or ".data ++ (expressionToString r ++ (pad2 ++ t)))) := by
      rw [hrem]
      simp [List.append_assoc]
    obtain ⟨d1, hp1⟩ := hS1 l st []
      (" or ".data ++ (expressionToString r ++ (pad2 ++ t))) hwl hrem1
      (by intro c hc; cases hc)
      (⟨headNotB_cons (by decide), headNotB_cons (by decide)⟩) (by omega)
    have hr1 : remaining (⟨st.input, st.pos + (([] : List Char).length +
        (expressionToString l).length), d1⟩ : PState) =
        " or ".data ++ (expressionToString r ++ (pad2 ++ t)) :=
      remaining_after st _ d1 _ _ (by rw [hrem1]; rfl) (by simp)
    obtain ⟨f3, rfl⟩ : ∃ f3, f = f3 + 1 := ⟨f - 1, by omega⟩
    -- the and-loop stops in front of `or`, consuming the blank
    have handstop := parseAndLoopW_exit (parsePrimary (f3 + 1)) (f3 + 1) l
      (⟨st.input, st.pos + (([] : List Char).length +
        (expressionToString l).length), d1⟩ : PState) [' ']
      ("or".data ++ (' ' :: (expressionToString r ++ (pad2 ++ t))))
      (by rw [hr1]; rfl) (by decide) rfl
      (kwOkAt_false_of_take_ne _ _ rfl
        (take_append_ne_of_prefix_ne _ _ _ 0 (by decide) (by decide) (by decide)))
      (by omega)
    have hr2 : remaining (stepped (⟨st.input, st.pos + (([] : List Char).length +
        (expressionToString l).length), d1⟩ : PState) ([' '] : List Char).length) =
        "or".data ++ (' ' :: (expressionToString r ++ (pad2 ++ t))) := by
      rw [remaining_stepped, hr1]
      rfl
    have hcons : consumeKeyword "or".data (stepped (⟨st.input,
        st.pos + (([] : List Char).length + (expressionToString l).length), d1⟩ : PState)
        ([' '] : List Char).length) =
        (true, stepped (stepped (⟨st.input, st.pos + (([] : List Char).length +
          (expressionToString l).length), d1⟩ : PState) ([' '] : List Char).length)
          ("or".data : List Char).length) :=
      consumeKeyword_yes0 "or".data _ (' ' :: (expressionToString r ++ (pad2 ++ t)))
        hr2 rfl rfl
    have hr3 : remaining (stepped (stepped (⟨st.input, st.pos + (([] : List Char).length +
        (expressionToString l).length), d1⟩ : PState) ([' '] : List Char).length)
        ("or".data : List Char).length) =
        ' ' :: (expressionToString r ++ (pad2 ++ t)) := by
      rw [remaining_stepped, hr2]
      rfl
    obtain ⟨d2, hp2⟩ := hS1 r _ [' '] (pad2 ++ t) hwr (by rw [hr3]; rfl)
      (by decide) hps (by omega)
    have hr4 : remaining (⟨st.input,
        (stepped (stepped (⟨st.input, st.pos + (([] : List Char).length +
          (expressionToString l).length), d1⟩ : PState) ([' '] : List Char).length)
          ("or".data : List Char).length).pos +
        ([' '].length + (expressionToString r).length), d2⟩ : PState) = pad2 ++ t := by
      apply remaining_after _ _ _ (' ' :: expressionToString r) (pad2 ++ t)
        (by rw [hr3]; rfl)
      simp
      omega
    have hp2b : parsePrimary (f3 + 1)
        (stepped (stepped (⟨st.input, st.pos + (([] : List Char).length +
          (expressionToString l).length), d1⟩ : PState) ([' '] : List Char).length)
          ("or".data : List Char).length) =
        .ok (r, (⟨st.input,
          (stepped (stepped (⟨st.input, st.pos + (([] : List Char).length +
            (expressionToString l).length), d1⟩ : PState) ([' '] : List Char).length)
            ("or".data : List Char).length).pos +
          ([' '].length + (expressionToString r).length), d2⟩ : PState)) := hp2
    have handw := andW_of_primary (f3 + 1) f3 r _
      (⟨st.input,
        (stepped (stepped (⟨st.input, st.pos + (([] : List Char).length +
          (expressionToString l).length), d1⟩ : PState) ([' '] : List Char).length)
          ("or".data : List Char).length).pos +
        ([' '].length + (expressionToString r).length), d2⟩ : PState)
      pad2 t hp2b hr4 hpad2 htw hA (by omega)
    have hr5 : remaining (stepped (⟨st.input,
        (stepped (stepped (⟨st.input, st.pos + (([] : List Char).length +
          (expressionToString l).length), d1⟩ : PState) ([' '] : List Char).length)
          ("or".data : List Char).length).pos +
        ([' '].length + (expressionToString r).length), d2⟩ : PState) pad2.length) = t := by
      rw [remaining_stepped, hr4, List.drop_left]
    have horf := parseOrLoopW_exit (parsePrimary (f3 + 1)) f3 (.eor l r)
      _ [] t (by rw [hr5]; rfl) (by intro c hc; cases hc) htw hO (by omega)
    refine ⟨d2, ?_⟩
    rw [parseOrW, parseAndW, hp1]
    dsimp only
    rw [handstop]
    dsimp only
    rw [parseOrLoopW]
    rw [hcons]
    dsimp only
    rw [handw]
    dsimp only
    rw [horf]
    rw [show stepped (stepped (⟨st.input,
        (stepped (stepped (⟨st.input, st.pos + (([] : List Char).length +
          (expressionToString l).length), d1⟩ : PState) ([' '] : List Char).length)
          ("or".data : List Char).length).pos +
        ([' '].length + (expressionToString r).length), d2⟩ : PState) pad2.length)
        ([] : List Char).length =
      (⟨st.input, st.pos + ((serInner (.eor l r)).length + pad2.length), d2⟩ : PState)
      from pstate_mk_congr _ _ (by
        rw [hserlen]
        simp [stepped]
        omega)]
  | enot e2 =>
    have h2 : (false : Bool) = true := hwf
    cases h2
  | efunc n a =>
    have h2 : (false : Bool) = true := hwf
    cases h2

theorem exprStr_eand (l r : Expr) :
    expressionToString (.eand l r) = '(' :: (serInner (.eand l r) ++ [')']) := by
  rw [expressionToString, serInner_eand]

theorem exprStr_eor (l r : Expr) :
    expressionToString (.eor l r) = '(' :: (serInner (.eor l r) ++ [')']) := by
  rw [expressionToString, serInner_eor]

theorem parsePrimary_roundtrip (f : Nat) :
    ∀ (e : Expr) (st : PState) (pad rest : List Char),
      wfExpr e = true →
      remaining st = pad ++ (expressionToString e ++ rest) →
      (∀ c ∈ pad, isWsChar c = true) →
      predStop rest →
      (expressionToString e).length + 1 ≤ f →
      ∃ d, parsePrimary f st =
        .ok (e, ⟨st.input, st.pos + (pad.length + (expressionToString e).length), d⟩) := by
  induction f with
  | zero =>
    intro e st pad rest hwf hrem hpad hps hf
    exact absurd hf (by omega)
  | succ g ih =>
    intro e st pad rest hwf hrem hpad hps hf
    cases e with
    | pred fld op v =>
      have h2 : (wfField fld && wfPredVal op v) = true := hwf
      rw [Bool.and_eq_true] at h2
      obtain ⟨hfne, hfchars, hstrip⟩ := wfField_parts fld h2.1
      cases hfld : fld with
      | nil => exact absurd hfld hfne
      | cons c0 ftl =>
        subst hfld
        have hc0 : isFieldChar c0 = true := hfchars c0 (List.mem_cons_self c0 ftl)
        obtain ⟨tl, hser⟩ :
            ∃ tl, expressionToString (.pred (c0 :: ftl) op v) = c0 :: tl := by
          rw [expressionToString, hstrip]
          by_cases hOp : op = .opIsEmpty ∨ op = .opIsNotEmpty
          · rw [if_pos hOp]
            exact ⟨ftl ++ ' ' :: opChars op, rfl⟩
          · rw [if_neg hOp]
            exact ⟨ftl ++ ' ' :: (opChars op ++ ' ' :: formatValue v), rfl⟩
        have hhead : headNotB isWsChar
            (expressionToString (.pred (c0 :: ftl) op v) ++ rest) = true := by
          rw [hser]
          exact headNotB_cons (fieldChar_not_ws c0 hc0)
        have hskip : skipWs st = stepped st pad.length :=
          skipWs_pad st pad _ hrem hpad hhead
        have hr1 : remaining (stepped st pad.length) =
            expressionToString (.pred (c0 :: ftl) op v) ++ rest :=
          remaining_stepped_of st pad _ hrem
        have hpeek : peek? (stepped st pad.length) = some c0 :=
          peek_of _ c0 (tl ++ rest) (by rw [hr1, hser]; rfl)
        have hne : ¬ (peek? (stepped st pad.length) = some '(') := by
          rw [hpeek]
          intro h3
          rw [Option.some.inj h3] at hc0
          exact absurd hc0 (by decide)
        have hlen := exprStr_len_pos (.pred (c0 :: ftl) op v) hwf
        obtain ⟨g2, rfl⟩ : ∃ g2, g = g2 + 1 := ⟨g - 1, by omega⟩
        obtain ⟨hN, hB⟩ := hps
        obtain ⟨d, hfc⟩ := parseFieldCondition_roundtrip g2 (c0 :: ftl) op v
          (stepped st pad.length) rest hwf hr1 hN hB (by omega)
        refine ⟨d, ?_⟩
        rw [parsePrimary]
        dsimp only
        rw [hskip]
        rw [if_neg hne]
        rw [hfc]
        rw [show (⟨(stepped st pad.length).input, (stepped st pad.length).pos +
            (expressionToString (.pred (c0 :: ftl) op v)).length, d⟩ : PState) =
          (⟨st.input, st.pos + (pad.length +
            (expressionToString (.pred (c0 :: ftl) op v)).length), d⟩ : PState)
          from pstate_mk_congr _ _ (by simp [stepped]; omega)]
    | eand l r =>
      have hser := exprStr_eand l r
      have hlens : (expressionToString (.eand l r)).length =
          (serInner (.eand l r)).length + 2 := by
        rw [hser]
        simp
      have hhead : headNotB isWsChar
          (expressionToString (.eand l r) ++ rest) = true := by
        rw [hser]
        exact headNotB_cons (by decide)
      have hskip : skipWs st = stepped st pad.length :=
        skipWs_pad st pad _ hrem hpad hhead
      have hr1 : remaining (stepped st pad.length) =
          expressionToString (.eand l r) ++ rest :=
        remaining_stepped_of st pad _ hrem
      have hpeek : peek? (stepped st pad.length) = some '(' :=
        peek_of _ '(' ((serInner (.eand l r) ++ [')']) ++ rest) (by rw [hr1, hser]; rfl)
      have hconsume : consumeLit ['('] (stepped st pad.length) =
          (true, stepped (stepped st pad.length) (['('] : List Char).length) :=
        consumeLit_yes ['('] ((serInner (.eand l r) ++ [')']) ++ rest) _
          (by rw [hr1, hser]; rfl)
      have hr2 : remaining (stepped (stepped st pad.length)
          (['('] : List Char).length) = serInner (.eand l r) ++ ([] ++ (')' :: rest)) := by
        rw [remaining_stepped, hr1, hser]
        show (serInner (.eand l r) ++ [')']) ++ rest = _
        simp [List.append_assoc]
      have hexit : orExit (')' :: rest) :=
        ⟨headNotB_cons (by decide),
         kwOkAt_false_head "and".data (')' :: rest) ')' rest rfl (by decide)
           'a' ['n', 'd'] (by decide) (by decide),
         kwOkAt_false_head "or".data (')' :: rest) ')' rest rfl (by decide)
           'o' ['r'] (by decide) (by decide)⟩
      have hps2 : predStop ([] ++ (')' :: rest)) :=
        ⟨headNotB_cons (by decide), headNotB_cons (by decide)⟩
      obtain ⟨d1, hor⟩ := parseOrW_inner g ih (.eand l r)
        (stepped (stepped st pad.length) (['('] : List Char).length)
        [] (')' :: rest) hwf hr2 (by intro c hc; cases hc) hexit hps2 (by omega)
      have hr3 : remaining (⟨(stepped (stepped st pad.length)
          (['('] : List Char).length).input,
          (stepped (stepped st pad.length) (['('] : List Char).length).pos +
          ((serInner (.eand l r)).length + ([] : List Char).length), d1⟩ : PState) =
          ')' :: rest := by
        apply remaining_after _ _ _ (serInner (.eand l r)) (')' :: rest)
          (by rw [hr2]; rfl)
        simp
      refine ⟨d1, ?_⟩
      rw [parsePrimary]
      dsimp only
      rw [hskip]
      rw [if_pos hpeek]
      rw [hconsume]
      dsimp only
      rw [hor]
      dsimp only
      rw [expectLit]
      rw [consumeLit_yes [')'] rest _ (by rw [hr3]; rfl)]
      dsimp only
      rw [show stepped (⟨(stepped (stepped st pad.length)
          (['('] : List Char).length).input,
          (stepped (stepped st pad.length) (['('] : List Char).length).pos +
          ((serInner (.eand l r)).length + ([] : List Char).length), d1⟩ : PState)
          ([')'] : List Char).length =
        (⟨st.input, st.pos + (pad.length +
          (expressionToString (.eand l r)).length), d1⟩ : PState)
        from pstate_mk_congr _ _ (by rw [hlens]; simp [stepped]; omega)]
    | eor l r =>
      have hser := exprStr_eor l r
      have hlens : (expressionToString (.eor l r)).length =
          (serInner (.eor l r)).length + 2 := by
        rw [hser]
        simp
      have hhead : headNotB isWsChar
          (expressionToString (.eor l r) ++ rest) = true := by
        rw [hser]
        exact headNotB_cons (by decide)
      have hskip : skipWs st = stepped st pad.length :=
        skipWs_pad st pad _ hrem hpad hhead
      have hr1 : remaining (stepped st pad.length) =
          expressionToString (.eor l r) ++ rest :=
        remaining_stepped_of st pad _ hrem
      have hpeek : peek? (stepped st pad.length) = some '(' :=
        peek_of _ '(' ((serInner (.eor l r) ++ [')']) ++ rest) (by rw [hr1, hser]; rfl)
      have hconsume : consumeLit ['('] (stepped st pad.length) =
          (true, stepped (stepped st pad.length) (['('] : List Char).length) :=
        consumeLit_yes ['('] ((serInner (.eor l r) ++ [')']) ++ rest) _
          (by rw [hr1, hser]; rfl)
      have hr2 : remaining (stepped (stepped st pad.length)
          (['('] : List Char).length) = serInner (.eor l r) ++ ([] ++ (')' :: rest)) := by
        rw [remaining_stepped, hr1, hser]
        show (serInner (.eor l r) ++ [')']) ++ rest = _
        simp [List.append_assoc]
      have hexit : orExit (')' :: rest) :=
        ⟨headNotB_cons (by decide),
         kwOkAt_false_head "and".data (')' :: rest) ')' rest rfl (by decide)
           'a' ['n', 'd'] (by decide) (by decide),
         kwOkAt_false_head "or".data (')' :: rest) ')' rest rfl (by decide)
           'o' ['r'] (by decide) (by decide)⟩
      have hps2 : predStop ([] ++ (')' :: rest)) :=
        ⟨headNotB_cons (by decide), headNotB_cons (by decide)⟩
      obtain ⟨d1, hor⟩ := parseOrW_inner g ih (.eor l r)
        (stepped (stepped st pad.length) (['('] : List Char).length)
        [] (')' :: rest) hwf hr2 (by intro c hc; cases hc) hexit hps2 (by omega)
      have hr3 : remaining (⟨(stepped (stepped st pad.length)
          (['('] : List Char).length).input,
          (stepped (stepped st pad.length) (['('] : List Char).length).pos +
          ((serInner (.eor l r)).length + ([] : List Char).length), d1⟩ : PState) =
          ')' :: rest := by
        apply remaining_after _ _ _ (serInner (.eor l r)) (')' :: rest)
          (by rw [hr2]; rfl)
        simp
      refine ⟨d1, ?_⟩
      rw [parsePrimary]
      dsimp only
      rw [hskip]
      rw [if_pos hpeek]
      rw [hconsume]
      dsimp only
      rw [hor]
      dsimp only
      rw [expectLit]
      rw [consumeLit_yes [')'] rest _ (by rw [hr3]; rfl)]
      dsimp only
      rw [show stepped (⟨(stepped (stepped st pad.length)
          (['('] : List Char).length).input,
          (stepped (stepped st pad.length) (['('] : List Char).length).pos +
          ((serInner (.eor l r)).length + ([] : List Char).length), d1⟩ : PState)
          ([')'] : List Char).length =
        (⟨st.input, st.pos + (pad.length +
          (expressionToString (.eor l r)).length), d1⟩ : PState)
        from pstate_mk_congr _ _ (by rw [hlens]; simp [stepped]; omega)]
    | enot e2 =>
      have h2 : (false : Bool) = true := hwf
      cases h2
    | efunc n a =>
      have h2 : (false : Bool) = true := hwf
      cases h2

theorem parseOr_top (f : Nat) (e : Expr) (st : PState) (pad2 t : List Char)
    (hwf : wfExpr e = true)
    (hrem : remaining st = expressionToString e ++ (pad2 ++ t))
    (hpad2 : ∀ c ∈ pad2, isWsChar c = true)
    (hexit : orExit t) (hps : predStop (pad2 ++ t))
    (hf : (expressionToString e).length + 1 ≤ f) :
    ∃ d, parseOr f st =
      .ok (e, ⟨st.input, st.pos + ((expressionToString e).length + pad2.length), d⟩) := by
  obtain ⟨htw, hA, hO⟩ := hexit
  obtain ⟨d, hp⟩ := parsePrimary_roundtrip f e st [] (pad2 ++ t) hwf
    (by rw [hrem]; rfl) (by intro c hc; cases hc) hps hf
  have hr1 : remaining (⟨st.input, st.pos + (([] : List Char).length +
      (expressionToString e).length), d⟩ : PState) = pad2 ++ t :=
    remaining_after st _ d _ _ hrem (by simp)
  refine ⟨d, ?_⟩
  rw [parseOr]
  rw [orW_of_primary f e st _ pad2 t hp hr1 hpad2 htw hA hO (by omega)]
  rw [show stepped (⟨st.input, st.pos + (([] : List Char).length +
      (expressionToString e).length), d⟩ : PState) pad2.length =
    (⟨st.input, st.pos + ((expressionToString e).length + pad2.length), d⟩ : PState)
    from pstate_mk_congr _ _ (by simp [stepped]; omega)]

theorem pipeline_compose (input : List Char) (w : Option Expr)
    (ob : Option (List OrderByClause)) (lim off : Option ℚ) (st1 st2 st3 st4 : PState)
    (h1 : whereStage (input.length + 1) ⟨input, 0, []⟩ = .ok (w, st1))
    (h2 : orderStage (input.length + 1) st1 = .ok (ob, st2))
    (h3 : limitStage st2 = .ok (lim, st3))
    (h4 : offsetStage st3 = .ok (off, st4)) :
    parseCompletePipeline input = .ok (⟨w, ob, lim, off⟩, st4) := by
  rw [whereStage] at h1
  rw [orderStage] at h2
  rw [limitStage] at h3
  rw [offsetStage] at h4
  rw [parseCompletePipeline]
  dsimp only
  rw [h1]
  dsimp only
  rw [h2]
  dsimp only
  rw [h3]
  dsimp only
  rcases hck : consumeKeyword "offset".data st3 with ⟨b4, sx⟩
  rw [hck] at h4
  cases b4 with
  | true =>
    dsimp only at h4 ⊢
    rcases hpo : parseOffset sx with e | ⟨n, sy⟩
    · rw [hpo] at h4
      dsimp only at h4
      cases h4
    · rw [hpo] at h4
      dsimp only at h4 ⊢
      rw [Except.ok.injEq, Prod.mk.injEq] at h4
      obtain ⟨hv, hst⟩ := h4
      rw [hv, hst]
  | false =>
    dsimp only at h4 ⊢
    rw [Except.ok.injEq, Prod.mk.injEq] at h4
    obtain ⟨hv, hst⟩ := h4
    rw [hv, hst]

theorem wsCount_zero_of_headNot {t : List Char} (h : headNotB isWsChar t = true) :
    wsCount t = 0 := by
  cases t with
  | nil => rfl
  | cons c r =>
    have h2 : (!isWsChar c) = true := h
    have h3 : isWsChar c = false := by
      cases hc : isWsChar c
      · rfl
      · rw [hc] at h2
        exact absurd h2 (by decide)
    exact wsCount_cons_of_not h3

theorem orderByChars_one (c : OrderByClause) :
    orderByChars [c] = c.field ++ ' ' :: dirChars c.direction := by
  rw [orderByChars]

theorem orderByChars_cons2 (c x : OrderByClause) (xs : List OrderByClause) :
    orderByChars (c :: x :: xs) =
      (c.field ++ ' ' :: dirChars c.direction) ++ ", ".data ++ orderByChars (x :: xs) := by
  rw [orderByChars]
  intro h
  cases h

theorem orderByChars_sep (cs : List OrderByClause) : ∀ c : OrderByClause,
    orderByChars (c :: cs) = (c.field ++ ' ' :: dirChars c.direction) ++ sepChars cs := by
  induction cs with
  | nil =>
    intro c
    rw [orderByChars_one, sepChars]
    simp
  | cons x xs ih =>
    intro c
    rw [orderByChars_cons2, ih x, sepChars]
    simp [List.append_assoc]

theorem parseSortDir_spec (d : Dir) (st : PState) (pad rest : List Char)
    (hrem : remaining st = pad ++ (dirChars d ++ rest))
    (hpad : ∀ c ∈ pad, isWsChar c = true)
    (hb : headNotB (fun c => !isBoundaryChar c) rest = true) :
    parseSortDir st = (d, stepped st (pad.length + (dirChars d).length)) := by
  cases d with
  | desc =>
    have h1 : consumeKeyword "desc".data st =
        (true, stepped st (pad.length + ("desc".data : List Char).length)) :=
      consumeKeyword_yes "desc".data st pad rest (by rw [hrem]; rfl) hpad rfl hb
    rw [parseSortDir, h1]
    dsimp only
    rw [if_pos rfl]
    rfl
  | asc =>
    have h0 : consumeKeyword "desc".data st = (false, stepped st pad.length) :=
      consumeKeyword_no "desc".data st pad ("asc".data ++ rest) (by rw [hrem]; rfl)
        hpad rfl
        (kwOkAt_false_head "desc".data ("asc".data ++ rest) 'a' (['s', 'c'] ++ rest)
          rfl (by decide) 'd' ['e', 's', 'c'] (by decide) (by decide))
    have hr1 : remaining (stepped st pad.length) = "asc".data ++ rest :=
      remaining_stepped_of st pad ("asc".data ++ rest) (by rw [hrem]; rfl)
    have h1 : consumeKeyword "asc".data (stepped st pad.length) =
        (true, stepped (stepped st pad.length) ("asc".data : List Char).length) :=
      consumeKeyword_yes0 "asc".data _ rest hr1 rfl hb
    rw [parseSortDir, h0]
    dsimp only
    rw [if_neg (show ¬(false = true) from Bool.false_ne_true)]
    rw [h1]
    dsimp only
    rw [if_pos rfl]
    rw [stepped_stepped]
    rfl

theorem wfSortField_parts (f : List Char) (h : wfSortField f = true) :
    f ≠ [] ∧ (∀ c ∈ f, isFieldChar c = true) := by
  rw [wfSortField] at h
  simp only [Bool.and_eq_true, Bool.not_eq_true'] at h
  obtain ⟨h1, h2⟩ := h
  refine ⟨?_, List.all_eq_true.mp h2⟩
  intro hnil
  subst hnil
  cases h1

theorem parseOrderByLoop_exit (f : Nat) (acc : List OrderByClause) (st : PState)
    (t : List Char) (hrem : remaining st = t) (htc : ¬ t.head? = some ',')
    (hf : 1 ≤ f) : parseOrderByLoop f acc st = .ok (acc, st) := by
  obtain ⟨f2, rfl⟩ : ∃ f2, f = f2 + 1 := ⟨f - 1, by omega⟩
  have htk : ¬ (remaining st).take ([','] : List Char).length = [','] := by
    rw [hrem]
    cases t with
    | nil =>
      intro h
      cases h
    | cons ch r =>
      intro h
      have hc : ch = ',' := List.head_eq_of_cons_eq h
      exact htc (by rw [hc]; rfl)
  rw [parseOrderByLoop, consumeLit_no [','] st htk]

theorem parseOrderByLoop_spec :
    ∀ (cs : List OrderByClause) (f : Nat) (acc : List OrderByClause) (st : PState)
      (pad2 t : List Char),
      wfSortList cs = true →
      remaining st = sepChars cs ++ (pad2 ++ t) →
      (∀ c ∈ pad2, isWsChar c = true) →
      headNotB isWsChar t = true →
      ¬ t.head? = some ',' →
      headNotB (fun c => !isBoundaryChar c) (pad2 ++ t) = true →
      (cs = [] → pad2 = []) →
      cs.length + 1 ≤ f →
      parseOrderByLoop f acc st =
        .ok (acc ++ cs, stepped st ((sepChars cs).length + pad2.length)) := by
  intro cs
  induction cs with
  | nil =>
    intro f acc st pad2 t hwf hrem hpad2 htw htc htb hnil hf
    have hpd : pad2 = [] := hnil rfl
    subst hpd
    have hrem2 : remaining st = t := by
      rw [hrem]
      rfl
    rw [parseOrderByLoop_exit f acc st t hrem2 htc (by omega)]
    simp [stepped, sepChars]
  | cons c cs' ih =>
    intro f acc st pad2 t hwf hrem hpad2 htw htc htb hnil hf
    have hw2 : (wfSortField c.field && wfSortList cs') = true := hwf
    rw [Bool.and_eq_true] at hw2
    obtain ⟨hwc1, hwcs⟩ := hw2
    obtain ⟨hfne, hfchars⟩ := wfSortField_parts c.field hwc1
    obtain ⟨f2, rfl⟩ : ∃ f2, f = f2 + 1 := ⟨f - 1, by omega⟩
    have hrem1 : remaining st = ',' :: (' ' :: (c.field ++ (' ' ::
        (dirChars c.direction ++ (sepChars cs' ++ (pad2 ++ t)))))) := by
      rw [hrem, sepChars]
      simp [List.append_assoc]
    have hconsume : consumeLit [','] st =
        (true, stepped st ([','] : List Char).length) :=
      consumeLit_yes [','] (' ' :: (c.field ++ (' ' ::
        (dirChars c.direction ++ (sepChars cs' ++ (pad2 ++ t)))))) st
        (by rw [hrem1]; rfl)
    have hr1 : remaining (stepped st ([','] : List Char).length) =
        ' ' :: (c.field ++ (' ' ::
        (dirChars c.direction ++ (sepChars cs' ++ (pad2 ++ t))))) := by
      rw [remaining_stepped, hrem1]
      rfl
    have hfhead : headNotB isWsChar (c.field ++ (' ' ::
        (dirChars c.direction ++ (sepChars cs' ++ (pad2 ++ t))))) = true := by
      cases hfc : c.field with
      | nil => exact absurd hfc hfne
      | cons c0 ftl =>
        apply headNotB_cons
        apply fieldChar_not_ws
        apply hfchars
        rw [hfc]
        exact List.mem_cons_self c0 ftl
    have hskip1 : skipWs (stepped st ([','] : List Char).length) =
        stepped (stepped st ([','] : List Char).length) ([' '] : List Char).length :=
      skipWs_pad _ [' '] _ (by rw [hr1]; rfl) (by decide) hfhead
    have hr2 : remaining (stepped (stepped st ([','] : List Char).length)
        ([' '] : List Char).length) = c.field ++ (' ' ::
        (dirChars c.direction ++ (sepChars cs' ++ (pad2 ++ t)))) := by
      rw [remaining_stepped, hr1]
      rfl
    have hfn := parseFieldName_spec (stepped (stepped st ([','] : List Char).length)
        ([' '] : List Char).length) [] c.field
      (' ' :: (dirChars c.direction ++ (sepChars cs' ++ (pad2 ++ t))))
      (by rw [hr2]; rfl) (by intro x hx; cases hx) hfchars hfne
      (headNotB_cons (by decide))
    simp only [List.length_nil, Nat.zero_add] at hfn
    have hr3 : remaining (stepped (stepped (stepped st ([','] : List Char).length)
        ([' '] : List Char).length) c.field.length) = ' ' ::
        (dirChars c.direction ++ (sepChars cs' ++ (pad2 ++ t))) := by
      rw [remaining_stepped, hr2, List.drop_left]
    have hdirhead : headNotB isWsChar
        (dirChars c.direction ++ (sepChars cs' ++ (pad2 ++ t))) = true := by
      cases c.direction with
      | asc => exact headNotB_cons (by decide)
      | desc => exact headNotB_cons (by decide)
    have hskip2 : skipWs (stepped (stepped (stepped st ([','] : List Char).length)
        ([' '] : List Char).length) c.field.length) =
        stepped (stepped (stepped (stepped st ([','] : List Char).length)
        ([' '] : List Char).length) c.field.length) ([' '] : List Char).length :=
      skipWs_pad _ [' '] _ (by rw [hr3]; rfl) (by decide) hdirhead
    have hr4 : remaining (stepped (stepped (stepped (stepped st
        ([','] : List Char).length) ([' '] : List Char).length) c.field.length)
        ([' '] : List Char).length) =
        dirChars c.direction ++ (sepChars cs' ++ (pad2 ++ t)) := by
      rw [remaining_stepped, hr3]
      rfl
    have hbnd : headNotB (fun x => !isBoundaryChar x)
        (sepChars cs' ++ (pad2 ++ t)) = true := by
      cases cs' with
      | nil => exact htb
      | cons x xs => exact headNotB_cons (by decide)
    have hsd := parseSortDir_spec c.direction _ [] (sepChars cs' ++ (pad2 ++ t))
      (by rw [hr4]; rfl) (by intro x hx; cases hx) hbnd
    simp only [List.length_nil, Nat.zero_add] at hsd
    have hr5 : remaining (stepped (stepped (stepped (stepped (stepped st
        ([','] : List Char).length) ([' '] : List Char).length) c.field.length)
        ([' '] : List Char).length) (dirChars c.direction).length) =
        sepChars cs' ++ (pad2 ++ t) := by
      rw [remaining_stepped, hr4, List.drop_left]
    have hlen : (sepChars (c :: cs')).length =
        c.field.length + (dirChars c.direction).length + (sepChars cs').length + 3 := by
      rw [sepChars]
      simp only [List.length_append, List.length_cons, List.length_nil]
      omega
    rw [parseOrderByLoop]
    rw [hconsume]
    dsimp only
    rw [hskip1]
    rw [hfn]
    dsimp only
    rw [hskip2]
    rw [hsd]
    dsimp only
    by_cases hcs : cs' = []
    · subst hcs
      have hskip3 : skipWs (stepped (stepped (stepped (stepped (stepped st
          ([','] : List Char).length) ([' '] : List Char).length) c.field.length)
          ([' '] : List Char).length) (dirChars c.direction).length) =
          stepped (stepped (stepped (stepped (stepped (stepped st
          ([','] : List Char).length) ([' '] : List Char).length) c.field.length)
          ([' '] : List Char).length) (dirChars c.direction).length) pad2.length :=
        skipWs_pad _ pad2 t (by rw [hr5]; rfl) hpad2 htw
      have hr6 : remaining (stepped (stepped (stepped (stepped (stepped (stepped st
          ([','] : List Char).length) ([' '] : List Char).length) c.field.length)
          ([' '] : List Char).length) (dirChars c.direction).length) pad2.length) =
          t := by
        rw [remaining_stepped, hr5]
        rw [show sepChars [] ++ (pad2 ++ t) = pad2 ++ t from rfl, List.drop_left]
      rw [hskip3]
      rw [parseOrderByLoop_exit f2 (acc ++ [OrderByClause.mk c.field c.direction]) _
        t hr6 htc (by simp only [List.length_cons] at hf; omega)]
      rw [show OrderByClause.mk c.field c.direction = c from rfl]
      rw [show (acc ++ [c], stepped (stepped (stepped (stepped (stepped (stepped st
          ([','] : List Char).length) ([' '] : List Char).length) c.field.length)
          ([' '] : List Char).length) (dirChars c.direction).length) pad2.length) =
        (acc ++ [c], stepped st ((sepChars [c]).length + pad2.length)) from by
          rw [Prod.mk.injEq]
          refine ⟨rfl, ?_⟩
          simp only [stepped]
          apply pstate_mk_congr
          rw [show (sepChars [c]).length =
            c.field.length + (dirChars c.direction).length + 3 from by
              rw [sepChars]
              rw [show sepChars ([] : List OrderByClause) = [] from rfl]
              simp only [List.length_append, List.length_cons, List.length_nil]
              omega]
          simp only [List.length_singleton]
          omega]
    · have hskip3 : skipWs (stepped (stepped (stepped (stepped (stepped st
          ([','] : List Char).length) ([' '] : List Char).length) c.field.length)
          ([' '] : List Char).length) (dirChars c.direction).length) =
          stepped (stepped (stepped (stepped (stepped (stepped st
          ([','] : List Char).length) ([' '] : List Char).length) c.field.length)
          ([' '] : List Char).length) (dirChars c.direction).length)
          ([] : List Char).length := by
        apply skipWs_pad _ [] _ (by rw [hr5]; rfl) (by intro x hx; cases hx)
        cases cs' with
        | nil => exact absurd rfl hcs
        | cons x xs => exact headNotB_cons (by decide)
      rw [hskip3]
      have hr7 : remaining (stepped (stepped (stepped (stepped (stepped (stepped st
          ([','] : List Char).length) ([' '] : List Char).length) c.field.length)
          ([' '] : List Char).length) (dirChars c.direction).length)
          ([] : List Char).length) = sepChars cs' ++ (pad2 ++ t) := by
        rw [remaining_stepped, hr5]
        rfl
      rw [ih f2 (acc ++ [OrderByClause.mk c.field c.direction]) _ pad2 t hwcs hr7
        hpad2 htw htc htb (fun h => absurd h hcs) (by
          simp only [List.length_cons] at hf
          omega)]
      rw [show OrderByClause.mk c.field c.direction = c from rfl]
      rw [show (acc ++ [c]) ++ cs' = acc ++ (c :: cs') from by simp]
      rw [show stepped (stepped (stepped (stepped (stepped (stepped (stepped st
          ([','] : List Char).length) ([' '] : List Char).length) c.field.length)
          ([' '] : List Char).length) (dirChars c.direction).length)
          ([] : List Char).length) ((sepChars cs').length + pad2.length) =
        stepped st ((sepChars (c :: cs')).length + pad2.length) from by
          simp only [stepped]
          apply pstate_mk_congr
          rw [hlen]
          simp
          omega]

theorem parseOrderBy_spec (f : Nat) (l : List OrderByClause) (st : PState)
    (padL pad2 t : List Char)
    (hl : l ≠ []) (hwf : wfSortList l = true)
    (hrem : remaining st = padL ++ (orderByChars l ++ (pad2 ++ t)))
    (hpadL : ∀ c ∈ padL, isWsChar c = true)
    (hpad2 : ∀ c ∈ pad2, isWsChar c = true)
    (htw : headNotB isWsChar t = true)
    (htc : ¬ t.head? = some ',')
    (htb : headNotB (fun c => !isBoundaryChar c) (pad2 ++ t) = true)
    (hf : l.length + 1 ≤ f) :
    parseOrderBy f st =
      .ok (l, stepped st (padL.length + ((orderByChars l).length + pad2.length))) := by
  cases l with
  | nil => exact absurd rfl hl
  | cons c cs' =>
    have hw2 : (wfSortField c.field && wfSortList cs') = true := hwf
    rw [Bool.and_eq_true] at hw2
    obtain ⟨hwc1, hwcs⟩ := hw2
    obtain ⟨hfne, hfchars⟩ := wfSortField_parts c.field hwc1
    have hrem1 : remaining st = padL ++ (c.field ++ (' ' ::
        (dirChars c.direction ++ (sepChars cs' ++ (pad2 ++ t))))) := by
      rw [hrem, orderByChars_sep]
      simp [List.append_assoc]
    have hfn := parseFieldName_spec st padL c.field
      (' ' :: (dirChars c.direction ++ (sepChars cs' ++ (pad2 ++ t))))
      hrem1 hpadL hfchars hfne (headNotB_cons (by decide))
    have h0 : remaining st = (padL ++ c.field) ++ (' ' ::
        (dirChars c.direction ++ (sepChars cs' ++ (pad2 ++ t)))) := by
      rw [hrem1]
      simp [List.append_assoc]
    have hr2 := remaining_stepped_of st (padL ++ c.field) _ h0
    rw [List.length_append] at hr2
    have hdirhead : headNotB isWsChar
        (dirChars c.direction ++ (sepChars cs' ++ (pad2 ++ t))) = true := by
      cases c.direction with
      | asc => exact headNotB_cons (by decide)
      | desc => exact headNotB_cons (by decide)
    have hskip1 : skipWs (stepped st (padL.length + c.field.length)) =
        stepped (stepped st (padL.length + c.field.length))
          ([' '] : List Char).length :=
      skipWs_pad _ [' '] _ (by rw [hr2]; rfl) (by decide) hdirhead
    have hr3 : remaining (stepped (stepped st (padL.length + c.field.length))
        ([' '] : List Char).length) =
        dirChars c.direction ++ (sepChars cs' ++ (pad2 ++ t)) := by
      rw [remaining_stepped, hr2]
      rfl
    have hbnd : headNotB (fun x => !isBoundaryChar x)
        (sepChars cs' ++ (pad2 ++ t)) = true := by
      cases cs' with
      | nil => exact htb
      | cons x xs => exact headNotB_cons (by decide)
    have hsd := parseSortDir_spec c.direction _ [] (sepChars cs' ++ (pad2 ++ t))
      (by rw [hr3]; rfl) (by intro x hx; cases hx) hbnd
    simp only [List.length_nil, Nat.zero_add] at hsd
    have hr4 : remaining (stepped (stepped (stepped st
        (padL.length + c.field.length)) ([' '] : List Char).length)
        (dirChars c.direction).length) = sepChars cs' ++ (pad2 ++ t) := by
      rw [remaining_stepped, hr3, List.drop_left]
    rw [parseOrderBy]
    rw [hfn]
    dsimp only
    rw [hskip1]
    rw [hsd]
    dsimp only
    by_cases hcs : cs' = []
    · subst hcs
      have hskip2 : skipWs (stepped (stepped (stepped st
          (padL.length + c.field.length)) ([' '] : List Char).length)
          (dirChars c.direction).length) =
          stepped (stepped (stepped (stepped st
          (padL.length + c.field.length)) ([' '] : List Char).length)
          (dirChars c.direction).length) pad2.length :=
        skipWs_pad _ pad2 t (by rw [hr4]; rfl) hpad2 htw
      have hr5 : remaining (stepped (stepped (stepped (stepped st
          (padL.length + c.field.length)) ([' '] : List Char).length)
          (dirChars c.direction).length) pad2.length) = t := by
        rw [remaining_stepped, hr4]
        rw [show sepChars [] ++ (pad2 ++ t) = pad2 ++ t from rfl, List.drop_left]
      rw [hskip2]
      rw [parseOrderByLoop_exit f [OrderByClause.mk c.field c.direction] _ t hr5 htc
        (by omega)]
      rw [show OrderByClause.mk c.field c.direction = c from rfl]
      rw [show ([c], stepped (stepped (stepped (stepped st
          (padL.length + c.field.length)) ([' '] : List Char).length)
          (dirChars c.direction).length) pad2.length) =
        ([c], stepped st (padL.length + ((orderByChars [c]).length + pad2.length)))
        from by
          rw [Prod.mk.injEq]
          refine ⟨rfl, ?_⟩
          simp only [stepped]
          apply pstate_mk_congr
          rw [show (orderByChars [c]).length =
            c.field.length + (dirChars c.direction).length + 1 from by
              rw [orderByChars_one]
              simp only [List.length_append, List.length_cons]
              omega]
          simp only [List.length_singleton]
          omega]
    · have hskip2 : skipWs (stepped (stepped (stepped st
          (padL.length + c.field.length)) ([' '] : List Char).length)
          (dirChars c.direction).length) =
          stepped (stepped (stepped (stepped st
          (padL.length + c.field.length)) ([' '] : List Char).length)
          (dirChars c.direction).length) ([] : List Char).length := by
        apply skipWs_pad _ [] _ (by rw [hr4]; rfl) (by intro x hx; cases hx)
        cases cs' with
        | nil => exact absurd rfl hcs
        | cons x xs => exact headNotB_cons (by decide)
      have hr5 : remaining (stepped (stepped (stepped (stepped st
          (padL.length + c.field.length)) ([' '] : List Char).length)
          (dirChars c.direction).length) ([] : List Char).length) =
          sepChars cs' ++ (pad2 ++ t) := by
        rw [remaining_stepped, hr4]
        rfl
      rw [hskip2]
      rw [parseOrderByLoop_spec cs' f [OrderByClause.mk c.field c.direction] _ pad2 t
        hwcs hr5 hpad2 htw htc htb (fun h => absurd h hcs)
        (by simp only [List.length_cons] at hf; omega)]
      rw [show OrderByClause.mk c.field c.direction = c from rfl]
      rw [show [c] ++ cs' = c :: cs' from rfl]
      rw [show stepped (stepped (stepped (stepped (stepped st
          (padL.length + c.field.length)) ([' '] : List Char).length)
          (dirChars c.direction).length) ([] : List Char).length)
          ((sepChars cs').length + pad2.length) =
        stepped st (padL.length + ((orderByChars (c :: cs')).length + pad2.length))
        from by
          simp only [stepped]
          apply pstate_mk_congr
          rw [show (orderByChars (c :: cs')).length =
            c.field.length + (dirChars c.direction).length + (sepChars cs').length + 1
            from by
              rw [orderByChars_sep]
              simp only [List.length_append, List.length_cons]
              omega]
          simp only [List.length_singleton, List.length_nil]
          omega]

theorem whereStage_none (fuel : Nat) (st0 : PState)
    (h : hasWhereClause st0 = false) : whereStage fuel st0 = .ok (none, st0) := by
  rw [whereStage, if_neg (by rw [h]; exact Bool.false_ne_true)]

theorem whereStage_some (fuel : Nat) (e : Expr) (st0 : PState) (pad2 t : List Char)
    (hwc : hasWhereClause st0 = true)
    (hwf : wfExpr e = true)
    (hrem : remaining st0 = expressionToString e ++ (pad2 ++ t))
    (hpad2 : ∀ c ∈ pad2, isWsChar c = true)
    (hexit : orExit t) (hps : predStop (pad2 ++ t))
    (hf : (expressionToString e).length + 1 ≤ fuel) :
    ∃ d, whereStage fuel st0 = .ok (some e,
      ⟨st0.input, st0.pos + ((expressionToString e).length + pad2.length), d⟩) := by
  obtain ⟨d, hor⟩ := parseOr_top fuel e st0 pad2 t hwf hrem hpad2 hexit hps hf
  refine ⟨d, ?_⟩
  rw [whereStage, if_pos hwc, hor]

theorem orderStage_none (f : Nat) (st : PState) (pad t : List Char)
    (hrem : remaining st = pad ++ t)
    (hpad : ∀ c ∈ pad, isWsChar c = true)
    (htw : headNotB isWsChar t = true)
    (hno : kwOkAt "order".data t = false) :
    orderStage f st = .ok (none, stepped st pad.length) := by
  rw [orderStage, consumeKeyword_no "order".data st pad t hrem hpad htw hno]

theorem orderStage_some (f : Nat) (l : List OrderByClause) (st : PState)
    (pad pad2 t : List Char)
    (hl : l ≠ []) (hwf : wfSortList l = true)
    (hrem : remaining st = pad ++ ("order by ".data ++ (orderByChars l ++ (pad2 ++ t))))
    (hpad : ∀ c ∈ pad, isWsChar c = true)
    (hpad2 : ∀ c ∈ pad2, isWsChar c = true)
    (htw : headNotB isWsChar t = true)
    (htc : ¬ t.head? = some ',')
    (htb : headNotB (fun c => !isBoundaryChar c) (pad2 ++ t) = true)
    (hf : l.length + 1 ≤ f) :
    orderStage f st = .ok (some l,
      stepped st (pad.length + (9 + ((orderByChars l).length + pad2.length)))) := by
  have hsplit : ("order by ".data : List Char) =
      "order".data ++ (' ' :: ("by".data ++ [' '])) := rfl
  have hrem1 : remaining st = pad ++ ("order".data ++
      (' ' :: ("by".data ++ (' ' :: (orderByChars l ++ (pad2 ++ t)))))) := by
    rw [hrem, hsplit]
    simp [List.append_assoc]
  have hck1 : consumeKeyword "order".data st =
      (true, stepped st (pad.length + ("order".data : List Char).length)) :=
    consumeKeyword_yes "order".data st pad
      (' ' :: ("by".data ++ (' ' :: (orderByChars l ++ (pad2 ++ t)))))
      hrem1 hpad rfl rfl
  have h0 : remaining st = (pad ++ "order".data) ++
      (' ' :: ("by".data ++ (' ' :: (orderByChars l ++ (pad2 ++ t))))) := by
    rw [hrem1]
    simp [List.append_assoc]
  have hr1 := remaining_stepped_of st (pad ++ "order".data) _ h0
  rw [List.length_append] at hr1
  have hck2 : consumeKeyword "by".data
      (stepped st (pad.length + ("order".data : List Char).length)) =
      (true, stepped (stepped st (pad.length + ("order".data : List Char).length))
        (([' '] : List Char).length + ("by".data : List Char).length)) :=
    consumeKeyword_yes "by".data _ [' ']
      (' ' :: (orderByChars l ++ (pad2 ++ t))) (by rw [hr1]; rfl) (by decide) rfl rfl
  have hr2 : remaining (stepped (stepped st
      (pad.length + ("order".data : List Char).length))
      (([' '] : List Char).length + ("by".data : List Char).length)) =
      ' ' :: (orderByChars l ++ (pad2 ++ t)) := by
    rw [remaining_stepped, hr1]
    rfl
  have hob := parseOrderBy_spec f l _ [' '] pad2 t hl hwf (by rw [hr2]; rfl)
    (by decide) hpad2 htw htc htb hf
  rw [orderStage, hck1]
  dsimp only
  rw [expectKeyword, hck2]
  dsimp only
  rw [hob]
  rw [show stepped (stepped (stepped st
      (pad.length + ("order".data : List Char).length))
      (([' '] : List Char).length + ("by".data : List Char).length))
      (([' '] : List Char).length + ((orderByChars l).length + pad2.length)) =
    stepped st (pad.length + (9 + ((orderByChars l).length + pad2.length))) from by
      simp only [stepped]
      apply pstate_mk_congr
      rw [show (("order".data : List Char)).length = 5 from rfl]
      simp only [List.length_singleton]
      rw [show (("by".data : List Char)).length = 2 from rfl]
      omega]

theorem limitStage_none (st : PState) (pad t : List Char)
    (hrem : remaining st = pad ++ t)
    (hpad : ∀ c ∈ pad, isWsChar c = true)
    (htw : headNotB isWsChar t = true)
    (hno : kwOkAt "limit".data t = false) :
    limitStage st = .ok (none, stepped st pad.length) := by
  rw [limitStage, consumeKeyword_no "limit".data st pad t hrem hpad htw hno]

theorem limitStage_some (st : PState) (pad rest : List Char) (n : Nat)
    (hrem : remaining st = pad ++ ("limit ".data ++ (natDecimal n ++ rest)))
    (hpad : ∀ c ∈ pad, isWsChar c = true)
    (hrest : headNotB isNumTokChar rest = true)
    (hn : 1 ≤ n ∧ n ≤ 500) :
    limitStage st = .ok (some (n : ℚ),
      stepped st (pad.length + (6 + (natDecimal n).length))) := by
  have hrem1 : remaining st = pad ++ ("limit".data ++
      (' ' :: (natDecimal n ++ rest))) := by
    rw [hrem, show ("limit ".data : List Char) = "limit".data ++ [' '] from rfl]
    simp [List.append_assoc]
  have hck1 : consumeKeyword "limit".data st =
      (true, stepped st (pad.length + ("limit".data : List Char).length)) :=
    consumeKeyword_yes "limit".data st pad (' ' :: (natDecimal n ++ rest))
      hrem1 hpad rfl rfl
  have h0 : remaining st = (pad ++ "limit".data) ++ (' ' :: (natDecimal n ++ rest)) := by
    rw [hrem1]
    simp [List.append_assoc]
  have hr1 := remaining_stepped_of st (pad ++ "limit".data) _ h0
  rw [List.length_append] at hr1
  have hpl := parseLimit_natDecimal
    (stepped st (pad.length + ("limit".data : List Char).length)) n [' '] rest
    (by rw [hr1]; rfl) (by decide) hrest
  rw [if_pos hn] at hpl
  rw [limitStage, hck1]
  dsimp only
  rw [hpl]
  rw [show stepped (stepped st (pad.length + ("limit".data : List Char).length))
      (([' '] : List Char).length + (natDecimal n).length) =
    stepped st (pad.length + (6 + (natDecimal n).length)) from by
      simp only [stepped]
      apply pstate_mk_congr
      rw [show (("limit".data : List Char)).length = 5 from rfl]
      simp only [List.length_singleton]
      omega]

theorem offsetStage_none (st : PState) (pad t : List Char)
    (hrem : remaining st = pad ++ t)
    (hpad : ∀ c ∈ pad, isWsChar c = true)
    (htw : headNotB isWsChar t = true)
    (hno : kwOkAt "offset".data t = false) :
    offsetStage st = .ok (none, stepped st pad.length) := by
  rw [offsetStage, consumeKeyword_no "offset".data st pad t hrem hpad htw hno]

theorem offsetStage_some (st : PState) (pad rest : List Char) (n : Nat)
    (hrem : remaining st = pad ++ ("offset ".data ++ (natDecimal n ++ rest)))
    (hpad : ∀ c ∈ pad, isWsChar c = true)
    (hrest : headNotB isNumTokChar rest = true)
    (hn : n ≤ 10000) :
    offsetStage st = .ok (some (n : ℚ),
      stepped st (pad.length + (7 + (natDecimal n).length))) := by
  have hrem1 : remaining st = pad ++ ("offset".data ++
      (' ' :: (natDecimal n ++ rest))) := by
    rw [hrem, show ("offset ".data : List Char) = "offset".data ++ [' '] from rfl]
    simp [List.append_assoc]
  have hck1 : consumeKeyword "offset".data st =
      (true, stepped st (pad.length + ("offset".data : List Char).length)) :=
    consumeKeyword_yes "offset".data st pad (' ' :: (natDecimal n ++ rest))
      hrem1 hpad rfl rfl
  have h0 : remaining st = (pad ++ "offset".data) ++
      (' ' :: (natDecimal n ++ rest)) := by
    rw [hrem1]
    simp [List.append_assoc]
  have hr1 := remaining_stepped_of st (pad ++ "offset".data) _ h0
  rw [List.length_append] at hr1
  have hpo := parseOffset_natDecimal
    (stepped st (pad.length + ("offset".data : List Char).length)) n [' '] rest
    (by rw [hr1]; rfl) (by decide) hrest
  rw [if_pos hn] at hpo
  rw [offsetStage, hck1]
  dsimp only
  rw [hpo]
  rw [show stepped (stepped st (pad.length + ("offset".data : List Char).length))
      (([' '] : List Char).length + (natDecimal n).length) =
    stepped st (pad.length + (7 + (natDecimal n).length)) from by
      simp only [stepped]
      apply pstate_mk_congr
      rw [show (("offset".data : List Char)).length = 6 from rfl]
      simp only [List.length_singleton]
      omega]

theorem trailingCheck_end {α : Type} (a : α) (st : PState)
    (h : remaining st = []) : trailingCheck a st = .ok (some a) := by
  have hlen : st.input.length ≤ st.pos := by
    rw [remaining] at h
    exact List.drop_eq_nil_iff.mp h
  have hsw : skipWs st = (⟨st.input, st.pos + 0, st.diags⟩ : PState) := by
    rw [skipWs, h]
    rfl
  rw [trailingCheck]
  rw [hsw]
  dsimp only
  rw [if_neg (by omega)]

theorem lowerStarts_false_head (t : List Char) (c : Char) (r : List Char)
    (ht : t = c :: r) (kw : List Char) (d : Char) (tr : List Char)
    (hkw : kw = d :: tr) (hne : ¬ asciiLower c = d) : lowerStarts t kw = false := by
  subst ht
  subst hkw
  rw [lowerStarts]
  apply beq_eq_false_iff_ne.mpr
  intro h
  exact hne (List.head_eq_of_cons_eq h)

theorem lowerStarts_pad_false (fld tl kw : List Char)
    (hlow : lowerStarts fld kw = false)
    (hsp : ∀ i, i < kw.length → ¬ kw[i]? = some ' ') :
    lowerStarts (fld ++ ' ' :: tl) kw = false := by
  rw [lowerStarts] at hlow ⊢
  apply beq_eq_false_iff_ne.mpr
  intro h
  by_cases hlen : kw.length ≤ fld.length
  · rw [List.map_append, List.take_append_of_le_length (by simpa using hlen)] at h
    rw [h] at hlow
    simp at hlow
  · have hi : fld.length < kw.length := by omega
    have h2 : (((fld ++ ' ' :: tl).map asciiLower).take kw.length)[fld.length]? =
        kw[fld.length]? := by rw [h]
    rw [List.getElem?_take_of_lt hi] at h2
    rw [List.getElem?_map] at h2
    rw [List.getElem?_append_right (by simp)] at h2
    rw [show fld.length - fld.length = 0 from by omega] at h2
    rw [List.getElem?_cons_zero] at h2
    exact hsp fld.length hi h2.symm

theorem exprStr_pred_shape (fld : List Char) (op : Op) (v : JSValue)
    (hstrip : stripRDot fld = fld) :
    ∃ X, expressionToString (.pred fld op v) = fld ++ ' ' :: X := by
  rw [expressionToString, hstrip]
  by_cases hOp : op = .opIsEmpty ∨ op = .opIsNotEmpty
  · rw [if_pos hOp]
    exact ⟨opChars op, rfl⟩
  · rw [if_neg hOp]
    exact ⟨opChars op ++ ' ' :: formatValue v, rfl⟩

theorem wfWhere_parts (e : Expr) (h : wfWhere (some e) = true) :
    wfExpr e = true ∧ (∀ fld op v, e = .pred fld op v →
      lowerStarts fld "order".data = false ∧ lowerStarts fld "limit".data = false ∧
      lowerStarts fld "offset".data = false) := by
  constructor
  · cases e with
    | pred fld op v =>
      have h2 : (wfExpr (.pred fld op v) && (!lowerStarts fld "order".data &&
          !lowerStarts fld "limit".data && !lowerStarts fld "offset".data)) = true := h
      rw [Bool.and_eq_true] at h2
      exact h2.1
    | eand l r =>
      have h2 : (wfExpr (.eand l r) && true) = true := h
      rw [Bool.and_eq_true] at h2
      exact h2.1
    | eor l r =>
      have h2 : (wfExpr (.eor l r) && true) = true := h
      rw [Bool.and_eq_true] at h2
      exact h2.1
    | enot e2 =>
      have h2 : (wfExpr (.enot e2) && true) = true := h
      rw [Bool.and_eq_true] at h2
      exact h2.1
    | efunc n a =>
      have h2 : (wfExpr (.efunc n a) && true) = true := h
      rw [Bool.and_eq_true] at h2
      exact h2.1
  · intro fld op v he
    subst he
    have h2 : (wfExpr (.pred fld op v) && (!lowerStarts fld "order".data &&
        !lowerStarts fld "limit".data && !lowerStarts fld "offset".data)) = true := h
    rw [Bool.and_eq_true] at h2
    have h3 := h2.2
    simp only [Bool.and_eq_true, Bool.not_eq_true'] at h3
    exact ⟨h3.1.1, h3.1.2, h3.2⟩

theorem wfOrderBy_parts (l : List OrderByClause) (h : wfOrderBy (some l) = true) :
    l ≠ [] ∧ wfSortList l = true := by
  rw [wfOrderBy] at h
  simp only [Bool.and_eq_true, Bool.not_eq_true'] at h
  refine ⟨?_, h.2⟩
  intro hnil
  subst hnil
  cases h.1

theorem wfLimit_parts (q : ℚ) (h : wfLimit (some q) = true) :
    q.den = 1 ∧ 1 ≤ q.num ∧ q.num ≤ 500 := by
  rw [wfLimit] at h
  simp only [Bool.and_eq_true, beq_iff_eq, decide_eq_true_eq] at h
  exact ⟨h.1.1, h.1.2, h.2⟩

theorem wfOffset_parts (q : ℚ) (h : wfOffset (some q) = true) :
    q.den = 1 ∧ 0 ≤ q.num ∧ q.num ≤ 10000 := by
  rw [wfOffset] at h
  simp only [Bool.and_eq_true, beq_iff_eq, decide_eq_true_eq] at h
  exact ⟨h.1.1, h.1.2, h.2⟩

theorem qToChars_natAbs (q : ℚ) (hden : q.den = 1) (hpos : 0 ≤ q.num) :
    qToChars q = natDecimal q.num.natAbs := by
  rw [qToChars_int q hden, intDecimal, if_neg (by omega)]

theorem cast_natAbs_q (q : ℚ) (hden : q.den = 1) (hpos : 0 ≤ q.num) :
    ((q.num.natAbs : ℕ) : ℚ) = q := by
  have h1 : ((q.num.natAbs : ℕ) : ℚ) = ((q.num.natAbs : ℤ) : ℚ) :=
    (Int.cast_natCast _).symm
  rw [h1, Int.natAbs_of_nonneg hpos]
  rw [← Rat.num_div_den q, hden]
  simp

theorem hasWhereClause_true_ser (e : Expr) (rest : List Char)
    (hwf : wfWhere (some e) = true) :
    hasWhereClause ⟨expressionToString e ++ rest, 0, []⟩ = true := by
  obtain ⟨hwe, hpredfacts⟩ := wfWhere_parts e hwf
  obtain ⟨c, r, hser, hcw, hpred⟩ := exprStr_head_facts e hwe
  apply hasWhereClause_true_of
  · rw [hser, List.cons_append]
    exact wsCount_cons_of_not hcw
  · rw [hser, List.cons_append]
    intro h
    cases h
  all_goals (
    by_cases hc : c = '('
    · subst hc
      exact lowerStarts_false_head _ '(' (r ++ rest) (by rw [hser]; rfl) _ _ _
        rfl (by decide)
    · obtain ⟨fld, op, v, he⟩ := hpred hc
      subst he
      have hw2 : (wfField fld && wfPredVal op v) = true := hwe
      rw [Bool.and_eq_true] at hw2
      obtain ⟨_, hfchars, hstrip⟩ := wfField_parts fld hw2.1
      obtain ⟨X, hX⟩ := exprStr_pred_shape fld op v hstrip
      obtain ⟨hl1, hl2, hl3⟩ := hpredfacts fld op v rfl
      rw [show expressionToString (.pred fld op v) ++ rest =
        fld ++ ' ' :: (X ++ rest) from by rw [hX]; simp [List.append_assoc]]
      first
      | exact lowerStarts_pad_false fld (X ++ rest) "order".data hl1 (by decide)
      | exact lowerStarts_pad_false fld (X ++ rest) "limit".data hl2 (by decide)
      | exact lowerStarts_pad_false fld (X ++ rest) "offset".data hl3 (by decide))

theorem opChars_concat (op : Op) : ∃ x c, opChars op = x ++ [c] ∧
    isWsChar c = false := by
  cases op with
  | eq => exact ⟨[], '=', by decide, by decide⟩
  | ne => exact ⟨['!'], '=', by decide, by decide⟩
  | gt => exact ⟨[], '>', by decide, by decide⟩
  | lt => exact ⟨[], '<', by decide, by decide⟩
  | ge => exact ⟨['>'], '=', by decide, by decide⟩
  | le => exact ⟨['<'], '=', by decide, by decide⟩
  | opIn => exact ⟨['i'], 'n', by decide, by decide⟩
  | opNotIn => exact ⟨"not i".data, 'n', by decide, by decide⟩
  | like => exact ⟨"lik".data, 'e', by decide, by decide⟩
  | notLike => exact ⟨"not lik".data, 'e', by decide, by decide⟩
  | opIsEmpty => exact ⟨"is empt".data, 'y', by decide, by decide⟩
  | opIsNotEmpty => exact ⟨"is not empt".data, 'y', by decide, by decide⟩

theorem intDecimal_ne_nil (i : Int) : intDecimal i ≠ [] := by
  rw [intDecimal]
  by_cases hs : i < 0
  · rw [if_pos hs]
    intro h
    cases h
  · rw [if_neg hs]
    exact natDecimal_ne_nil _

theorem intDecimal_all_not_ws (i : Int) : ∀ c ∈ intDecimal i, isWsChar c = false := by
  intro c hc
  rw [intDecimal] at hc
  by_cases hs : i < 0
  · rw [if_pos hs] at hc
    rcases List.mem_cons.mp hc with h | h
    · rw [h]
      decide
    · exact digit_not_ws c (natDecimal_all_digits _ c h)
  · rw [if_neg hs] at hc
    exact digit_not_ws c (natDecimal_all_digits _ c hc)

theorem intDecimal_concat (i : Int) : ∃ x c, intDecimal i = x ++ [c] ∧
    isWsChar c = false := by
  have hne := intDecimal_ne_nil i
  exact ⟨(intDecimal i).dropLast, (intDecimal i).getLast hne,
    (List.dropLast_append_getLast hne).symm,
    intDecimal_all_not_ws i _ (List.getLast_mem hne)⟩

theorem formatValue_concat (v : JSValue) (h : wfValue v = true) :
    ∃ x c, formatValue v = x ++ [c] ∧ isWsChar c = false := by
  cases v with
  | vnull =>
    have h2 : (false : Bool) = true := h
    cases h2
  | vstr s =>
    refine ⟨'"' :: escapeValue s, '"', ?_, by decide⟩
    rw [formatValue]
    simp
  | vnum q =>
    have hden : q.den = 1 := by
      have h2 : (q.den == 1) = true := h
      exact beq_iff_eq.mp h2
    obtain ⟨x, c, hic, hcw⟩ := intDecimal_concat q.num
    refine ⟨x, c, ?_, hcw⟩
    rw [formatValue, qToChars_int q hden, hic]
  | varr items =>
    refine ⟨'(' :: formatValueList items, ')', ?_, by decide⟩
    rw [formatValue]
    simp
  | vfunc name args =>
    match args with
    | none =>
      refine ⟨name ++ ['('], ')', ?_, by decide⟩
      rw [formatValue, funcCallChars_none]
      simp [List.append_assoc]
    | some [] =>
      refine ⟨name ++ ['('], ')', ?_, by decide⟩
      rw [formatValue, funcCallChars_some_nil]
      simp [List.append_assoc]
    | some (a :: rest) =>
      refine ⟨name ++ '(' :: argListChars (a :: rest), ')', ?_, by decide⟩
      rw [formatValue, funcCallChars_some_cons]
      simp [List.append_assoc]

theorem exprStr_concat (e : Expr) (h : wfExpr e = true) :
    ∃ x c, expressionToString e = x ++ [c] ∧ isWsChar c = false := by
  cases e with
  | pred fld op v =>
    have hw2 : (wfField fld && wfPredVal op v) = true := h
    rw [Bool.and_eq_true] at hw2
    obtain ⟨hfield, hval⟩ := hw2
    obtain ⟨_, _, hstrip⟩ := wfField_parts fld hfield
    by_cases hOp : op = .opIsEmpty ∨ op = .opIsNotEmpty
    · obtain ⟨x, c, hoc, hcw⟩ := opChars_concat op
      refine ⟨fld ++ ' ' :: x, c, ?_, hcw⟩
      rw [expressionToString, if_pos hOp, hstrip, hoc]
      simp [List.append_assoc]
    · rw [wfPredVal, if_neg hOp] at hval
      obtain ⟨x, c, hfv, hcw⟩ := formatValue_concat v hval
      refine ⟨fld ++ ' ' :: (opChars op ++ ' ' :: x), c, ?_, hcw⟩
      rw [expressionToString, if_neg hOp, hstrip, hfv]
      simp [List.append_assoc]
  | eand l r =>
    refine ⟨'(' :: serInner (.eand l r), ')', ?_, by decide⟩
    rw [exprStr_eand]
    simp
  | eor l r =>
    refine ⟨'(' :: serInner (.eor l r), ')', ?_, by decide⟩
    rw [exprStr_eor]
    simp
  | enot e2 =>
    have h2 : (false : Bool) = true := h
    cases h2
  | efunc n a =>
    have h2 : (false : Bool) = true := h
    cases h2

theorem rev_headNotB_concat (p : Char → Bool) (x : List Char) (c : Char)
    (hc : p c = false) : headNotB p ((x ++ [c]).reverse) = true := by
  rw [List.reverse_append]
  exact headNotB_cons hc

theorem joinSpace_one (p : List Char) : joinSpace [p] = p := by
  rw [joinSpace]

theorem joinSpace_cons2 (p q : List Char) (rest : List (List Char)) :
    joinSpace (p :: q :: rest) = p ++ ' ' :: joinSpace (q :: rest) := by
  rw [joinSpace]
  intro h
  cases h

theorem remaining_stepped_len (st : PState) (a rest : List Char) (k : Nat)
    (hrem : remaining st = a ++ rest) (hk : k = a.length) :
    remaining (stepped st k) = rest := by
  rw [stepped_congr st hk]
  exact remaining_stepped_of st a rest hrem

theorem sepChars_length_ge (cs : List OrderByClause) :
    cs.length ≤ (sepChars cs).length := by
  induction cs with
  | nil => simp [sepChars]
  | cons c t ih =>
    rw [sepChars]
    simp only [List.length_append, List.length_cons]
    omega

theorem orderByChars_length_ge (c : OrderByClause) (cs : List OrderByClause) :
    (c :: cs).length ≤ (orderByChars (c :: cs)).length := by
  rw [orderByChars_sep]
  have := sepChars_length_ge cs
  simp only [List.length_append, List.length_cons]
  omega

theorem limOff_order_false (lim off : Option ℚ) :
    kwOkAt "order".data (limOffText false lim off) = false := by
  cases lim <;> cases off <;> rfl

theorem limOff_head_ws (lim off : Option ℚ) :
    headNotB isWsChar (limOffText false lim off) = true := by
  cases lim <;> cases off <;> rfl

theorem offText_head_ws (off : Option ℚ) :
    headNotB isWsChar (offText false off) = true := by
  cases off <;> rfl

theorem offText_limit_false (off : Option ℚ) :
    kwOkAt "limit".data (offText false off) = false := by
  cases off <;> rfl

theorem tailText_true_eq (ob : Option (List OrderByClause)) (lim off : Option ℚ) :
    tailText true ob lim off =
      (if ob.isSome || lim.isSome || off.isSome then [' '] else ([] : List Char)) ++
        tailText false ob lim off := by
  cases ob <;> cases lim <;> cases off <;> rfl

theorem tail_side_facts (ob : Option (List OrderByClause)) (lim off : Option ℚ) :
    orExit (tailText false ob lim off) ∧
    predStop ((if ob.isSome || lim.isSome || off.isSome then [' ']
      else ([] : List Char)) ++ tailText false ob lim off) ∧
    (∀ c ∈ (if ob.isSome || lim.isSome || off.isSome then [' ']
      else ([] : List Char)), isWsChar c = true) := by
  cases ob <;> cases lim <;> cases off <;>
    refine ⟨⟨rfl, rfl, rfl⟩, ⟨rfl, rfl⟩, ?_⟩ <;>
    first
      | exact fun c hc => absurd hc (List.not_mem_nil c)
      | (intro c hc
         have hc2 : c ∈ ([' '] : List Char) := hc
         rw [List.eq_of_mem_singleton hc2]
         rfl)

theorem offStage_tail (off : Option ℚ) (pp : Bool) (S : PState)
    (hO : wfOffset off = true)
    (hrem : remaining S = offText pp off) :
    ∃ S4, offsetStage S = .ok (off, S4) ∧ remaining S4 = [] := by
  cases off with
  | none =>
    refine ⟨stepped S ([] : List Char).length, ?_, ?_⟩
    · exact offsetStage_none S [] [] (by rw [hrem]; rfl) (by intro c hc; cases hc)
        rfl rfl
    · rw [remaining_stepped, hrem]
      rfl
  | some q =>
    obtain ⟨hden, hq0, hqM⟩ := wfOffset_parts q hO
    have hqc : qToChars q = natDecimal q.num.natAbs := qToChars_natAbs q hden hq0
    cases pp with
    | false =>
      have hrem2 : remaining S = [] ++ ("offset ".data ++
          (natDecimal q.num.natAbs ++ [])) := by
        rw [hrem, show offText false (some q) = [] ++ ("offset ".data ++ qToChars q)
          from rfl, hqc]
        simp
      have hsome := offsetStage_some S [] [] q.num.natAbs hrem2
        (by intro c hc; cases hc) rfl (by omega)
      rw [cast_natAbs_q q hden hq0] at hsome
      refine ⟨_, hsome, ?_⟩
      rw [remaining_stepped, hrem2, List.drop_eq_nil_iff]
      simp only [List.length_append, List.length_nil, List.append_nil]
      rw [show ("offset ".data : List Char).length = 7 from rfl]
    | true =>
      have hrem2 : remaining S = [' '] ++ ("offset ".data ++
          (natDecimal q.num.natAbs ++ [])) := by
        rw [hrem, show offText true (some q) = [' '] ++ ("offset ".data ++ qToChars q)
          from rfl, hqc]
        simp
      have hsome := offsetStage_some S [' '] [] q.num.natAbs hrem2
        (by decide) rfl (by omega)
      rw [cast_natAbs_q q hden hq0] at hsome
      refine ⟨_, hsome, ?_⟩
      rw [remaining_stepped, hrem2, List.drop_eq_nil_iff]
      simp only [List.length_append, List.length_nil, List.length_singleton,
        List.append_nil]
      rw [show ("offset ".data : List Char).length = 7 from rfl]

theorem limStage_tail (lim off : Option ℚ) (S : PState)
    (hL : wfLimit lim = true) (hO : wfOffset off = true)
    (hrem : remaining S = limOffText false lim off) :
    ∃ S3, limitStage S = .ok (lim, S3) ∧ remaining S3 = offText lim.isSome off := by
  cases lim with
  | none =>
    refine ⟨stepped S ([] : List Char).length, ?_, ?_⟩
    · exact limitStage_none S [] (offText false off) (by rw [hrem]; rfl)
        (by intro c hc; cases hc) (offText_head_ws off) (offText_limit_false off)
    · rw [remaining_stepped, hrem]
      rfl
  | some q =>
    obtain ⟨hden, hq1, hqM⟩ := wfLimit_parts q hL
    have hqc : qToChars q = natDecimal q.num.natAbs := qToChars_natAbs q hden (by omega)
    have hrem2 : remaining S = [] ++ ("limit ".data ++
        (natDecimal q.num.natAbs ++ offText true off)) := by
      rw [hrem, show limOffText false (some q) off =
        ([] ++ ("limit ".data ++ qToChars q)) ++ offText true off from rfl, hqc]
      simp [List.append_assoc]
    have hrest : headNotB isNumTokChar (offText true off) = true := by
      cases off <;> rfl
    have hsome := limitStage_some S [] (offText true off) q.num.natAbs hrem2
      (by intro c hc; cases hc) hrest (by omega)
    rw [cast_natAbs_q q hden (by omega)] at hsome
    refine ⟨_, hsome, ?_⟩
    apply remaining_stepped_len S ("limit ".data ++ natDecimal q.num.natAbs)
      (offText true off) _ (by rw [hrem2]; simp [List.append_assoc])
      (by
        simp only [List.length_append, List.length_nil]
        rw [show ("limit ".data : List Char).length = 6 from rfl]
        omega)

theorem ordStage_tail (f : Nat) (ob : Option (List OrderByClause)) (lim off : Option ℚ)
    (S : PState) (hOB : wfOrderBy ob = true)
    (hrem : remaining S = tailText false ob lim off)
    (hf : ∀ l, ob = some l → l.length + 1 ≤ f) :
    ∃ S2, orderStage f S = .ok (ob, S2) ∧
      remaining S2 = limOffText false lim off := by
  cases ob with
  | none =>
    refine ⟨stepped S ([] : List Char).length, ?_, ?_⟩
    · exact orderStage_none f S [] (limOffText false lim off) (by rw [hrem]; rfl)
        (by intro c hc; cases hc) (limOff_head_ws lim off) (limOff_order_false lim off)
    · rw [remaining_stepped, hrem]
      rfl
  | some l =>
    obtain ⟨hlne, hlwf⟩ := wfOrderBy_parts l hOB
    by_cases hno : lim = none ∧ off = none
    · obtain ⟨rfl, rfl⟩ := hno
      have hrem2 : remaining S = [] ++ ("order by ".data ++ (orderByChars l ++
          ([] ++ []))) := by
        rw [hrem, show tailText false (some l) none none =
          ([] ++ ("order by ".data ++ orderByChars l)) ++ [] from rfl]
        simp [List.append_assoc]
      have hstage := orderStage_some f l S [] [] [] hlne hlwf hrem2
        (by intro c hc; cases hc) (by intro c hc; cases hc) rfl
        (by intro h; cases h) rfl (hf l rfl)
      refine ⟨_, hstage, ?_⟩
      apply remaining_stepped_len S ("order by ".data ++ orderByChars l)
        (limOffText false none none) _
        (by
          rw [hrem, show tailText false (some l) none none =
            ([] ++ ("order by ".data ++ orderByChars l)) ++ [] from rfl]
          simp [List.append_assoc]
          rfl)
        (by
          simp only [List.length_append, List.length_nil]
          rw [show ("order by ".data : List Char).length = 9 from rfl]
          omega)
    · have hex : limOffText true lim off = [' '] ++ limOffText false lim off := by
        cases lim with
        | some q => rfl
        | none =>
          cases off with
          | some q => rfl
          | none => exact absurd ⟨rfl, rfl⟩ hno
      have hrem2 : remaining S = [] ++ ("order by ".data ++ (orderByChars l ++
          ([' '] ++ limOffText false lim off))) := by
        rw [hrem, show tailText false (some l) lim off =
          ([] ++ ("order by ".data ++ orderByChars l)) ++ limOffText true lim off
          from rfl, hex]
        simp [List.append_assoc]
      have htcf : ¬ (limOffText false lim off).head? = some ',' := by
        cases lim with
        | some q => exact fun h => absurd (Option.some.inj h) (by decide)
        | none =>
          cases off with
          | some q => exact fun h => absurd (Option.some.inj h) (by decide)
          | none => exact fun h => by cases h
      have hstage := orderStage_some f l S [] [' '] (limOffText false lim off)
        hlne hlwf hrem2 (by intro c hc; cases hc) (by decide)
        (limOff_head_ws lim off) htcf rfl (hf l rfl)
      refine ⟨_, hstage, ?_⟩
      apply remaining_stepped_len S ("order by ".data ++ (orderByChars l ++ [' ']))
        (limOffText false lim off) _
        (by rw [hrem2]; simp [List.append_assoc])
        (by
          simp only [List.length_append, List.length_nil, List.length_singleton]
          rw [show ("order by ".data : List Char).length = 9 from rfl]
          omega)

theorem whereStage_tail_some (fuel : Nat) (e : Expr) (ob : Option (List OrderByClause))
    (lim off : Option ℚ) (st0 : PState)
    (hwc : hasWhereClause st0 = true) (hwf : wfExpr e = true)
    (hrem : remaining st0 = expressionToString e ++ tailText true ob lim off)
    (hf : (expressionToString e).length + 1 ≤ fuel) :
    ∃ d, whereStage fuel st0 = .ok (some e,
      ⟨st0.input, st0.pos + ((expressionToString e).length +
        (if ob.isSome || lim.isSome || off.isSome then [' ']
          else ([] : List Char)).length), d⟩) ∧
      remaining (⟨st0.input, st0.pos + ((expressionToString e).length +
        (if ob.isSome || lim.isSome || off.isSome then [' ']
          else ([] : List Char)).length), d⟩ : PState) =
      tailText false ob lim off := by
  obtain ⟨hexit, hps, hpadw⟩ := tail_side_facts ob lim off
  have hrem2 : remaining st0 = expressionToString e ++
      ((if ob.isSome || lim.isSome || off.isSome then [' ']
        else ([] : List Char)) ++ tailText false ob lim off) := by
    rw [hrem, tailText_true_eq]
  obtain ⟨d, hws⟩ := whereStage_some fuel e st0 _ (tailText false ob lim off) hwc hwf
    hrem2 hpadw hexit hps hf
  refine ⟨d, hws, ?_⟩
  exact remaining_after st0 _ d (expressionToString e ++
    (if ob.isSome || lim.isSome || off.isSome then [' '] else ([] : List Char)))
    (tailText false ob lim off) (by rw [hrem2]; simp [List.append_assoc])
    (by simp [List.length_append])

theorem dirChars_concat (d : Dir) : ∃ x c, dirChars d = x ++ [c] ∧
    isWsChar c = false := by
  cases d with
  | asc => exact ⟨['a', 's'], 'c', by decide, by decide⟩
  | desc => exact ⟨"des".data, 'c', by decide, by decide⟩

theorem orderByChars_concat (l : List OrderByClause) : l ≠ [] →
    ∃ x c, orderByChars l = x ++ [c] ∧ isWsChar c = false := by
  induction l with
  | nil => exact fun h => absurd rfl h
  | cons c0 cs ih =>
    intro _
    cases cs with
    | nil =>
      obtain ⟨x, cc, hd, hw⟩ := dirChars_concat c0.direction
      refine ⟨c0.field ++ ' ' :: x, cc, ?_, hw⟩
      rw [orderByChars_one, hd]
      simp [List.append_assoc]
    | cons c1 ct =>
      obtain ⟨x, cc, hd, hw⟩ := ih (by intro h; cases h)
      refine ⟨(c0.field ++ ' ' :: dirChars c0.direction) ++ ", ".data ++ x, cc, ?_, hw⟩
      rw [orderByChars_cons2, hd]
      simp [List.append_assoc]

theorem offText_concat (p : Bool) (qo : ℚ) (hden : qo.den = 1) :
    ∃ x c, offText p (some qo) = x ++ [c] ∧ isWsChar c = false := by
  obtain ⟨x, c, hic, hcw⟩ := intDecimal_concat qo.num
  refine ⟨(if p then [' '] else []) ++ ("offset ".data ++ x), c, ?_, hcw⟩
  rw [show offText p (some qo) = (if p then [' '] else []) ++
    ("offset ".data ++ qToChars qo) from rfl]
  rw [qToChars_int qo hden, hic]
  simp [List.append_assoc]

theorem limOffText_concat (p : Bool) (lim off : Option ℚ)
    (hL : wfLimit lim = true) (hO : wfOffset off = true)
    (hone : (lim.isSome || off.isSome) = true) :
    ∃ x c, limOffText p lim off = x ++ [c] ∧ isWsChar c = false := by
  cases off with
  | some qo =>
    obtain ⟨hden, _, _⟩ := wfOffset_parts qo hO
    cases lim with
    | none =>
      obtain ⟨x, c, h, hw⟩ := offText_concat p qo hden
      exact ⟨x, c, h, hw⟩
    | some ql =>
      obtain ⟨x, c, h, hw⟩ := offText_concat true qo hden
      refine ⟨((if p then [' '] else []) ++ ("limit ".data ++ qToChars ql)) ++ x,
        c, ?_, hw⟩
      rw [show limOffText p (some ql) (some qo) =
        ((if p then [' '] else []) ++ ("limit ".data ++ qToChars ql)) ++
          offText true (some qo) from rfl, h]
      simp [List.append_assoc]
  | none =>
    cases lim with
    | some ql =>
      obtain ⟨hden, _, _⟩ := wfLimit_parts ql hL
      obtain ⟨x, c, hic, hcw⟩ := intDecimal_concat ql.num
      refine ⟨(if p then [' '] else []) ++ ("limit ".data ++ x), c, ?_, hcw⟩
      rw [show limOffText p (some ql) none =
        ((if p then [' '] else []) ++ ("limit ".data ++ qToChars ql)) ++
          offText true none from rfl]
      rw [qToChars_int ql hden, hic]
      rw [show offText true none = ([] : List Char) from rfl]
      simp [List.append_assoc]
    | none => exact absurd hone (by decide)

theorem tailText_concat (b : Bool) (ob : Option (List OrderByClause))
    (lim off : Option ℚ)
    (hOB : wfOrderBy ob = true) (hL : wfLimit lim = true) (hO : wfOffset off = true)
    (hone : (ob.isSome || lim.isSome || off.isSome) = true) :
    ∃ x c, tailText b ob lim off = x ++ [c] ∧ isWsChar c = false := by
  cases ob with
  | none =>
    have hone2 : (lim.isSome || off.isSome) = true := by
      cases lim <;> cases off <;> first | rfl | exact absurd hone (by decide)
    obtain ⟨x, c, h, hw⟩ := limOffText_concat b lim off hL hO hone2
    exact ⟨x, c, h, hw⟩
  | some l =>
    obtain ⟨hlne, _⟩ := wfOrderBy_parts l hOB
    by_cases h2 : (lim.isSome || off.isSome) = true
    · obtain ⟨x, c, h, hw⟩ := limOffText_concat true lim off hL hO h2
      refine ⟨((if b then [' '] else []) ++ ("order by ".data ++ orderByChars l)) ++ x,
        c, ?_, hw⟩
      rw [show tailText b (some l) lim off =
        ((if b then [' '] else []) ++ ("order by ".data ++ orderByChars l)) ++
          limOffText true lim off from rfl, h]
      simp [List.append_assoc]
    · have hlim : lim = none := by
        cases lim with
        | none => rfl
        | some q => exact absurd rfl h2
      subst hlim
      have hoff : off = none := by
        cases off with
        | none => rfl
        | some q => exact absurd rfl h2
      subst hoff
      obtain ⟨x, c, h, hw⟩ := orderByChars_concat l hlne
      refine ⟨(if b then [' '] else []) ++ ("order by ".data ++ x), c, ?_, hw⟩
      rw [show tailText b (some l) none none =
        ((if b then [' '] else []) ++ ("order by ".data ++ orderByChars l)) ++
          limOffText true none none from rfl, h]
      rw [show limOffText true none none = ([] : List Char) from rfl]
      simp [List.append_assoc]

theorem tailText_false_head (ob : Option (List OrderByClause)) (lim off : Option ℚ) :
    headNotB isWsChar (tailText false ob lim off) = true := by
  cases ob <;> cases lim <;> cases off <;> rfl

theorem tailText_false_isEmpty (ob : Option (List OrderByClause)) (lim off : Option ℚ)
    (hone : (ob.isSome || lim.isSome || off.isSome) = true) :
    (tailText false ob lim off).isEmpty = false := by
  cases ob <;> cases lim <;> cases off <;>
    first
      | rfl
      | exact absurd hone (by decide)

theorem tailText_hasWhere_false (ob : Option (List OrderByClause)) (lim off : Option ℚ)
    (hone : (ob.isSome || lim.isSome || off.isSome) = true) :
    hasWhereClause ⟨tailText false ob lim off, 0, []⟩ = false := by
  cases ob with
  | some l => exact hasWhereClause_false_of _ rfl (Or.inl rfl)
  | none =>
    cases lim with
    | some q => exact hasWhereClause_false_of _ rfl (Or.inr (Or.inl rfl))
    | none =>
      cases off with
      | some q => exact hasWhereClause_false_of _ rfl (Or.inr (Or.inr rfl))
      | none => exact absurd hone (by decide)

theorem wfQuery_eq (w : Option Expr) (ob : Option (List OrderByClause))
    (lim off : Option ℚ) :
    wfQuery ⟨w, ob, lim, off⟩ =
      (wfWhere w && wfOrderBy ob && wfLimit lim && wfOffset off &&
        (ob.isSome || lim.isSome || off.isSome || w.isSome)) := by
  cases w <;> cases ob <;> cases lim <;> cases off <;> rfl

theorem wfQuery_parts (w : Option Expr) (ob : Option (List OrderByClause))
    (lim off : Option ℚ) (h : wfQuery ⟨w, ob, lim, off⟩ = true) :
    wfWhere w = true ∧ wfOrderBy ob = true ∧ wfLimit lim = true ∧
    wfOffset off = true ∧ (ob.isSome || lim.isSome || off.isSome || w.isSome) = true := by
  rw [wfQuery_eq] at h
  simp only [Bool.and_eq_true] at h
  exact ⟨h.1.1.1.1, h.1.1.1.2, h.1.1.2, h.1.2, h.2⟩

theorem generate_eq_tail (w : Option Expr) (ob : Option (List OrderByClause))
    (lim off : Option ℚ)
    (hw : ∀ e, w = some e → expressionToString e ≠ [])
    (hob : ∀ l, ob = some l → l ≠ []) :
    generate ⟨w, ob, lim, off⟩ =
      (match w with
       | some e => expressionToString e ++ tailText true ob lim off
       | none => tailText false ob lim off) := by
  cases w with
  | none =>
    cases ob with
    | none =>
      cases lim <;> cases off <;>
        first
          | rfl
          | (rw [generate]
             dsimp only
             simp only [List.cons_append, List.nil_append]
             simp only [joinSpace_cons2, joinSpace_one]
             simp [tailText, limOffText, offText, List.append_assoc])
    | some l =>
      have hl : l.length > 0 := List.length_pos.mpr (hob l rfl)
      cases lim <;> cases off <;>
        (rw [generate]
         dsimp only
         rw [if_pos hl]
         simp only [List.cons_append, List.nil_append]
         simp only [joinSpace_cons2, joinSpace_one]
         simp [tailText, limOffText, offText, List.append_assoc])
  | some e =>
    have he : ¬ expressionToString e = [] := hw e rfl
    cases ob with
    | none =>
      cases lim <;> cases off <;>
        (rw [generate]
         dsimp only
         rw [if_neg he]
         simp only [List.cons_append, List.nil_append]
         simp only [joinSpace_cons2, joinSpace_one]
         simp [tailText, limOffText, offText, List.append_assoc])
    | some l =>
      have hl : l.length > 0 := List.length_pos.mpr (hob l rfl)
      cases lim <;> cases off <;>
        (rw [generate]
         dsimp only
         rw [if_neg he, if_pos hl]
         simp only [List.cons_append, List.nil_append]
         simp only [joinSpace_cons2, joinSpace_one]
         simp [tailText, limOffText, offText, List.append_assoc])

theorem parse_generate_wf (q : CompleteQueryAST) (hwf : wfQuery q = true) :
    parseCompleteFn (String.mk (generate q)) = .ok (some q) := by
  obtain ⟨w, ob, lim, off⟩ := q
  obtain ⟨hW, hOB, hL, hO, hone4⟩ := wfQuery_parts w ob lim off hwf
  have hgen := generate_eq_tail w ob lim off
    (fun e2 he2 => by
      cases he2
      intro hnil
      obtain ⟨hwe, _⟩ := wfWhere_parts e2 hW
      have hlenE := exprStr_len_pos e2 hwe
      rw [hnil] at hlenE
      simp at hlenE)
    (fun l hl => by
      cases hl
      exact (wfOrderBy_parts l hOB).1)
  cases w with
  | some e =>
    obtain ⟨hwe, _⟩ := wfWhere_parts e hW
    have hgen2 : generate ⟨some e, ob, lim, off⟩ =
        expressionToString e ++ tailText true ob lim off := hgen
    rw [hgen2]
    obtain ⟨cH, rH, hserH, hcwH, _⟩ := exprStr_head_facts e hwe
    rw [parseCompleteFn]
    have htrim : jsTrim (String.mk (expressionToString e ++
        tailText true ob lim off)).data =
        expressionToString e ++ tailText true ob lim off := by
      apply jsTrim_eq_self
      · show headNotB isWsChar
          (expressionToString e ++ tailText true ob lim off) = true
        rw [hserH, List.cons_append]
        exact headNotB_cons hcwH
      · show headNotB isWsChar
          (expressionToString e ++ tailText true ob lim off).reverse = true
        by_cases hone : (ob.isSome || lim.isSome || off.isSome) = true
        · obtain ⟨x, cc, htc2, hwc2⟩ := tailText_concat true ob lim off hOB hL hO hone
          rw [show expressionToString e ++ tailText true ob lim off =
            (expressionToString e ++ x) ++ [cc] from by
              rw [htc2]
              simp [List.append_assoc]]
          exact rev_headNotB_concat _ _ _ hwc2
        · have hnone : tailText true ob lim off = [] := by
            cases ob <;> cases lim <;> cases off <;>
              first | rfl | exact absurd rfl hone
          rw [hnone, List.append_nil]
          obtain ⟨x, cc, hec, hwc2⟩ := exprStr_concat e hwe
          rw [hec]
          exact rev_headNotB_concat _ _ _ hwc2
    rw [htrim]
    rw [if_neg (show ¬((expressionToString e ++
        tailText true ob lim off).isEmpty = true) from by
      rw [hserH, List.cons_append]
      exact fun h => Bool.false_ne_true h)]
    have hwc : hasWhereClause
        (⟨expressionToString e ++ tailText true ob lim off, 0, []⟩ : PState) = true :=
      hasWhereClause_true_ser e _ hW
    have hrem0 : remaining (⟨expressionToString e ++ tailText true ob lim off, 0,
        []⟩ : PState) = expressionToString e ++ tailText true ob lim off :=
      List.drop_zero _
    obtain ⟨d, hS1, hr1⟩ := whereStage_tail_some
      ((expressionToString e ++ tailText true ob lim off).length + 1) e ob lim off
      _ hwc hwe hrem0 (by simp only [List.length_append]; omega)
    have hfOB : ∀ l2, ob = some l2 →
        l2.length + 1 ≤ (expressionToString e ++ tailText true ob lim off).length + 1 := by
      intro l2 hl2
      subst hl2
      obtain ⟨hlne2, _⟩ := wfOrderBy_parts l2 hOB
      cases l2 with
      | nil => exact absurd rfl hlne2
      | cons cc cs =>
        have h1 := orderByChars_length_ge cc cs
        have h2 : (tailText true (some (cc :: cs)) lim off).length =
            1 + (9 + (orderByChars (cc :: cs)).length) +
              (limOffText true lim off).length := by
          rw [show tailText true (some (cc :: cs)) lim off =
            ([' '] ++ ("order by ".data ++ orderByChars (cc :: cs))) ++
              limOffText true lim off from rfl]
          simp only [List.length_append, List.length_singleton]
          rw [show ("order by ".data : List Char).length = 9 from rfl]
        simp only [List.length_append]
        omega
    obtain ⟨S2, hS2, hr2⟩ := ordStage_tail
      ((expressionToString e ++ tailText true ob lim off).length + 1) ob lim off
      _ hOB hr1 hfOB
    obtain ⟨S3, hS3, hr3⟩ := limStage_tail lim off S2 hL hO hr2
    obtain ⟨S4, hS4, hr4⟩ := offStage_tail off lim.isSome S3 hO hr3
    rw [pipeline_compose _ (some e) ob lim off _ S2 S3 S4 hS1 hS2 hS3 hS4]
    dsimp only
    rw [trailingCheck_end _ _ hr4]
  | none =>
    have hone : (ob.isSome || lim.isSome || off.isSome) = true := by
      simp only [Bool.or_eq_true] at hone4 ⊢
      rcases hone4 with ((h | h) | h) | h
      · exact Or.inl (Or.inl h)
      · exact Or.inl (Or.inr h)
      · exact Or.inr h
      · exact absurd h (by decide)
    have hgen2 : generate ⟨none, ob, lim, off⟩ = tailText false ob lim off := hgen
    rw [hgen2]
    rw [parseCompleteFn]
    have htrim : jsTrim (String.mk (tailText false ob lim off)).data =
        tailText false ob lim off := by
      apply jsTrim_eq_self
      · exact tailText_false_head ob lim off
      · show headNotB isWsChar (tailText false ob lim off).reverse = true
        obtain ⟨x, cc, htc2, hwc2⟩ := tailText_concat false ob lim off hOB hL hO hone
        rw [htc2]
        exact rev_headNotB_concat _ _ _ hwc2
    rw [htrim]
    rw [if_neg (show ¬((tailText false ob lim off).isEmpty = true) from by
      rw [tailText_false_isEmpty ob lim off hone]
      exact Bool.false_ne_true)]
    have hrem0 : remaining (⟨tailText false ob lim off, 0, []⟩ : PState) =
        tailText false ob lim off := List.drop_zero _
    have hS1 := whereStage_none ((tailText false ob lim off).length + 1)
      (⟨tailText false ob lim off, 0, []⟩ : PState)
      (tailText_hasWhere_false ob lim off hone)
    have hfOB : ∀ l2, ob = some l2 →
        l2.length + 1 ≤ (tailText false ob lim off).length + 1 := by
      intro l2 hl2
      subst hl2
      obtain ⟨hlne2, _⟩ := wfOrderBy_parts l2 hOB
      cases l2 with
      | nil => exact absurd rfl hlne2
      | cons cc cs =>
        have h1 := orderByChars_length_ge cc cs
        have h2 : (tailText false (some (cc :: cs)) lim off).length =
            9 + (orderByChars (cc :: cs)).length +
              (limOffText true lim off).length := by
          rw [show tailText false (some (cc :: cs)) lim off =
            ([] ++ ("order by ".data ++ orderByChars (cc :: cs))) ++
              limOffText true lim off from rfl]
          simp only [List.length_append, List.length_nil]
          rw [show ("order by ".data : List Char).length = 9 from rfl]
          omega
        omega
    obtain ⟨S2, hS2, hr2⟩ := ordStage_tail ((tailText false ob lim off).length + 1)
      ob lim off _ hOB hrem0 hfOB
    obtain ⟨S3, hS3, hr3⟩ := limStage_tail lim off S2 hL hO hr2
    obtain ⟨S4, hS4, hr4⟩ := offStage_tail off lim.isSome S3 hO hr3
    rw [pipeline_compose _ none ob lim off _ S2 S3 S4 hS1 hS2 hS3 hS4]
    dsimp only
    rw [trailingCheck_end _ _ hr4]

/-- C1 counterexample: the claim includes Queries containing a Negation
node, but the serialized form `not A = 1` of such a Query does not parse
back: `parsePrimary` reads `not` as a field name and then fails on ` A`
with ExpectedOperator, so the round trip breaks on Negation. -/
theorem c1_negation_roundtrip_counterexample :
    generate ⟨some (.enot (.pred "A".data .eq (.vnum 1))), none, none, none⟩ =
      "not A = 1".data ∧
    parseCompleteFn (String.mk (generate
      ⟨some (.enot (.pred "A".data .eq (.vnum 1))), none, none, none⟩)) =
      .error (.expectedOperator 4) := by
  constructor
  · rfl
  · rfl

/-- C1 (corrected): for every well-formed Query — predicates built from
field predicates and combinators (no Negation, no bare FunctionCall node),
with parser-compatible field names, values, sort fields and in-range
integral limit/offset, and at least one clause present — parsing the text
produced by serializing it yields exactly the original Query. -/
theorem c1_generate_parse_roundtrip_wf (q : CompleteQueryAST)
    (hwf : wfQuery q = true) :
    parseCompleteFn (String.mk (generate q)) = .ok (some q) :=
  parse_generate_wf q hwf

/-- Witness: a concrete well-formed Query with all four clauses exercises
the corrected C1 round trip. -/
theorem c1_generate_parse_roundtrip_wf_witness :
    wfQuery ⟨some (.pred "name".data .eq (.vstr "ok".data)),
      some [⟨"age".data, .desc⟩], some (10 : ℚ), some (0 : ℚ)⟩ = true ∧
    parseCompleteFn (String.mk (generate
      ⟨some (.pred "name".data .eq (.vstr "ok".data)),
        some [⟨"age".data, .desc⟩], some (10 : ℚ), some (0 : ℚ)⟩)) =
      .ok (some ⟨some (.pred "name".data .eq (.vstr "ok".data)),
        some [⟨"age".data, .desc⟩], some (10 : ℚ), some (0 : ℚ)⟩) :=
  ⟨by decide, c1_generate_parse_roundtrip_wf _ (by decide)⟩

end KQuery

